import Mathlib

/-!
# Replication-consistency core: verification development

Shallow embedding of

* `service/history/api/replication/generate_task.go` (`GenerateTask`),
* the scripted peer of `tests/ndc/replication_migration_back_test.go`
  (`mockActiveGetRawHistoryApiCalls`, `mockActiveGetRawHistoryResponse`),
* `common/searchattribute/manager.go` (the cache of search attributes),
* `tools/cassandra/main.go` (`cliHandler` and the action of `drop-keyspace`),
* the version-history model, the remote history fetcher and the apply protocol,
  whose implementation lives in packages outside the sampled sources and is
  therefore modelled from the design document.

Go values are embedded as follows: `int64` is `Int` (wrapped where arithmetic can
overflow), a `(T, error)` result is a three-way result type (value, error, panic),
a nil-able pointer or byte slice is an `Option`, and calls on collaborators are
recorded in an explicit trace.
-/

namespace Temporal

/-! ## Part 1: `GenerateTask` -/

/-- A Go `error` value returned by a collaborator. -/
structure GoError where
  msg : String
deriving DecidableEq, Repr

/-- Result of a Go function returning `(*T, error)` that may also panic. -/
inductive GoResult (α : Type) where
  | ok (value : α)
  | error (err : GoError)
  | panic
deriving DecidableEq, Repr

/-- Two's complement wrap-around of `int64` arithmetic. -/
def wrapInt64 (x : Int) : Int := (x + 2 ^ 63) % 2 ^ 64 - 2 ^ 63

/-- The message `commonpb.WorkflowExecution`. -/
structure WorkflowExecution where
  workflowId : String
  runId : String
deriving DecidableEq, Repr

/-- The message `historyservice.GenerateLastHistoryReplicationTasksRequest`; the field
`Execution` is a pointer and may be nil. -/
structure GenerateLastHistoryReplicationTasksRequest where
  namespaceId : String
  execution : Option WorkflowExecution
  targetClusters : List String
deriving DecidableEq, Repr

/-- The message `historyservice.GenerateLastHistoryReplicationTasksResponse`. -/
structure GenerateLastHistoryReplicationTasksResponse where
  stateTransitionCount : Int
  historyLength : Int
deriving DecidableEq, Repr

/-- The value built by `definition.NewWorkflowKey`. -/
structure WorkflowKey where
  namespaceID : String
  workflowID : String
  runID : String
deriving DecidableEq, Repr

/-- Values of `chasm.Archetype`; `any` is `chasm.ArchetypeAny`. -/
inductive Archetype where
  | any
  | named (name : String)
deriving DecidableEq, Repr

/-- Values of `locks.Priority`; `high` is `locks.PriorityHigh`. -/
inductive Priority where
  | high
  | low
deriving DecidableEq, Repr

/-- A replication task produced by `GenerateMigrationTasks` (opaque to `GenerateTask`). -/
structure Task where
  id : Nat
deriving DecidableEq, Repr

/-- Values of `tasks.Category` used as keys of `AddHistoryTasksRequest.Tasks`. -/
inductive Category where
  | replication
  | other (id : Nat)
deriving DecidableEq, Repr

/-- The message `persistence.AddHistoryTasksRequest` (the range ID is set by the shard). -/
structure AddHistoryTasksRequest where
  shardID : Int
  namespaceID : String
  workflowID : String
  tasks : List (Category × List Task)
deriving DecidableEq, Repr

/-- The namespace registry entry; only its ID is read. -/
structure NamespaceEntry where
  id : String
deriving DecidableEq, Repr

/-- The lease returned by `GetChasmLease`: the behaviour of its mutable state as seen by
`GenerateTask`.  The release function is observed through the call trace. -/
structure ChasmLease where
  generateMigrationTasks : List String → Except GoError (List Task × Int)
  nextEventID : Int

/-- The collaborators of `GenerateTask`: the namespace registry reached through the shard, the
workflow consistency checker and the shard itself. -/
structure Env where
  getNamespace : String → Except GoError NamespaceEntry
  getChasmLease : WorkflowKey → Archetype → Priority → Except GoError ChasmLease
  addTasks : AddHistoryTasksRequest → Option GoError
  shardID : Int

/-- One call made by `GenerateTask` on a collaborator, with its arguments. -/
inductive Call where
  | getNamespace (namespaceID : String)
  | getChasmLease (key : WorkflowKey) (archetype : Archetype) (priority : Priority)
  | generateMigrationTasks (targetClusters : List String)
  | addTasks (request : AddHistoryTasksRequest)
  | getNextEventID
  | release (retError : Option GoError)
deriving DecidableEq, Repr

/-- The body of `GenerateTask` after the deferred release has been registered: returns the
function result and the calls made, in order. -/
def generateTaskLeased (env : Env) (request : GenerateLastHistoryReplicationTasksRequest)
    (namespaceID : String) (execution : WorkflowExecution) (lease : ChasmLease) :
    GoResult GenerateLastHistoryReplicationTasksResponse × List Call :=
  match lease.generateMigrationTasks request.targetClusters with
  | .error err => (.error err, [.generateMigrationTasks request.targetClusters])
  | .ok (replicationTasks, stateTransitionCount) =>
    let addRequest : AddHistoryTasksRequest :=
      { shardID := env.shardID
        namespaceID := namespaceID
        workflowID := execution.workflowId
        tasks := [(Category.replication, replicationTasks)] }
    match env.addTasks addRequest with
    | some err =>
      (.error err, [.generateMigrationTasks request.targetClusters, .addTasks addRequest])
    | none =>
      let historyLength := max (wrapInt64 (lease.nextEventID - 1)) 0
      (.ok { stateTransitionCount := stateTransitionCount, historyLength := historyLength },
        [.generateMigrationTasks request.targetClusters, .addTasks addRequest, .getNextEventID])

/-- The named result `retError` as the deferred function reads it when the body returns. -/
def retErrorOf {α : Type} : GoResult α → Option GoError
  | .error err => some err
  | _ => none

/-- The function `GenerateTask`: result and trace of collaborator calls.  Reading
`request.Execution.WorkflowId` through a nil `Execution` panics while the arguments of
`GetChasmLease` are evaluated. -/
def GenerateTask (env : Env) (request : GenerateLastHistoryReplicationTasksRequest) :
    GoResult GenerateLastHistoryReplicationTasksResponse × List Call :=
  match env.getNamespace request.namespaceId with
  | .error err => (.error err, [.getNamespace request.namespaceId])
  | .ok namespaceEntry =>
    let namespaceID := namespaceEntry.id
    match request.execution with
    | none => (.panic, [.getNamespace request.namespaceId])
    | some execution =>
      let key : WorkflowKey :=
        { namespaceID := namespaceID, workflowID := execution.workflowId, runID := execution.runId }
      match env.getChasmLease key Archetype.any Priority.high with
      | .error err =>
        (.error err, [.getNamespace request.namespaceId, .getChasmLease key .any .high])
      | .ok chasmLease =>
        let body := generateTaskLeased env request namespaceID execution chasmLease
        (body.1,
          [.getNamespace request.namespaceId, .getChasmLease key .any .high] ++ body.2 ++
            [.release (retErrorOf body.1)])

/-- The arguments of the release calls in a trace, in order. -/
def releases : List Call → List (Option GoError)
  | [] => []
  | .release e :: rest => e :: releases rest
  | _ :: rest => releases rest

/-- A call that reads or mutates the run's state, or releases its lease. -/
def Call.touchesRun : Call → Bool
  | .generateMigrationTasks _ => true
  | .addTasks _ => true
  | .getNextEventID => true
  | .release _ => true
  | _ => false

/-- The lease requests in a trace, in order. -/
def leaseRequests : List Call → List (WorkflowKey × Archetype × Priority)
  | [] => []
  | .getChasmLease k a p :: rest => (k, a, p) :: leaseRequests rest
  | _ :: rest => leaseRequests rest


/-- A lease used to exercise `GenerateTask`: task generation succeeds and the next event ID
is 13. -/
def sampleLease : ChasmLease :=
  { generateMigrationTasks := fun _ => .ok ([{ id := 1 }], 3)
    nextEventID := 13 }

/-- Collaborators used to exercise `GenerateTask`: one known namespace and one known run. -/
def sampleEnv : Env :=
  { getNamespace := fun id =>
      if id = "ns-1" then .ok { id := "ns-1" } else .error { msg := "namespace not found" }
    getChasmLease := fun key _ _ =>
      if key.runID = "run-1" then .ok sampleLease else .error { msg := "workflow not found" }
    addTasks := fun _ => none
    shardID := 1 }

/-- A request for the known run of `sampleEnv`. -/
def sampleRequest : GenerateLastHistoryReplicationTasksRequest :=
  { namespaceId := "ns-1"
    execution := some { workflowId := "wf-1", runId := "run-1" }
    targetClusters := ["cluster-b"] }

/-- A request for a run that `sampleEnv` cannot lease. -/
def sampleRequestUnknownRun : GenerateLastHistoryReplicationTasksRequest :=
  { namespaceId := "ns-1"
    execution := some { workflowId := "wf-1", runId := "run-2" }
    targetClusters := ["cluster-b"] }

/-! ## Part 2: history events, version history items and the scripted peer of the test suite -/

/-- Event types occurring in the test histories (`enumspb.EventType`). -/
inductive EventType where
  | workflowExecutionStarted
  | workflowTaskScheduled
  | workflowTaskStarted
  | workflowTaskCompleted
  | workflowExecutionCompleted
  | timerStarted
  | timerFired
  | timerCanceled
  | other
deriving DecidableEq, Repr

/-- The message `historypb.HistoryEvent`, reduced to the fields the protocol reads. -/
structure HistoryEvent where
  eventId : Int
  version : Int
  eventType : EventType
deriving DecidableEq, Repr

/-- One persisted page of history: `[]*historypb.HistoryEvent`. -/
abbrev EventBatch := List HistoryEvent

/-- The message `historyspb.VersionHistoryItem`. -/
structure VersionHistoryItem where
  eventId : Int
  version : Int
deriving DecidableEq, Repr

/-- The message `historyspb.VersionHistory`: a branch token and the lineage items. -/
structure VersionHistory where
  branchToken : Nat
  items : List VersionHistoryItem
deriving DecidableEq, Repr

/-- The message `commonpb.DataBlob` holding a serialized event batch; the blob is identified
with the batch it decodes to. -/
structure DataBlob where
  events : EventBatch
deriving DecidableEq, Repr

/-- Modelled from the spec: the constant `common.EmptyEventID`, declared outside the sampled
files; the value 0 is the start bound that the test suite writes literally in its V2 request. -/
def EmptyEventID : Int := 0

/-- Modelled from the spec: the constant `common.EmptyVersion`, declared outside the sampled
files; the value 0 is the start version that the test suite writes literally in its V2
request. -/
def EmptyVersion : Int := 0

/-- The two raw-history read methods of the admin client. -/
inductive RpcMethod where
  | getWorkflowExecutionRawHistory
  | getWorkflowExecutionRawHistoryV2
deriving DecidableEq, Repr

/-- The message `adminservice.GetWorkflowExecutionRawHistoryRequest` (and its V2 twin, which has
the same fields).  A nil page token is `none`. -/
structure RawHistoryRequest where
  namespaceId : String
  workflowId : String
  runId : String
  startEventId : Int
  startEventVersion : Int
  endEventId : Int
  endEventVersion : Int
  maximumPageSize : Int
  nextPageToken : Option String
deriving DecidableEq, Repr

/-- The message `adminservice.GetWorkflowExecutionRawHistoryResponse`. -/
structure RawHistoryResponse where
  nextPageToken : Option String
  historyBatches : List DataBlob
  versionHistory : Option VersionHistory
deriving DecidableEq, Repr

/-- A recorded `*gomock.Call`: the expected method and request, the scripted return values, the
allowed number of calls (`none` for `AnyTimes`) and the number of calls received so far. -/
structure ExpectedCall where
  method : RpcMethod
  request : RawHistoryRequest
  returnResponse : RawHistoryResponse
  returnError : Option GoError
  times : Option Nat
  numCalls : Nat
deriving DecidableEq, Repr

/-- The method `(*gomock.Call).Times`. -/
def ExpectedCall.Times (c : ExpectedCall) (n : Nat) : ExpectedCall := { c with times := some n }

/-- The method `(*gomock.Call).AnyTimes`. -/
def ExpectedCall.AnyTimes (c : ExpectedCall) : ExpectedCall := { c with times := none }

/-- The part of `ReplicationMigrationBackTestSuite` read by the helpers: the namespace ID and the
expectations recorded on `mockAdminClient["cluster-a"]`, in registration order. -/
structure Suite where
  namespaceID : String
  expected : List ExpectedCall
deriving DecidableEq, Repr

/-- The method `serializeEvents` of the suite. -/
def serializeEvents (events : EventBatch) : DataBlob := { events := events }

/-- The method `mockActiveGetRawHistoryResponse`: the expectation for one
`GetWorkflowExecutionRawHistory` call (a fresh gomock call is expected once). -/
def mockActiveGetRawHistoryResponse (s : Suite) (workflowID runID : String)
    (startEventID startEventVersion endEventID endEventVersion : Int) (token : Option String)
    (returnResponse : RawHistoryResponse) (returnError : Option GoError) : ExpectedCall :=
  { method := .getWorkflowExecutionRawHistory
    request :=
      { namespaceId := s.namespaceID
        workflowId := workflowID
        runId := runID
        startEventId := startEventID
        startEventVersion := startEventVersion
        endEventId := endEventID
        endEventVersion := endEventVersion
        maximumPageSize := 100
        nextPageToken := token }
    returnResponse := returnResponse
    returnError := returnError
    times := some 1
    numCalls := 0 }

/-- Go's `string(rune(i))` for an `int` index: the conversion to `int32` wraps, and a value that
is not a Unicode scalar becomes U+FFFD. -/
def runeString (i : Nat) : String :=
  let r : Int := ((i : Int) + 2 ^ 31) % 2 ^ 32 - 2 ^ 31
  if 0 ≤ r ∧ Nat.isValidChar r.toNat then String.singleton (Char.ofNat r.toNat)
  else String.singleton (Char.ofNat 0xFFFD)

/-- The loop `for i := 1; i < len(eventBatches); i++` of `mockActiveGetRawHistoryApiCalls`,
as a recursion over `eventBatches[i:]`: the last index registers a response without next-page
token and breaks, every other index registers a response carrying a fresh token. -/
def mockActiveGetRawHistoryApiCallsLoop (s : Suite) (workflowID runID : String)
    (lastEvent : HistoryEvent) (history : Option VersionHistory) :
    Nat → String → List EventBatch → List ExpectedCall
  | _, _, [] => []
  | _, token, [batch] =>
    [(mockActiveGetRawHistoryResponse s workflowID runID EmptyEventID EmptyVersion
        lastEvent.eventId lastEvent.version (some token)
        { nextPageToken := none
          historyBatches := [serializeEvents batch]
          versionHistory := history } none).Times 1]
  | i, token, batch :: next :: rest =>
    let nextToken := runID ++ "-next-page-token" ++ runeString i
    (mockActiveGetRawHistoryResponse s workflowID runID EmptyEventID EmptyVersion
        lastEvent.eventId lastEvent.version (some token)
        { nextPageToken := some nextToken
          historyBatches := [serializeEvents batch]
          versionHistory := history } none).Times 1 ::
      mockActiveGetRawHistoryApiCallsLoop s workflowID runID lastEvent history (i + 1) nextToken
        (next :: rest)

/-- The expectations registered by `mockActiveGetRawHistoryApiCalls`, in order; `none` when
indexing the last batch or its last event panics. -/
def mockActiveGetRawHistoryApiCallsRegistered (s : Suite) (workflowID runID : String)
    (eventBatches : List EventBatch) (history : Option VersionHistory) :
    Option (List ExpectedCall) :=
  match eventBatches.getLast? with
  | none => none
  | some lastBatch =>
    match lastBatch.getLast? with
    | none => none
    | some lastEvent =>
      match eventBatches with
      | [] => none
      | [only] =>
        some [(mockActiveGetRawHistoryResponse s workflowID runID EmptyEventID EmptyVersion
          lastEvent.eventId lastEvent.version none
          { nextPageToken := none
            historyBatches := [serializeEvents only]
            versionHistory := history } none).Times 1]
      | first :: rest =>
        let token := runID ++ "-next-page-token" ++ "0"
        some ((mockActiveGetRawHistoryResponse s workflowID runID EmptyEventID EmptyVersion
          lastEvent.eventId lastEvent.version none
          { nextPageToken := some token
            historyBatches := [serializeEvents first]
            versionHistory := history } none).Times 1 ::
          mockActiveGetRawHistoryApiCallsLoop s workflowID runID lastEvent history 1 token rest)

/-- The method `mockActiveGetRawHistoryApiCalls`: the suite after the expectations have been
recorded on the mock admin client, `none` on a panic. -/
def mockActiveGetRawHistoryApiCalls (s : Suite) (workflowID runID : String)
    (eventBatches : List EventBatch) (history : Option VersionHistory) : Option Suite :=
  (mockActiveGetRawHistoryApiCallsRegistered s workflowID runID eventBatches history).map
    fun calls => { s with expected := s.expected ++ calls }

/-- The message `replicationspb.ReplicationTask` as built by the suite: the history task
attributes (the task type is always the history task). -/
structure ReplicationTask where
  namespaceId : String
  workflowId : String
  runId : String
  versionHistoryItems : List VersionHistoryItem
  events : DataBlob
  newRunEvents : Option DataBlob
deriving DecidableEq, Repr

/-- The method `createHistoryEventReplicationTaskFromHistoryEventBatch`. -/
def createHistoryEventReplicationTaskFromHistoryEventBatch (namespaceId workflowId runId : String)
    (events : EventBatch) (newRunEvents : Option EventBatch)
    (versionHistoryItems : List VersionHistoryItem) : ReplicationTask :=
  { namespaceId := namespaceId
    workflowId := workflowId
    runId := runId
    versionHistoryItems := versionHistoryItems
    events := serializeEvents events
    newRunEvents := newRunEvents.map serializeEvents }

/-! ## Part 3: version history model (design §4.1) -/

/-- Error kinds of the reconciliation core (design §7), with the failure of the scripted peer
(`unexpectedCall`) and an error returned by the peer RPC (`rpc`). -/
inductive NdcError where
  | invalidSequence
  | historyGap
  | noCommonAncestor
  | cancelled
  | unavailable
  | alreadyExists
  | unexpectedCall
  | rpc (err : GoError)
deriving DecidableEq, Repr

/-- Equality of results is decidable when equality of errors and values is. -/
instance {ε α : Type} [DecidableEq ε] [DecidableEq α] : DecidableEq (Except ε α) :=
  fun a b =>
    match a, b with
    | .ok x, .ok y =>
      if h : x = y then isTrue (congrArg Except.ok h)
      else isFalse fun h2 => h (Except.ok.inj h2)
    | .error x, .error y =>
      if h : x = y then isTrue (congrArg Except.error h)
      else isFalse fun h2 => h (Except.error.inj h2)
    | .ok _, .error _ => isFalse fun h => Except.noConfusion h
    | .error _, .ok _ => isFalse fun h => Except.noConfusion h

/-- Modelled from the spec: `AppendItem(history, item)` of the version history model, whose source
is not among the sampled files: "fails with `InvalidSequence` if `item.eventID ≤ last.eventID` or
`item.version < last.version`"; otherwise the item becomes the new last item. -/
def AppendItem (history : VersionHistory) (item : VersionHistoryItem) :
    Except NdcError VersionHistory :=
  match history.items.getLast? with
  | none => .ok { history with items := [item] }
  | some last =>
    if item.eventId ≤ last.eventId ∨ item.version < last.version then .error .invalidSequence
    else .ok { history with items := history.items ++ [item] }

/-- Modelled from the spec: a version history "built by successful appends": the items are
appended in order with `AppendItem`, and the first failure aborts. -/
def AppendItems (history : VersionHistory) : List VersionHistoryItem → Except NdcError VersionHistory
  | [] => .ok history
  | item :: rest =>
    match AppendItem history item with
    | .error e => .error e
    | .ok next => AppendItems next rest

/-- Modelled from the spec: validity of an item sequence (design §3): "eventID is strictly
increasing and version is non-decreasing within the sequence". -/
def Monotonic (items : List VersionHistoryItem) : Prop :=
  items.Chain' fun a b => a.eventId < b.eventId ∧ a.version ≤ b.version

/-- Modelled from the spec: the version that a lineage assigns to an event ID.  Items are
checkpoints "identifying which cluster authored each segment", so the event belongs to the first
item whose event ID is not below it. -/
def versionAt (items : List VersionHistoryItem) (eventId : Int) : Option Int :=
  (items.find? fun item => decide (eventId ≤ item.eventId)).map fun item => item.version

/-- Modelled from the spec: `FindLCA(historyA, historyB)`: "the last item present (by eventID) in
both sequences with matching version; fails with `NoCommonAncestor` if sequences share no
prefix". -/
def FindLCA (historyA historyB : List VersionHistoryItem) : Except NdcError VersionHistoryItem :=
  match (historyA.filter fun item => historyB.contains item).getLast? with
  | some item => .ok item
  | none => .error .noCommonAncestor

/-- Modelled from the spec: the event IDs shared by two lineages: 1 up to the smaller of the two
final event IDs. -/
def sharedEventIds (local_ incoming : List VersionHistoryItem) : List Int :=
  match local_.getLast?, incoming.getLast? with
  | some a, some b => (List.range (min a.eventId b.eventId).toNat).map fun k => (k : Int) + 1
  | _, _ => []

/-- Modelled from the spec: divergence of two lineages: "version mismatch at some shared
eventID". -/
def Diverges (local_ incoming : List VersionHistoryItem) : Bool :=
  (sharedEventIds local_ incoming).any fun e => versionAt local_ e != versionAt incoming e

/-- Modelled from the spec: `IsContinuation(local, incoming)`: "true iff the incoming sequence's
first item's eventID equals local's last item's eventID + 1 and matching version lineage up to
that point (no fork)".  The first incoming event ID is passed next to the incoming lineage. -/
def IsContinuation (local_ incoming : List VersionHistoryItem) (firstEventId : Int) : Bool :=
  match local_.getLast? with
  | none => false
  | some last => decide (firstEventId = last.eventId + 1) && !Diverges local_ incoming

/-- Modelled from the spec: the classification returned by `CompareForFork`. -/
inductive Classification where
  | continuation
  | duplicate
  | fork (lca : VersionHistoryItem)
  | newHistory
deriving DecidableEq, Repr

/-- Modelled from the spec: `CompareForFork(local, incoming)`: "`NewHistory` when local has no
prior history", "`Duplicate` when incoming's final eventID ≤ local's final eventID on the same
branch" (the final incoming item lies on the local lineage), "`Fork` when incoming diverges before
local's tail (version mismatch at some shared eventID)", with the common ancestor of `FindLCA`;
`Continuation` otherwise.  An incoming lineage without items is rejected as malformed. -/
def CompareForFork (local_ incoming : List VersionHistoryItem) :
    Except NdcError Classification :=
  match local_.getLast?, incoming.getLast? with
  | none, _ => .ok .newHistory
  | some _, none => .error .invalidSequence
  | some last, some final =>
    if final.eventId ≤ last.eventId ∧ versionAt local_ final.eventId = some final.version then
      .ok .duplicate
    else if Diverges local_ incoming then
      match FindLCA local_ incoming with
      | .ok lca => .ok (.fork lca)
      | .error e => .error e
    else .ok .continuation

/-- Modelled from the spec: the lineage after one more applied event.  Items are checkpoints of
segments authored at one version (glossary, "version history"): an event that continues the last
segment moves its checkpoint, any other event opens a segment through `AppendItem`. -/
def recordEvent (history : VersionHistory) (event : HistoryEvent) :
    Except NdcError VersionHistory :=
  match history.items.getLast? with
  | none => AppendItem history { eventId := event.eventId, version := event.version }
  | some last =>
    if event.version = last.version ∧ last.eventId < event.eventId then
      .ok { history with
            items := history.items.dropLast ++
              [{ eventId := event.eventId, version := event.version }] }
    else AppendItem history { eventId := event.eventId, version := event.version }

/-- Modelled from the spec: the lineage after a sequence of applied events. -/
def recordEvents (history : VersionHistory) : List HistoryEvent → Except NdcError VersionHistory
  | [] => .ok history
  | event :: rest =>
    match recordEvent history event with
    | .error e => .error e
    | .ok next => recordEvents next rest

/-! ## Part 4: remote history fetcher (design §4.3) and the gomock peer -/

/-- Modelled from the spec: `RunKey` (design §3): "(namespaceID, workflowID, runID): immutable
identity of one workflow execution attempt". -/
structure RunKey where
  namespaceID : String
  workflowID : String
  runID : String
deriving DecidableEq, Repr

/-- Modelled from the spec: the `pageSize` argument of the paginated read call (design §6); the
value is the `MaximumPageSize` that the scripted peer of the test suite expects. -/
def fetchPageSize : Int := 100

/-- Modelled from the spec: the token-chaining loop of the fetcher (design §4.3): "each RPC call
supplies the same fixed bounds plus an opaque continuation token (empty/absent on first call);
response carries the next page's events and either a next token or none, signaling end of range".
The peer is a state-passing call; the fuel bounds the number of pages fetched before the caller's
deadline cancels the fetch. -/
def fetchPages {σ : Type} (call : σ → RawHistoryRequest → Except NdcError RawHistoryResponse × σ) :
    Nat → σ → RawHistoryRequest → Except NdcError (List EventBatch) × σ
  | 0, peer, _ => (.error .cancelled, peer)
  | fuel + 1, peer, request =>
    match call peer request with
    | (.error e, peer1) => (.error e, peer1)
    | (.ok response, peer1) =>
      let page := response.historyBatches.map fun blob => blob.events
      match response.nextPageToken with
      | none => (.ok page, peer1)
      | some token =>
        if token = "" then (.ok page, peer1)
        else
          match fetchPages call fuel peer1 { request with nextPageToken := some token } with
          | (.error e, peer2) => (.error e, peer2)
          | (.ok rest, peer2) => (.ok (page ++ rest), peer2)

/-- Modelled from the spec: the gap check of the fetcher (design §4.3): the cumulative batches
"terminate exactly at (endEventID, endVersion)". -/
def terminatesAt (batches : List EventBatch) (endEventId endVersion : Int) : Bool :=
  match batches.flatten.getLast? with
  | some event => decide (event.eventId = endEventId) && decide (event.version = endVersion)
  | none => false

/-- Modelled from the spec: the arguments of one paginated read call (design §6): "(namespaceID,
RunKey, startEventID, startVersion, endEventID, endVersion, pageSize, continuationToken)". -/
def rangeRequest (key : RunKey) (startEventId startVersion endEventId endVersion : Int)
    (token : Option String) : RawHistoryRequest :=
  { namespaceId := key.namespaceID
    workflowId := key.workflowID
    runId := key.runID
    startEventId := startEventId
    startEventVersion := startVersion
    endEventId := endEventId
    endEventVersion := endVersion
    maximumPageSize := fetchPageSize
    nextPageToken := token }

/-- Modelled from the spec: `FetchRangeInclusive` of the remote history fetcher (design §4.3),
whose source is not among the sampled files: it follows the continuation tokens from the start
bound and "must fail with `HistoryGap` if the cumulative batches do not terminate exactly at
(endEventID, endVersion)".  The registry of peer clients is reduced to the one peer of a
two-cluster setup. -/
def FetchRangeInclusive {σ : Type}
    (call : σ → RawHistoryRequest → Except NdcError RawHistoryResponse × σ) (fuel : Nat) (peer : σ)
    (key : RunKey) (startEventId startVersion endEventId endVersion : Int) :
    Except NdcError (List EventBatch) × σ :=
  match fetchPages call fuel peer
      (rangeRequest key startEventId startVersion endEventId endVersion none) with
  | (.error e, peer1) => (.error e, peer1)
  | (.ok batches, peer1) =>
    if terminatesAt batches endEventId endVersion then (.ok batches, peer1)
    else (.error .historyGap, peer1)

/-- Whether a recorded gomock call has received its maximal number of calls. -/
def ExpectedCall.exhausted (c : ExpectedCall) : Bool :=
  match c.times with
  | some n => decide (n ≤ c.numCalls)
  | none => false

/-- Whether a recorded gomock call has received its minimal number of calls. -/
def ExpectedCall.satisfied (c : ExpectedCall) : Bool :=
  match c.times with
  | some n => decide (n ≤ c.numCalls)
  | none => true

/-- A recorded gomock call after it has answered one more call. -/
def ExpectedCall.called (c : ExpectedCall) : ExpectedCall := { c with numCalls := c.numCalls + 1 }

/-- The gomock controller receiving a call: the first recorded call, in registration order, that
expects this method and request and is not exhausted answers and counts the call; `none` when no
recorded call accepts it. -/
def findMatch (method : RpcMethod) (request : RawHistoryRequest) :
    List ExpectedCall → Option (ExpectedCall × List ExpectedCall)
  | [] => none
  | c :: rest =>
    if c.method = method ∧ c.request = request ∧ c.exhausted = false then
      some (c, c.called :: rest)
    else
      match findMatch method request rest with
      | some (found, rest1) => some (found, c :: rest1)
      | none => none

/-- The mock admin client of "cluster-a" answering a raw-history call from its recorded
expectations; a call that no expectation accepts fails the test. -/
def mockAdminClientCall (method : RpcMethod) (s : Suite) (request : RawHistoryRequest) :
    Except NdcError RawHistoryResponse × Suite :=
  match findMatch method request s.expected with
  | none => (.error .unexpectedCall, s)
  | some (found, expected1) =>
    match found.returnError with
    | some err => (.error (.rpc err), { s with expected := expected1 })
    | none => (.ok found.returnResponse, { s with expected := expected1 })

/-- Modelled from the spec: a peer cluster that holds a stored history and serves the batches
lying after the start bound and up to the end bound, `perPage` batches per call, with the
offset of the next page as continuation token (design §6, outbound RPC). -/
structure PeerHistory where
  batches : List EventBatch
  perPage : Nat
deriving DecidableEq, Repr

/-- Modelled from the spec: the batches of a stored history "starting immediately after
(startEventID, startVersion) up to and including (endEventID, endVersion)" (design §4.3): the
batches whose events lie in the event ID range `(startEventId, endEventId]`. -/
def batchesInRange (batches : List EventBatch) (startEventId endEventId : Int) :
    List EventBatch :=
  batches.filter fun batch =>
    batch.all fun event => decide (startEventId < event.eventId) && decide (event.eventId ≤ endEventId)

/-- Modelled from the spec: the "opaque continuation token" of a `PeerHistory`, encoding the
offset of the next page. -/
def offsetToken (offset : Nat) : String := String.mk (List.replicate offset 'x')

/-- Modelled from the spec: the paginated read call of a `PeerHistory` (design §6): the page at
the offset of the token, and a next token unless the range is exhausted. -/
def PeerHistory.call (peer : PeerHistory) (request : RawHistoryRequest) :
    Except NdcError RawHistoryResponse × PeerHistory :=
  let range := batchesInRange peer.batches request.startEventId request.endEventId
  let offset := match request.nextPageToken with
    | none => 0
    | some token => token.length
  let next := offset + peer.perPage
  (.ok { nextPageToken := if next < range.length then some (offsetToken next) else none
         historyBatches := ((range.drop offset).take peer.perPage).map serializeEvents
         versionHistory := none }, peer)

/-- A recorded call that cannot answer a `GetWorkflowExecutionRawHistory` call for a run: it is
exhausted, expects the other method, or expects another run. -/
def ExpectedCall.inertFor (c : ExpectedCall) (runID : String) : Prop :=
  c.exhausted = true ∨ c.method ≠ .getWorkflowExecutionRawHistory ∨ c.request.runId ≠ runID

/-! ## Part 5: the apply protocol of the transaction manager (design §4.4) -/

/-- Values of `enumsspb.WorkflowExecutionState` reached in the test scenarios. -/
inductive WorkflowExecutionState where
  | created
  | running
  | completed
deriving DecidableEq, Repr

/-- Modelled from the spec: the mutable execution state of a run (design §3, "Workflow"), reduced
to what the test suite reads back: the execution state, the number of entries of `TimerInfos`
and the next event ID. -/
structure MutableState where
  executionState : WorkflowExecutionState
  timerInfos : Nat
  nextEventId : Int
deriving DecidableEq, Repr

/-- Modelled from the spec: the mutable state of a run before its first event is replayed. -/
def MutableState.initial : MutableState :=
  { executionState := .created, timerInfos := 0, nextEventId := 1 }

/-- Modelled from the spec: replay of one event during "rebuild" (glossary): the start event
opens the run, the completion event completes it, a timer-started event adds a timer ("a timer
started event, so it should have a timer in mutablestate", test suite) and a fired or canceled
timer removes one. -/
def replayEvent (state : MutableState) (event : HistoryEvent) : MutableState :=
  let state := { state with nextEventId := event.eventId + 1 }
  match event.eventType with
  | .workflowExecutionStarted => { state with executionState := .running }
  | .workflowExecutionCompleted => { state with executionState := .completed }
  | .timerStarted => { state with timerInfos := state.timerInfos + 1 }
  | .timerFired => { state with timerInfos := state.timerInfos - 1 }
  | .timerCanceled => { state with timerInfos := state.timerInfos - 1 }
  | _ => state

/-- Modelled from the spec: "rebuild": the mutable state obtained by "replaying all events from
genesis" (design §4.4). -/
def rebuild (batches : List EventBatch) : MutableState :=
  batches.flatten.foldl replayEvent MutableState.initial

/-- The message `historyspb.VersionHistories`: the histories of a run and the index of the
current one. -/
structure VersionHistories where
  currentVersionHistoryIndex : Nat
  histories : List VersionHistory
deriving DecidableEq, Repr

/-- Modelled from the spec: the persisted record of one run: its version histories, the event
batches stored under each branch token, and its mutable state. -/
structure WorkflowRecord where
  versionHistories : VersionHistories
  eventStore : List (Nat × List EventBatch)
  mutableState : MutableState
deriving DecidableEq, Repr

/-- The current version history of a record. -/
def WorkflowRecord.currentHistory (record : WorkflowRecord) : Option VersionHistory :=
  record.versionHistories.histories[record.versionHistories.currentVersionHistoryIndex]?

/-- The event batches stored under a branch token. -/
def WorkflowRecord.branchBatches (record : WorkflowRecord) (token : Nat) : List EventBatch :=
  (record.eventStore.lookup token).getD []

/-- Modelled from the spec: the persistence collaborator (design §6), "an opaque transactional
key space keyed by run". -/
abbrev Store := List (RunKey × WorkflowRecord)

/-- Modelled from the spec: a committed write of the persistence collaborator: an existing record
of the run is replaced in place, a new one is added. -/
def storePut : Store → RunKey → WorkflowRecord → Store
  | [], key, record => [(key, record)]
  | (key1, record1) :: rest, key, record =>
    if key1 = key then (key, record) :: rest else (key1, record1) :: storePut rest key record

/-- Modelled from the spec: the append of the persistence collaborator: a batch is added to the
batches stored under a branch token. -/
def appendBatch : List (Nat × List EventBatch) → Nat → EventBatch → List (Nat × List EventBatch)
  | [], token, batch => [(token, [batch])]
  | (token1, batches) :: rest, token, batch =>
    if token1 = token then (token1, batches ++ [batch]) :: rest
    else (token1, batches) :: appendBatch rest token batch

/-- Modelled from the spec: the resolution function of the design notes (§9), "keyed by
VersionHistoryItem.version", telling whether a version was authored by the local cluster; the test
suite relies on it ("this version has to point to passive cluster to trigger migration back
case"). -/
structure ClusterConfig where
  ownsVersion : Int → Bool

/-- Modelled from the spec: the operations of the apply protocol (design §4.2, §4.3, §4.4), as
recorded in the order they are performed. -/
inductive Op where
  | acquireLease (key : RunKey) (priority : Priority)
  | checkWorkflowExists (key : RunKey) (found : Bool)
  | loadWorkflow (key : RunKey)
  | fetchRange (key : RunKey) (startEventId startVersion endEventId endVersion : Int)
  | createWorkflow (key : RunKey)
  | backfillWorkflow (key : RunKey) (batches : List EventBatch)
  | updateWorkflow (key : RunKey) (isWorkflowRebuilt : Bool)
  | releaseLease (key : RunKey) (err : Option NdcError)
deriving DecidableEq, Repr

/-- Modelled from the spec: the outcome of a successful application: the committed store and the
classification. -/
structure Applied where
  store : Store
  classification : Classification
deriving DecidableEq, Repr

/-- Modelled from the spec: the result of applying one task: the peer after the fetches, the
operations performed, and the committed outcome or the error (in which case nothing is
committed). -/
structure ApplyResult (σ : Type) where
  peer : σ
  ops : List Op
  outcome : Except NdcError Applied

/-- Modelled from the spec: the incoming sequence of a task: the sender's lineage up to the
final event of the task's batch ("incoming's final eventID"). -/
def incomingLineage (lineage : List VersionHistoryItem) (last : HistoryEvent) :
    List VersionHistoryItem :=
  (lineage.filter fun item => decide (item.eventId < last.eventId)) ++
    [{ eventId := last.eventId, version := last.version }]

/-- Modelled from the spec: step 2 of the apply protocol and its `NewHistory` twin (design §4.4):
the run has no local history.  A batch authored by the local cluster triggers migration back:
the history is imported from the peer from the beginning through the lineage item covering the
batch (test suite: "it should import events with id 1 to 10 (inclusive)").  Otherwise the first
batch of the run is committed with `CreateWorkflow`, and a later batch first backfills the events
"[1, firstTaskEventID)" from the peer and then proceeds "as a continuation". -/
def applyNewHistory {σ : Type} (cfg : ClusterConfig)
    (call : σ → RawHistoryRequest → Except NdcError RawHistoryResponse × σ) (fuel : Nat)
    (store : Store) (peer : σ) (key : RunKey) (lineage : List VersionHistoryItem)
    (batch : EventBatch) (first last : HistoryEvent) : ApplyResult σ :=
  if cfg.ownsVersion last.version then
    match lineage.find? fun item => decide (last.eventId ≤ item.eventId) with
    | none => { peer := peer, ops := [], outcome := .error .invalidSequence }
    | some endItem =>
      let fetchOp := Op.fetchRange key EmptyEventID EmptyVersion endItem.eventId endItem.version
      match FetchRangeInclusive call fuel peer key EmptyEventID EmptyVersion endItem.eventId
          endItem.version with
      | (.error e, peer1) => { peer := peer1, ops := [fetchOp], outcome := .error e }
      | (.ok batches, peer1) =>
        match recordEvents { branchToken := 0, items := [] } batches.flatten with
        | .error e => { peer := peer1, ops := [fetchOp], outcome := .error e }
        | .ok history =>
          if versionAt history.items last.eventId = some last.version then
            { peer := peer1
              ops := [fetchOp, .backfillWorkflow key batches, .updateWorkflow key true]
              outcome := .ok
                { store := storePut store key
                    { versionHistories := { currentVersionHistoryIndex := 0, histories := [history] }
                      eventStore := [(0, batches)]
                      mutableState := rebuild batches }
                  classification := .newHistory } }
          else { peer := peer1, ops := [fetchOp], outcome := .error .historyGap }
  else if first.eventId = 1 then
    match recordEvents { branchToken := 0, items := [] } batch with
    | .error e => { peer := peer, ops := [], outcome := .error e }
    | .ok history =>
      { peer := peer
        ops := [.createWorkflow key]
        outcome := .ok
          { store := storePut store key
              { versionHistories := { currentVersionHistoryIndex := 0, histories := [history] }
                eventStore := [(0, [batch])]
                mutableState := rebuild [batch] }
            classification := .newHistory } }
  else
    match versionAt lineage (first.eventId - 1) with
    | none => { peer := peer, ops := [], outcome := .error .invalidSequence }
    | some endVersion =>
      let fetchOp := Op.fetchRange key EmptyEventID EmptyVersion (first.eventId - 1) endVersion
      match FetchRangeInclusive call fuel peer key EmptyEventID EmptyVersion (first.eventId - 1)
          endVersion with
      | (.error e, peer1) => { peer := peer1, ops := [fetchOp], outcome := .error e }
      | (.ok batches, peer1) =>
        match recordEvents { branchToken := 0, items := [] } (batches.flatten ++ batch) with
        | .error e => { peer := peer1, ops := [fetchOp], outcome := .error e }
        | .ok history =>
          { peer := peer1
            ops := [fetchOp, .backfillWorkflow key batches, .updateWorkflow key false]
            outcome := .ok
              { store := storePut store key
                  { versionHistories :=
                      { currentVersionHistoryIndex := 0, histories := [history] }
                    eventStore := [(0, batches ++ [batch])]
                    mutableState := rebuild (batches ++ [batch]) }
                classification := .newHistory } }

/-- Modelled from the spec: the `Continuation` case (design §4.4): "apply task's EventBatch
directly, `UpdateWorkflow(isWorkflowRebuilt=false, ...)`"; a batch that does not start right after
the local history is rejected as a gap. -/
def applyContinuation {σ : Type} (store : Store) (peer : σ) (key : RunKey)
    (record : WorkflowRecord) (current : VersionHistory) (incoming : List VersionHistoryItem)
    (batch : EventBatch) (first : HistoryEvent) : ApplyResult σ :=
  if IsContinuation current.items incoming first.eventId then
    match recordEvents current batch with
    | .error e => { peer := peer, ops := [], outcome := .error e }
    | .ok history =>
      { peer := peer
        ops := [.updateWorkflow key false]
        outcome := .ok
          { store := storePut store key
              { versionHistories :=
                  { record.versionHistories with
                    histories := record.versionHistories.histories.set
                      record.versionHistories.currentVersionHistoryIndex history }
                eventStore := appendBatch record.eventStore current.branchToken batch
                mutableState := batch.foldl replayEvent record.mutableState }
            classification := .continuation } }
  else { peer := peer, ops := [], outcome := .error .historyGap }

/-- Modelled from the spec: the token of a new event-storage branch, not used by the histories
of the record. -/
def freshToken (histories : List VersionHistory) : Nat :=
  (histories.map fun history => history.branchToken).foldl max 0 + 1

/-- Modelled from the spec: the events of a stored branch from genesis through an event ID, in
their batches: a batch that reaches beyond the event ID contributes the events up to it, and a
batch lying wholly beyond it contributes nothing. -/
def batchesThrough (batches : List EventBatch) (eventId : Int) : List EventBatch :=
  (batches.map fun stored => stored.filter fun event => decide (event.eventId ≤ eventId)).filter
    fun stored => !stored.isEmpty

/-- Modelled from the spec: the `Fork(lca)` case (design §4.4): "Fetch the missing range
(lca.eventID, lca.version) exclusive through the incoming task's own start bound",
"`BackfillWorkflow` the fetched batches, then rebuild mutable state by replaying all events from
genesis through the newly completed lineage, and `UpdateWorkflow(isWorkflowRebuilt=true, ...)`".
The new lineage consists of all local events from genesis through the common ancestor, the
fetched batches and the task's batch; it becomes the current history, the old branch is kept. -/
def applyFork {σ : Type}
    (call : σ → RawHistoryRequest → Except NdcError RawHistoryResponse × σ) (fuel : Nat)
    (store : Store) (peer : σ) (key : RunKey) (record : WorkflowRecord)
    (current : VersionHistory) (incoming : List VersionHistoryItem) (batch : EventBatch)
    (first : HistoryEvent) (lca : VersionHistoryItem) : ApplyResult σ :=
  let shared := batchesThrough (record.branchBatches current.branchToken) lca.eventId
  let token := freshToken record.versionHistories.histories
  let commit (peer1 : σ) (fetchOps : List Op) (fetched : List EventBatch) : ApplyResult σ :=
    match recordEvents { branchToken := token, items := [] }
        (shared ++ fetched ++ [batch]).flatten with
    | .error e => { peer := peer1, ops := fetchOps, outcome := .error e }
    | .ok history =>
      { peer := peer1
        ops := fetchOps ++ [.backfillWorkflow key fetched, .updateWorkflow key true]
        outcome := .ok
          { store := storePut store key
              { versionHistories :=
                  { currentVersionHistoryIndex := record.versionHistories.histories.length
                    histories := record.versionHistories.histories ++ [history] }
                eventStore := record.eventStore ++ [(token, shared ++ fetched ++ [batch])]
                mutableState := rebuild (shared ++ fetched ++ [batch]) }
            classification := .fork lca } }
  if lca.eventId + 1 < first.eventId then
    match versionAt incoming (first.eventId - 1) with
    | none => { peer := peer, ops := [], outcome := .error .invalidSequence }
    | some endVersion =>
      let fetchOp := Op.fetchRange key lca.eventId lca.version (first.eventId - 1) endVersion
      match FetchRangeInclusive call fuel peer key lca.eventId lca.version (first.eventId - 1)
          endVersion with
      | (.error e, peer1) => { peer := peer1, ops := [fetchOp], outcome := .error e }
      | (.ok fetched, peer1) => commit peer1 [fetchOp] fetched
  else commit peer [] []

/-- Modelled from the spec: steps 2 and 3 of the apply protocol (design §4.4), performed under
the lease: existence check, load, classification with `CompareForFork`, and the case of the
classification.  A task without events is rejected as malformed.  The optional new-run batch of
a task is carried by the task but the creation of the new run is not part of the model. -/
def applyLeased {σ : Type} (cfg : ClusterConfig)
    (call : σ → RawHistoryRequest → Except NdcError RawHistoryResponse × σ) (fuel : Nat)
    (store : Store) (peer : σ) (task : ReplicationTask) : ApplyResult σ :=
  let key : RunKey :=
    { namespaceID := task.namespaceId, workflowID := task.workflowId, runID := task.runId }
  let batch := task.events.events
  match batch.head?, batch.getLast? with
  | some first, some last =>
    let incoming := incomingLineage task.versionHistoryItems last
    match store.lookup key with
    | none =>
      let r := applyNewHistory cfg call fuel store peer key task.versionHistoryItems batch first
        last
      { r with ops := Op.checkWorkflowExists key false :: r.ops }
    | some record =>
      let loadOps := [Op.checkWorkflowExists key true, Op.loadWorkflow key]
      match record.currentHistory with
      | none => { peer := peer, ops := loadOps, outcome := .error .invalidSequence }
      | some current =>
        match CompareForFork current.items incoming with
        | .error e => { peer := peer, ops := loadOps, outcome := .error e }
        | .ok .duplicate =>
          { peer := peer, ops := loadOps
            outcome := .ok { store := store, classification := .duplicate } }
        | .ok .newHistory =>
          let r := applyNewHistory cfg call fuel store peer key task.versionHistoryItems batch
            first last
          { r with ops := loadOps ++ r.ops }
        | .ok .continuation =>
          let r := applyContinuation store peer key record current incoming batch first
          { r with ops := loadOps ++ r.ops }
        | .ok (.fork lca) =>
          let r := applyFork call fuel store peer key record current incoming batch first lca
          { r with ops := loadOps ++ r.ops }
  | _, _ => { peer := peer, ops := [], outcome := .error .invalidSequence }

/-- The error reported to the lease's release callback. -/
def outcomeError {α : Type} : Except NdcError α → Option NdcError
  | .error e => some e
  | .ok _ => none

/-- Modelled from the spec: the apply protocol for one incoming task (design §4.4): "Acquire
Lease for RunKey (priority: high ...)", steps 2 and 3, then "Release lease reporting nil on
success, the triggering error otherwise". -/
def ApplyReplicationTask {σ : Type} (cfg : ClusterConfig)
    (call : σ → RawHistoryRequest → Except NdcError RawHistoryResponse × σ) (fuel : Nat)
    (store : Store) (peer : σ) (task : ReplicationTask) : ApplyResult σ :=
  let key : RunKey :=
    { namespaceID := task.namespaceId, workflowID := task.workflowId, runID := task.runId }
  let r := applyLeased cfg call fuel store peer task
  { r with
    ops := [Op.acquireLease key .high] ++ r.ops ++ [Op.releaseLease key (outcomeError r.outcome)] }

/-- Validity of the persisted version histories: every stored lineage is monotonic
(design §3). -/
def StoreValid (store : Store) : Prop :=
  ∀ entry ∈ store, ∀ history ∈ entry.2.versionHistories.histories, Monotonic history.items

/-- The current history of a run in a store covers the final event of a batch: the event ID is
not beyond the last checkpoint and the lineage assigns it the event's version. -/
def HoldsBatchEnd (store : Store) (key : RunKey) (last : HistoryEvent) : Prop :=
  ∃ record current lastItem, store.lookup key = some record ∧
    record.currentHistory = some current ∧ current.items.getLast? = some lastItem ∧
    last.eventId ≤ lastItem.eventId ∧ versionAt current.items last.eventId = some last.version

/-! ## Part 6: the scenarios of the test suite -/

/-- Modelled from the spec: the event batches of `workflow_1` in the test data file
`migration_back_forth.json`, which is not among the sampled files.  Layout and versions follow
the doc comment of the tests ("events are organized in 8 batches: [{1,1}], [{2,1}], [{3,1}],
[{4,1},{5,1}], [{6,2},{7,2}], [{8,2}], [{9,2},{10,2}], [{11,11},{12,11}]"); the type of each
event is that of the data file, given by `eventType` for the event ID. -/
def migrationBackForthBatches (eventType : Int → EventType) : List EventBatch :=
  [ [⟨1, 1, eventType 1⟩],
    [⟨2, 1, eventType 2⟩],
    [⟨3, 1, eventType 3⟩],
    [⟨4, 1, eventType 4⟩, ⟨5, 1, eventType 5⟩],
    [⟨6, 2, eventType 6⟩, ⟨7, 2, eventType 7⟩],
    [⟨8, 2, eventType 8⟩],
    [⟨9, 2, eventType 9⟩, ⟨10, 2, eventType 10⟩],
    [⟨11, 11, eventType 11⟩, ⟨12, 11, eventType 12⟩] ]

/-- Event types used to exercise the scenarios: the run starts with event 1, a timer is started
by event 5 and fires with event 6, and event 10 "is a timer started event" (test suite). -/
def sampleEventType (eventId : Int) : EventType :=
  if eventId = 1 then .workflowExecutionStarted
  else if eventId = 5 then .timerStarted
  else if eventId = 6 then .timerFired
  else if eventId = 10 then .timerStarted
  else .other

/-- The timers that a sequence of events leaves pending, by counting: the timer-started events
minus the timer-fired and timer-canceled events. -/
def timerBalance (events : List HistoryEvent) : Int :=
  (events.countP fun event => decide (event.eventType = .timerStarted)) -
    (events.countP fun event =>
      decide (event.eventType = .timerFired) || decide (event.eventType = .timerCanceled))

/-- A sequence of events in which no timer fires or is canceled before it was started: no prefix
closes more timers than it starts. -/
def TimersWellFormed (events : List HistoryEvent) : Prop :=
  ∀ n : Nat, 0 ≤ timerBalance (events.take n)

/-- Modelled from the spec: the version history of `workflow_1` in the test data file, from the
doc comment of the tests: "version history is [{5,1},{10,2},{12,11}]". -/
def migrationBackForthHistory : VersionHistory :=
  { branchToken := 0, items := [⟨5, 1⟩, ⟨10, 2⟩, ⟨12, 11⟩] }

/-- Modelled from the spec: the resolution function of the passive cluster of the suite
("cluster-b"): version 2 points to the passive cluster (test suite), versions 1 and 11 belong to
the peer. -/
def passiveClusterConfig : ClusterConfig :=
  { ownsVersion := fun version => decide (version = 2) }

/-- The number of pages a fetch of the passive cluster may read before its deadline. -/
def passiveFetchBudget : Nat := 1000

/-- The Go slice expression `eventBatches[low:high]`. -/
def sliceBatches (eventBatches : List EventBatch) (low high : Nat) : List EventBatch :=
  (eventBatches.drop low).take (high - low)

/-- Supplying a task on `standByReplicationTasksChan`: the passive cluster, holding `store`,
applies the task with the mock admin client of "cluster-a" as its peer. -/
def supplyTask (s : Suite) (store : Store) (task : ReplicationTask) : ApplyResult Suite :=
  ApplyReplicationTask passiveClusterConfig
    (mockAdminClientCall .getWorkflowExecutionRawHistory) passiveFetchBudget store s task

/-- The expectation on `GetWorkflowExecutionRawHistoryV2` recorded by
`TestHistoryReplication_LongRunningMigrationBack_ReplicationTaskContainsRemoteEvents`. -/
def remoteEventsRawHistoryV2Expectation (s : Suite) (workflowId runId : String)
    (eventBatches : List EventBatch) (history : VersionHistory) : ExpectedCall :=
  ({ method := .getWorkflowExecutionRawHistoryV2
     request :=
       { namespaceId := s.namespaceID
         workflowId := workflowId
         runId := runId
         startEventId := 0
         startEventVersion := 0
         endEventId := 11
         endEventVersion := 11
         maximumPageSize := 100
         nextPageToken := none }
     returnResponse :=
       { nextPageToken := none
         historyBatches := (sliceBatches eventBatches 0 7).map serializeEvents
         versionHistory := some history }
     returnError := none
     times := some 1
     numCalls := 0 } : ExpectedCall).AnyTimes

/-- The test `TestHistoryReplication_LongRunningMigrationBack_ReplicationTaskContainsRemoteEvents`
up to the point where the passive cluster has processed the supplied task: the peer is scripted
with the first seven batches, then the task with the eighth batch and the full lineage is
supplied to a passive cluster without local state.  The result of
`GetEventBatchesFromTestEvents` is the data of `workflow_1` with the event types `eventType`.
`none` when the script panics. -/
def longRunningMigrationBackRemoteEvents (s : Suite) (eventType : Int → EventType)
    (workflowId runId : String) : Option (ApplyResult Suite) :=
  let eventBatches := migrationBackForthBatches eventType
  let history := migrationBackForthHistory
  match mockActiveGetRawHistoryApiCalls s workflowId runId (sliceBatches eventBatches 0 7)
      (some history) with
  | none => none
  | some s1 =>
    let s2 : Suite :=
      { s1 with
        expected := s1.expected ++
          [remoteEventsRawHistoryV2Expectation s1 workflowId runId eventBatches history] }
    match eventBatches[7]? with
    | none => none
    | some supplied =>
      some (supplyTask s2 []
        (createHistoryEventReplicationTaskFromHistoryEventBatch s2.namespaceID workflowId runId
          supplied none history.items))

/-- The method `longRunningMigrationBackReplicationTaskContainsLocalEventsTestBase` up to the
point where the passive cluster has processed the supplied task.  The result of
`GetEventBatchesFromTestEvents` is the data of `workflow_1` with the event types `eventType`.
`none` when the script panics. -/
def longRunningMigrationBackReplicationTaskContainsLocalEventsTestBase (s : Suite)
    (eventType : Int → EventType) (workflowID runID : String)
    (supplyBatchIndex expectedRetrievingBatchesStartIndex
      expectedRetrievingBatchesEndIndex : Nat) : Option (ApplyResult Suite) :=
  let eventBatches := migrationBackForthBatches eventType
  let history := migrationBackForthHistory
  match mockActiveGetRawHistoryApiCalls s workflowID runID
      (sliceBatches eventBatches expectedRetrievingBatchesStartIndex
        expectedRetrievingBatchesEndIndex) (some history) with
  | none => none
  | some s1 =>
    match eventBatches[supplyBatchIndex]? with
    | none => none
    | some supplied =>
      some (supplyTask s1 []
        (createHistoryEventReplicationTaskFromHistoryEventBatch s1.namespaceID workflowID runID
          supplied none history.items))

/-- The suite before a test: a registered namespace and no recorded expectation. -/
def freshSuite : Suite := { namespaceID := "namespace-id", expected := [] }

/-- The record of a run stored by a successful application. -/
def committedRecord {σ : Type} (r : ApplyResult σ) (key : RunKey) : Option WorkflowRecord :=
  match r.outcome with
  | .ok applied => applied.store.lookup key
  | .error _ => none

/-- Modelled from the spec: the run of the fork reconciliation example (design §8). -/
def forkExampleKey : RunKey :=
  { namespaceID := "namespace-id", workflowID := "workflow-id", runID := "run-id" }

/-- Modelled from the spec: the local state that the fork reconciliation example (design §8)
takes as given: the history [(5,v1)] whose "current branch independently advanced to
[(5,v1),(7,v1)]", with events 1-5 and 6-7 stored at version 1.  The lineage is a valid sequence
(design §3) and is what `AppendItem` gives for [(5,v1)] and (7,v1); it is an input of the
example and not an outcome of the apply protocol, which moves the checkpoint of a segment
continued at the same version. -/
def forkExampleStore : Store :=
  [ (forkExampleKey,
      { versionHistories :=
          { currentVersionHistoryIndex := 0
            histories := [{ branchToken := 0, items := [⟨5, 1⟩, ⟨7, 1⟩] }] }
        eventStore :=
          [ (0, [ [⟨1, 1, .workflowExecutionStarted⟩, ⟨2, 1, .other⟩, ⟨3, 1, .other⟩,
                   ⟨4, 1, .other⟩, ⟨5, 1, .other⟩],
                  [⟨6, 1, .other⟩, ⟨7, 1, .other⟩] ]) ]
        mutableState := { executionState := .running, timerInfos := 0, nextEventId := 8 } }) ]

/-- Modelled from the spec: the local state of the fork reconciliation example with another
batching of the stored events: events 1-3 and 4-7, so that the second batch reaches beyond the
common ancestor (5,v1). -/
def forkExampleStoreStraddling : Store :=
  [ (forkExampleKey,
      { versionHistories :=
          { currentVersionHistoryIndex := 0
            histories := [{ branchToken := 0, items := [⟨5, 1⟩, ⟨7, 1⟩] }] }
        eventStore :=
          [ (0, [ [⟨1, 1, .workflowExecutionStarted⟩, ⟨2, 1, .other⟩, ⟨3, 1, .other⟩],
                  [⟨4, 1, .other⟩, ⟨5, 1, .other⟩, ⟨6, 1, .other⟩, ⟨7, 1, .other⟩] ]) ]
        mutableState := { executionState := .running, timerInfos := 0, nextEventId := 8 } }) ]

/-- Modelled from the spec: the peer of the fork reconciliation example, holding the history of
the incoming lineage [(5,v1),(10,v2)] and serving one batch per page. -/
def forkExamplePeer : PeerHistory :=
  { batches :=
      [ [⟨1, 1, .workflowExecutionStarted⟩, ⟨2, 1, .other⟩, ⟨3, 1, .other⟩,
         ⟨4, 1, .other⟩, ⟨5, 1, .other⟩],
        [⟨6, 2, .other⟩, ⟨7, 2, .other⟩, ⟨8, 2, .other⟩],
        [⟨9, 2, .other⟩, ⟨10, 2, .other⟩] ]
    perPage := 1 }

/-- Modelled from the spec: the incoming task of the fork reconciliation example: the batch of
events 9-10 at version 2 with the lineage [(5,v1),(10,v2)]. -/
def forkExampleTask : ReplicationTask :=
  createHistoryEventReplicationTaskFromHistoryEventBatch "namespace-id" "workflow-id" "run-id"
    [⟨9, 2, .other⟩, ⟨10, 2, .other⟩] none [⟨5, 1⟩, ⟨10, 2⟩]

/-- Modelled from the spec: the local cluster of the fork reconciliation example authored
version 1. -/
def forkExampleConfig : ClusterConfig :=
  { ownsVersion := fun version => decide (version = 1) }

/-- The fork reconciliation example: the local cluster applies the incoming task. -/
def forkExample : ApplyResult PeerHistory :=
  ApplyReplicationTask forkExampleConfig PeerHistory.call 10 forkExampleStore forkExamplePeer
    forkExampleTask

/-- A peer that stopped replicating after event 10: it holds the first seven source batches and
serves one batch per page. -/
def truncatedPeer : PeerHistory :=
  { batches := sliceBatches (migrationBackForthBatches sampleEventType) 0 7, perPage := 1 }

/-- The method `getEventSlices` of the suite: the three event batches of a short run, events 1-5
at one version, ending with the completion of the run.  Event times (shifted by `timeDrift`),
task IDs and attributes are not part of `HistoryEvent`. -/
def getEventSlices (version : Int) (timeDrift : Int) : List EventBatch :=
  let _ := timeDrift
  let slice1 : EventBatch :=
    [ { eventId := 1, version := version, eventType := .workflowExecutionStarted },
      { eventId := 2, version := version, eventType := .workflowTaskScheduled } ]
  let slice2 : EventBatch :=
    [ { eventId := 3, version := version, eventType := .workflowTaskStarted } ]
  let slice3 : EventBatch :=
    [ { eventId := 4, version := version, eventType := .workflowTaskCompleted },
      { eventId := 5, version := version, eventType := .workflowExecutionCompleted } ]
  [slice1, slice2, slice3]

/-- Modelled from the spec: the test helper `testcore.EventBatchesToVersionHistory`, declared
outside the sampled files: the lineage of a sequence of event batches, built on a given history
(the empty one for nil) by recording every event. -/
def EventBatchesToVersionHistory (versionHistory : Option VersionHistory)
    (eventBatches : List EventBatch) : Except NdcError VersionHistory :=
  recordEvents (versionHistory.getD { branchToken := 0, items := [] }) eventBatches.flatten

/-- The store of the passive cluster after an application: the committed store, or the store
as it was when the application failed. -/
def storeAfter (store : Store) (r : ApplyResult Suite) : Store :=
  match r.outcome with
  | .ok applied => applied.store
  | .error _ => store

/-- The test `TestHistoryReplication_MultiRunMigrationBack` up to the point where the passive
cluster has processed both supplied tasks: the peer is scripted with the batches of both runs,
then the first batch of run 1 and the first batch of run 2 are supplied, one after the other, to
a passive cluster without local state.  The result of each application; `none` when the script
panics or the lineage cannot be built. -/
def multiRunMigrationBack (s : Suite) (workflowId runId1 runId2 : String) :
    Option (ApplyResult Suite × ApplyResult Suite) :=
  let version : Int := 2
  let run1Slices := getEventSlices version 0
  let run2Slices := getEventSlices version 10
  match EventBatchesToVersionHistory none (sliceBatches run1Slices 0 3) with
  | .error _ => none
  | .ok history =>
    match mockActiveGetRawHistoryApiCalls s workflowId runId1 run1Slices (some history) with
    | none => none
    | some s1 =>
      match mockActiveGetRawHistoryApiCalls s1 workflowId runId2 run2Slices (some history) with
      | none => none
      | some s2 =>
        match run1Slices[0]?, run2Slices[0]? with
        | some supplied1, some supplied2 =>
          let r1 := supplyTask s2 []
            (createHistoryEventReplicationTaskFromHistoryEventBatch s2.namespaceID workflowId
              runId1 supplied1 none history.items)
          some (r1, supplyTask r1.peer (storeAfter [] r1)
            (createHistoryEventReplicationTaskFromHistoryEventBatch s2.namespaceID workflowId
              runId2 supplied2 none history.items))
        | _, _ => none

/-- The lineage of the runs of the multi-run test: events 1-5 at version 2. -/
def multiRunHistory : VersionHistory := { branchToken := 0, items := [⟨5, 2⟩] }

/-- The calls that the multi-run test records on the mock admin client for one run. -/
def multiRunScript (namespaceID workflowId runId : String) : List ExpectedCall :=
  (mockActiveGetRawHistoryApiCallsRegistered { namespaceID := namespaceID, expected := [] }
    workflowId runId (getEventSlices 2 0) (some multiRunHistory)).getD []

/-- The record of a run of the multi-run test once its history has been imported. -/
def multiRunRecord : WorkflowRecord :=
  { versionHistories := { currentVersionHistoryIndex := 0, histories := [multiRunHistory] }
    eventStore := [(0, getEventSlices 2 0)]
    mutableState := rebuild (getEventSlices 2 0) }

/-! ## Part 7: the search attribute manager (`common/searchattribute/manager.go`) -/

/-- A Go map with string keys: `none` is the nil map, `some f` is a map whose entry for a key
`k` is `f k`. -/
abbrev GoMap (V : Type) := Option (String → Option V)

/-- Reading `m[k]` in the comma-ok form: the value when the key is present; a nil map has no
key. -/
def goMapGet {V : Type} (m : GoMap V) (k : String) : Option V :=
  match m with
  | none => none
  | some entries => entries k

/-- The function `maps.Clone`: a map with the same entries; a nil map stays nil. -/
def mapsClone {V : Type} (m : GoMap V) : GoMap V := m

/-- The function `maps.Copy(dst, src)` on a non-nil `dst`: every entry of `src` is written into
`dst`, the other entries of `dst` stay. -/
def mapsCopy {V : Type} (dst : String → Option V) (src : GoMap V) : String → Option V :=
  fun k =>
    match goMapGet src k with
    | some v => some v
    | none => dst k

/-- Values of `enumspb.IndexedValueType`, an `int32` enumeration. -/
abbrev IndexedValueType := Int

/-- An instant of `time.Time`, in nanoseconds after the zero time `time.Time{}`. -/
abbrev Time := Int

/-- The zero value `time.Time{}`. -/
def zeroTime : Time := 0

/-- The constant `cacheRefreshInterval` = `60 * time.Second`, in nanoseconds. -/
def cacheRefreshInterval : Int := 60 * 1000000000

/-- The constant `cacheRefreshIfUnavailableInterval` = `20 * time.Second`, in nanoseconds. -/
def cacheRefreshIfUnavailableInterval : Int := 20 * 1000000000

/-- The dynamic type of an error returned by the cluster metadata manager, as far as the type
switch of `refreshCache` tells them apart. -/
inductive ServiceError where
  | notFound (message : String)
  | unavailable (message : String)
  | other (message : String)
deriving DecidableEq, Repr

/-- The type `NameTypeMap`, declared in a file of the package outside the sampled files; the
field `customSearchAttributes` is the one the manager reads and writes. -/
structure NameTypeMap where
  customSearchAttributes : GoMap IndexedValueType

/-- The struct `cache`: the search attributes per index name, the version of the cluster
metadata they were read from, and the instant the cache expires. -/
structure cache where
  searchAttributes : GoMap NameTypeMap
  dbVersion : Int
  expireOn : Time

/-- The message `persistencespb.IndexSearchAttributes`. -/
structure IndexSearchAttributes where
  customSearchAttributes : GoMap IndexedValueType

/-- The message `persistencespb.ClusterMetadata`, reduced to the field the manager reads and
writes; the values of the map are pointers and may be nil. -/
structure ClusterMetadata where
  indexSearchAttributes : GoMap (Option IndexSearchAttributes)

/-- The struct `persistence.GetClusterMetadataResponse`: the cluster metadata (a non-nil
pointer) and its version. -/
structure GetClusterMetadataResponse where
  clusterMetadata : ClusterMetadata
  version : Int

/-- The struct `persistence.SaveClusterMetadataRequest`. -/
structure SaveClusterMetadataRequest where
  clusterMetadata : ClusterMetadata
  version : Int

/-- The struct `managerImpl` with its collaborators as the manager sees them during one call:
the instant returned by `timeSource.Now()`, the answers of the dynamic config `forceRefresh`
(by evaluation index), the results of the cluster metadata manager, the package function
`buildIndexNameTypeMap` (declared outside the sampled files, taken as a parameter), and the
value held by the atomic `cache`. -/
structure managerImpl where
  now : Time
  forceRefresh : Nat → Bool
  getCurrentClusterMetadata : Except ServiceError GetClusterMetadataResponse
  saveClusterMetadata : SaveClusterMetadataRequest → Option ServiceError
  buildIndexNameTypeMap : GoMap (Option IndexSearchAttributes) → GoMap NameTypeMap
  cache : cache

/-- The method `needRefreshCache`; `forceRefresh` is the answer of `m.forceRefresh()`. -/
def needRefreshCache (forceRefresh : Bool) (saCache : cache) (forceRefreshCache : Bool)
    (now : Time) : Bool :=
  forceRefreshCache || decide (saCache.expireOn < now) || forceRefresh

/-- The method `refreshCache`: the manager after the call (with the stored cache), the returned
cache and the returned error. -/
def refreshCache (m : managerImpl) (saCache : cache) (now : Time) :
    managerImpl × cache × Option ServiceError :=
  match m.getCurrentClusterMetadata with
  | .error err =>
    match err with
    | .notFound _ =>
      let saCache := { saCache with expireOn := now + cacheRefreshInterval }
      ({ m with cache := saCache }, saCache, none)
    | .unavailable _ =>
      let saCache := { saCache with expireOn := now + cacheRefreshIfUnavailableInterval }
      ({ m with cache := saCache }, saCache, none)
    | .other _ => (m, saCache, some err)
  | .ok clusterMetadata =>
    if clusterMetadata.version ≤ saCache.dbVersion then
      let saCache := { saCache with expireOn := now + cacheRefreshInterval }
      ({ m with cache := saCache }, saCache, none)
    else
      let saCache : cache :=
        { searchAttributes :=
            m.buildIndexNameTypeMap clusterMetadata.clusterMetadata.indexSearchAttributes
          expireOn := now + cacheRefreshInterval
          dbVersion := clusterMetadata.version }
      ({ m with cache := saCache }, saCache, none)

/-- The part of `GetSearchAttributes` after the cache has been settled: the result for an index
name, with the entries of the empty-string index merged in for a non-empty index name. -/
def searchAttributesOf (saCache : cache) (indexName : String) : NameTypeMap :=
  let result : NameTypeMap :=
    match goMapGet saCache.searchAttributes indexName with
    | some indexSearchAttributes =>
      { customSearchAttributes := mapsClone indexSearchAttributes.customSearchAttributes }
    | none => { customSearchAttributes := none }
  if indexName ≠ "" then
    match goMapGet saCache.searchAttributes "" with
    | some indexSearchAttributes =>
      match result.customSearchAttributes with
      | none =>
        { customSearchAttributes := mapsClone indexSearchAttributes.customSearchAttributes }
      | some dst =>
        { customSearchAttributes :=
            some (mapsCopy dst indexSearchAttributes.customSearchAttributes) }
    | none => result
  else result

/-- The method `GetSearchAttributes`: the manager after the call, the returned map and the
returned error.  The mutex only serializes refreshes; the cache loaded again under the mutex is
the cache of the manager. -/
def GetSearchAttributes (m : managerImpl) (indexName : String)
    (forceRefreshCache : Bool) : managerImpl × NameTypeMap × Option ServiceError :=
  let now := m.now
  let saCache := m.cache
  let settled : managerImpl × cache × Option ServiceError :=
    if needRefreshCache (m.forceRefresh 0) saCache forceRefreshCache now then
      let saCache := m.cache
      if needRefreshCache (m.forceRefresh 1) saCache forceRefreshCache now then
        refreshCache m saCache now
      else (m, saCache, none)
    else (m, saCache, none)
  match settled with
  | (m1, _, some err) => (m1, { customSearchAttributes := none }, some err)
  | (m1, saCache, none) => (m1, searchAttributesOf saCache indexName, none)

/-- The zero value `cache{}`. -/
def emptyCache : cache := { searchAttributes := none, dbVersion := 0, expireOn := zeroTime }

/-- The method `SaveSearchAttributes`: the manager after the call, the returned error, and the
requests passed to `SaveClusterMetadata`. -/
def SaveSearchAttributes (m : managerImpl) (indexName : String)
    (newCustomSearchAttributes : GoMap IndexedValueType) :
    managerImpl × Option ServiceError × List SaveClusterMetadataRequest :=
  match m.getCurrentClusterMetadata with
  | .error err => (m, some err, [])
  | .ok clusterMetadataResponse =>
    let clusterMetadata := clusterMetadataResponse.clusterMetadata
    let indexSearchAttributes : String → Option (Option IndexSearchAttributes) :=
      match clusterMetadata.indexSearchAttributes with
      | none => fun k => if k = indexName then some none else none
      | some entries => entries
    let indexSearchAttributes : String → Option (Option IndexSearchAttributes) :=
      fun k =>
        if k = indexName then
          some (some { customSearchAttributes := newCustomSearchAttributes })
        else indexSearchAttributes k
    let request : SaveClusterMetadataRequest :=
      { clusterMetadata := { clusterMetadata with
          indexSearchAttributes := some indexSearchAttributes }
        version := clusterMetadataResponse.version }
    let err := m.saveClusterMetadata request
    ({ m with cache := emptyCache }, err, [request])

/-! ## Part 8: the Cassandra schema tool (`tools/cassandra/main.go`) -/

/-- The part of `*cli.Context` read by the handlers and actions: the global boolean flags, and
the boolean and string flags of the command, by name. -/
structure CliContext where
  globalBool : String → Bool
  bool : String → Bool
  string : String → String

/-- An effect of the command line tool: a command handler has run, or `osExit` was called. -/
inductive CliEffect where
  | handler
  | osExit (code : Int)
deriving DecidableEq, Repr

/-- The function `cliHandler`, the root handler of all commands: the effects in order.  The
constant `schema.CLIOptQuiet` is declared outside the sampled files and taken as a parameter;
the handler is given by the error it returns. -/
def cliHandler (CLIOptQuiet : String) (c : CliContext) (handler : CliContext → Option GoError) :
    List CliEffect :=
  let quiet := c.globalBool CLIOptQuiet
  let err := handler c
  if err.isSome && !quiet then [.handler, .osExit 1] else [.handler]

/-- The custom search attributes cached under an index name; the nil map when the index has no
entry. -/
def cachedCustom (saCache : cache) (indexName : String) : GoMap IndexedValueType :=
  match goMapGet saCache.searchAttributes indexName with
  | some indexSearchAttributes => indexSearchAttributes.customSearchAttributes
  | none => none

/-- A cache used to exercise the manager: the index "visibility" defines `CustomKeyword`, the
empty-string index defines `LegacyText`; read at version 7, expiring at instant 1000. -/
def sampleCache : cache :=
  { searchAttributes := some fun indexName =>
      if indexName = "visibility" then
        some { customSearchAttributes := some fun name =>
          if name = "CustomKeyword" then some 2 else none }
      else if indexName = "" then
        some { customSearchAttributes := some fun name =>
          if name = "LegacyText" then some 1 else none }
      else none
    dbVersion := 7
    expireOn := 1000 }

/-- A manager used to exercise the methods: the clock shows instant 500, no refresh is forced,
saving succeeds, and reading the cluster metadata gives `read`. -/
def sampleManager (read : Except ServiceError GetClusterMetadataResponse) : managerImpl :=
  { now := 500
    forceRefresh := fun _ => false
    getCurrentClusterMetadata := read
    saveClusterMetadata := fun _ => none
    buildIndexNameTypeMap := fun _ => none
    cache := sampleCache }

/-- Cluster metadata used to exercise the manager: one index without custom search attributes,
at version 7. -/
def sampleMetadataResponse : GetClusterMetadataResponse :=
  { clusterMetadata :=
      { indexSearchAttributes := some fun indexName =>
          if indexName = "visibility" then some none else none }
    version := 7 }

/-- An effect of an action of the command line tool on the console or through `cliHandler`. -/
inductive ActionEffect where
  | printf (format : String) (args : List String)
  | scanln
  | cli (effect : CliEffect)
deriving DecidableEq, Repr

/-- The `Action` of the command `drop-keyspace`: the effects in order.  The constants
`schema.CLIOptForce` and `schema.CLIOptKeyspace` and the handler `dropKeyspace` are declared
outside the sampled files and taken as parameters.  `scanned` is the token that `fmt.Scanln`
stores in `y`, or none when it stores nothing (empty line, end of input); the count and the
error returned by `fmt.Scanln` are discarded. -/
def dropKeyspaceAction (CLIOptQuiet CLIOptForce CLIOptKeyspace : String) (c : CliContext)
    (scanned : Option String) (dropKeyspace : CliContext → Option GoError) :
    List ActionEffect :=
  let drop := c.bool CLIOptForce
  let confirmed : Bool × List ActionEffect :=
    if !drop then
      let keyspace := c.string CLIOptKeyspace
      let y := scanned.getD ""
      (if y = "y" ∨ y = "Y" then true else drop,
        [.printf "Are you sure you want to drop keyspace %q (y/N)? " [keyspace], .scanln])
    else (drop, [])
  if confirmed.1 then
    confirmed.2 ++ (cliHandler CLIOptQuiet c dropKeyspace).map .cli
  else confirmed.2

/-- A command line context used to exercise the actions: the flags that are set, and the
keyspace "temporal". -/
def sampleContext (force quiet : Bool) : CliContext :=
  { globalBool := fun name => name = "quiet" && quiet
    bool := fun name => name = "force" && force
    string := fun name => if name = "keyspace" then "temporal" else "" }

/-- A lease whose mutable state fails to generate migration tasks. -/
def failingLease : ChasmLease :=
  { generateMigrationTasks := fun _ => .error { msg := "mutable state is closed" }
    nextEventID := 13 }

/-- Collaborators of `GenerateTask` for which task generation fails. -/
def sampleEnvFailingGenerate : Env :=
  { sampleEnv with getChasmLease := fun _ _ _ => .ok failingLease }

/-- Collaborators of `GenerateTask` for which the shard rejects the tasks. -/
def sampleEnvFailingAdd : Env :=
  { sampleEnv with addTasks := fun _ => some { msg := "shard ownership lost" } }


/-! ## Theorems: `GenerateTask` -/

/-- C1: once `GetChasmLease` has succeeded, the release function is invoked exactly once, as the
last call, and its argument is the error `GenerateTask` returns: the error of
`GenerateMigrationTasks` when it fails, the error of `AddTasks` when it fails, and nil when both
succeed, which is exactly when `GenerateTask` returns a response. -/
theorem generateTask_releases_once (env : Env)
    (request : GenerateLastHistoryReplicationTasksRequest) (entry : NamespaceEntry)
    (execution : WorkflowExecution) (lease : ChasmLease)
    (hns : env.getNamespace request.namespaceId = .ok entry)
    (hexec : request.execution = some execution)
    (hlease : env.getChasmLease
      { namespaceID := entry.id, workflowID := execution.workflowId, runID := execution.runId }
      Archetype.any Priority.high = .ok lease) :
    releases (GenerateTask env request).2 = [retErrorOf (GenerateTask env request).1] ∧
    (GenerateTask env request).2.getLast? =
      some (.release (retErrorOf (GenerateTask env request).1)) ∧
    (∀ err, lease.generateMigrationTasks request.targetClusters = .error err →
      (GenerateTask env request).1 = .error err ∧
      releases (GenerateTask env request).2 = [some err]) ∧
    (∀ tasks count err,
      lease.generateMigrationTasks request.targetClusters = .ok (tasks, count) →
      env.addTasks { shardID := env.shardID, namespaceID := entry.id,
                     workflowID := execution.workflowId,
                     tasks := [(Category.replication, tasks)] } = some err →
      (GenerateTask env request).1 = .error err ∧
      releases (GenerateTask env request).2 = [some err]) ∧
    (∀ tasks count,
      lease.generateMigrationTasks request.targetClusters = .ok (tasks, count) →
      env.addTasks { shardID := env.shardID, namespaceID := entry.id,
                     workflowID := execution.workflowId,
                     tasks := [(Category.replication, tasks)] } = none →
      (∃ response, (GenerateTask env request).1 = .ok response) ∧
      releases (GenerateTask env request).2 = [none]) ∧
    (∀ response, (GenerateTask env request).1 = .ok response →
      releases (GenerateTask env request).2 = [none]) := by
  have key : ∀ body : GoResult GenerateLastHistoryReplicationTasksResponse × List Call,
      body = generateTaskLeased env request entry.id execution lease →
      GenerateTask env request =
        (body.1, [.getNamespace request.namespaceId,
          .getChasmLease { namespaceID := entry.id, workflowID := execution.workflowId,
                           runID := execution.runId } .any .high] ++ body.2 ++
            [.release (retErrorOf body.1)]) := by
    intro body hbody
    subst hbody
    unfold GenerateTask
    simp only [hns, hexec, hlease]
  rw [key _ rfl]
  unfold generateTaskLeased
  cases hgen : lease.generateMigrationTasks request.targetClusters with
  | error err => simp [releases, retErrorOf]
  | ok pair =>
    obtain ⟨tasks, count⟩ := pair
    dsimp only
    split
    · next err hadd =>
      simp only [releases, retErrorOf, List.cons_append, List.nil_append, List.getLast?_append,
        List.getLast?_singleton, Option.or_some, reduceCtorEq, false_implies, implies_true,
        true_and, and_true, Except.ok.injEq, Prod.mk.injEq, and_imp]
      refine ⟨rfl, ?_, ?_⟩
      · intro tasks1 count1 err1 ht _ hadd1
        subst ht
        rw [hadd] at hadd1
        exact ⟨congrArg GoResult.error (Option.some.inj hadd1),
          congrArg (fun e => [some e]) (Option.some.inj hadd1)⟩
      · intro tasks1 count1 ht _ hadd1
        subst ht
        rw [hadd] at hadd1
        cases hadd1
    · next hadd =>
      simp only [releases, retErrorOf, List.cons_append, List.nil_append, List.getLast?_append,
        List.getLast?_singleton, Option.or_some, reduceCtorEq, false_implies, implies_true,
        true_and, and_true, Except.ok.injEq, Prod.mk.injEq, and_imp]
      refine ⟨rfl, ?_, ?_⟩
      · intro tasks1 count1 err1 ht _ hadd1
        subst ht
        rw [hadd] at hadd1
        cases hadd1
      · intro tasks1 count1 _ _ _
        exact ⟨_, rfl⟩

/-- Witness of C1 on the sample collaborators: a failure of `GenerateMigrationTasks` and a
failure of `AddTasks` each reach the release function, once, as the error returned; the
successful call releases with nil. -/
theorem generateTask_releases_once_witness :
    ((GenerateTask sampleEnvFailingGenerate sampleRequest).1 =
        .error { msg := "mutable state is closed" } ∧
      releases (GenerateTask sampleEnvFailingGenerate sampleRequest).2 =
        [some { msg := "mutable state is closed" }]) ∧
    ((GenerateTask sampleEnvFailingAdd sampleRequest).1 =
        .error { msg := "shard ownership lost" } ∧
      releases (GenerateTask sampleEnvFailingAdd sampleRequest).2 =
        [some { msg := "shard ownership lost" }]) ∧
    ((∃ response, (GenerateTask sampleEnv sampleRequest).1 = .ok response) ∧
      releases (GenerateTask sampleEnv sampleRequest).2 = [none]) ∧
    (GenerateTask sampleEnv sampleRequest).2.getLast? = some (.release none) :=
  ⟨(generateTask_releases_once sampleEnvFailingGenerate sampleRequest { id := "ns-1" }
      { workflowId := "wf-1", runId := "run-1" } failingLease rfl rfl rfl).2.2.1
      { msg := "mutable state is closed" } rfl,
    (generateTask_releases_once sampleEnvFailingAdd sampleRequest { id := "ns-1" }
      { workflowId := "wf-1", runId := "run-1" } sampleLease rfl rfl rfl).2.2.2.1
      [{ id := 1 }] 3 { msg := "shard ownership lost" } rfl rfl,
    (generateTask_releases_once sampleEnv sampleRequest { id := "ns-1" }
      { workflowId := "wf-1", runId := "run-1" } sampleLease rfl rfl rfl).2.2.2.2.1
      [{ id := 1 }] 3 rfl rfl,
    (generateTask_releases_once sampleEnv sampleRequest { id := "ns-1" }
      { workflowId := "wf-1", runId := "run-1" } sampleLease rfl rfl rfl).2.1⟩

/-- In a trace that starts with the namespace lookup and the lease request, every call touching
the run comes after the lease request. -/
theorem access_after_lease (ns : String) (k : WorkflowKey) (a : Archetype) (p : Priority)
    (l before : List Call) (c : Call) (after : List Call)
    (h : Call.getNamespace ns :: Call.getChasmLease k a p :: l = before ++ c :: after)
    (hc : c.touchesRun = true) : leaseRequests before ≠ [] := by
  cases before with
  | nil =>
    simp only [List.nil_append, List.cons.injEq] at h
    rw [← h.1] at hc
    simp [Call.touchesRun] at hc
  | cons b bs =>
    cases bs with
    | nil =>
      simp only [List.cons_append, List.nil_append, List.cons.injEq] at h
      rw [← h.2.1] at hc
      simp [Call.touchesRun] at hc
    | cons b2 bs2 =>
      simp only [List.cons_append, List.cons.injEq] at h
      rw [← h.1, ← h.2.1]
      simp [leaseRequests]

/-- The trace of `GenerateTask` is the namespace lookup alone, or the namespace lookup followed
by the lease request and further calls. -/
theorem generateTask_trace_shape (env : Env)
    (request : GenerateLastHistoryReplicationTasksRequest) :
    (GenerateTask env request).2 = [Call.getNamespace request.namespaceId] ∨
    ∃ k a p l, (GenerateTask env request).2 =
      Call.getNamespace request.namespaceId :: Call.getChasmLease k a p :: l := by
  unfold GenerateTask
  cases env.getNamespace request.namespaceId with
  | error e => exact Or.inl rfl
  | ok entry =>
    cases request.execution with
    | none => exact Or.inl rfl
    | some execution =>
      right
      dsimp only
      split
      · exact ⟨_, _, _, [], rfl⟩
      · exact ⟨_, _, _, _, rfl⟩

/-- C2: if the namespace lookup or `GetChasmLease` fails, `GenerateTask` returns a nil response
with that error and never invokes `GenerateMigrationTasks`, `AddTasks` or the release function;
moreover, in every execution, each call that reads or mutates the run's state comes after the
lease request. -/
theorem generateTask_fails_before_access (env : Env)
    (request : GenerateLastHistoryReplicationTasksRequest) (err : GoError)
    (hfail : env.getNamespace request.namespaceId = .error err ∨
      ∃ entry execution, env.getNamespace request.namespaceId = .ok entry ∧
        request.execution = some execution ∧
        env.getChasmLease
          { namespaceID := entry.id, workflowID := execution.workflowId,
            runID := execution.runId } Archetype.any Priority.high = .error err) :
    (GenerateTask env request).1 = .error err ∧
    (∀ c ∈ (GenerateTask env request).2, c.touchesRun = false) ∧
    (∀ (env2 : Env) (request2 : GenerateLastHistoryReplicationTasksRequest)
        (before after : List Call) (c : Call),
        (GenerateTask env2 request2).2 = before ++ c :: after → c.touchesRun = true →
        leaseRequests before ≠ []) := by
  refine ⟨?_, ?_, ?_⟩
  · rcases hfail with h | ⟨entry, execution, hns, hexec, hlease⟩
    · unfold GenerateTask; simp only [h]
    · unfold GenerateTask; simp only [hns, hexec, hlease]
  · rcases hfail with h | ⟨entry, execution, hns, hexec, hlease⟩
    · unfold GenerateTask; simp only [h]
      intro c hc
      simp at hc
      subst hc; rfl
    · unfold GenerateTask; simp only [hns, hexec, hlease]
      intro c hc
      simp at hc
      rcases hc with hc | hc <;> subst hc <;> rfl
  · intro env2 request2 before after c htrace hc
    rcases generateTask_trace_shape env2 request2 with hshape | ⟨k, a, p, l, hshape⟩
    · rw [hshape] at htrace
      cases before with
      | nil =>
        simp only [List.nil_append, List.cons.injEq] at htrace
        rw [← htrace.1] at hc
        simp [Call.touchesRun] at hc
      | cons b bs => simp at htrace
    · rw [hshape] at htrace
      exact access_after_lease _ _ _ _ _ _ _ _ htrace hc

/-- Witness of C2 on `sampleEnv`: leasing the unknown run fails. -/
theorem generateTask_fails_before_access_witness :
    (GenerateTask sampleEnv sampleRequestUnknownRun).1 = .error { msg := "workflow not found" } ∧
    (∀ c ∈ (GenerateTask sampleEnv sampleRequestUnknownRun).2, c.touchesRun = false) :=
  have h := generateTask_fails_before_access sampleEnv sampleRequestUnknownRun
    { msg := "workflow not found" }
    (Or.inr ⟨{ id := "ns-1" }, { workflowId := "wf-1", runId := "run-2" }, rfl, rfl, rfl⟩)
  ⟨h.1, h.2.1⟩

/-- C3: for every request, the lease requests made by `GenerateTask` are exactly one request with
archetype `ArchetypeAny`, priority `PriorityHigh` and the run key (ID of the resolved namespace
entry, workflow ID, run ID of the request) when the namespace resolves and the request names an
execution, and none otherwise. -/
theorem generateTask_lease_request (env : Env)
    (request : GenerateLastHistoryReplicationTasksRequest) :
    leaseRequests (GenerateTask env request).2 =
      match env.getNamespace request.namespaceId, request.execution with
      | .ok entry, some execution =>
        [({ namespaceID := entry.id, workflowID := execution.workflowId,
            runID := execution.runId }, Archetype.any, Priority.high)]
      | _, _ => [] := by
  unfold GenerateTask
  cases hns : env.getNamespace request.namespaceId with
  | error e => simp [leaseRequests]
  | ok entry =>
    cases hexec : request.execution with
    | none => simp [leaseRequests]
    | some execution =>
      dsimp only
      split
      · simp [leaseRequests]
      · unfold generateTaskLeased
        split
        · simp [leaseRequests]
        · dsimp only
          split <;> simp [leaseRequests]

/-! ## Theorems: the scripted peer -/

/-- The expectations recorded by the loop of `mockActiveGetRawHistoryApiCalls`: one per remaining
batch, with fixed bounds, chained tokens, and a next-page token on all but the last. -/
theorem mockLoop_spec (s : Suite) (workflowID runID : String) (lastEvent : HistoryEvent)
    (history : Option VersionHistory) (rest : List EventBatch) :
    ∀ (i : Nat) (token : String),
    (mockActiveGetRawHistoryApiCallsLoop s workflowID runID lastEvent history i token rest).length
      = rest.length ∧
    (∀ c ∈ mockActiveGetRawHistoryApiCallsLoop s workflowID runID lastEvent history i token rest,
      c.method = .getWorkflowExecutionRawHistory ∧ c.times = some 1 ∧ c.numCalls = 0 ∧
      c.returnError = none ∧
      c.request.namespaceId = s.namespaceID ∧ c.request.workflowId = workflowID ∧
      c.request.runId = runID ∧ c.request.maximumPageSize = 100 ∧
      c.request.startEventId = EmptyEventID ∧ c.request.startEventVersion = EmptyVersion ∧
      c.request.endEventId = lastEvent.eventId ∧ c.request.endEventVersion = lastEvent.version) ∧
    (∀ j c, (mockActiveGetRawHistoryApiCallsLoop s workflowID runID lastEvent history i token
        rest)[j]? = some c →
      ∃ b, rest[j]? = some b ∧ c.returnResponse.historyBatches = [serializeEvents b] ∧
        (c.returnResponse.nextPageToken = none ↔ j + 1 = rest.length)) ∧
    (∀ c, (mockActiveGetRawHistoryApiCallsLoop s workflowID runID lastEvent history i token
        rest)[0]? = some c → c.request.nextPageToken = some token) ∧
    (∀ j c d,
      (mockActiveGetRawHistoryApiCallsLoop s workflowID runID lastEvent history i token rest)[j]?
        = some c →
      (mockActiveGetRawHistoryApiCallsLoop s workflowID runID lastEvent history i token rest)[j+1]?
        = some d →
      d.request.nextPageToken = c.returnResponse.nextPageToken) := by
  induction rest with
  | nil =>
    intro i token
    simp [mockActiveGetRawHistoryApiCallsLoop]
  | cons batch tail ih =>
    intro i token
    cases tail with
    | nil =>
      simp only [mockActiveGetRawHistoryApiCallsLoop]
      refine ⟨rfl, ?_, ?_, ?_, ?_⟩
      · intro c hc
        simp only [List.mem_singleton] at hc
        subst hc
        simp [mockActiveGetRawHistoryResponse, ExpectedCall.Times]
      · intro j c hj
        cases j with
        | zero =>
          simp only [List.getElem?_cons_zero, Option.some.injEq] at hj
          subst hj
          exact ⟨batch, rfl, rfl, by simp [mockActiveGetRawHistoryResponse, ExpectedCall.Times]⟩
        | succ j => simp at hj
      · intro c hc
        simp only [List.getElem?_cons_zero, Option.some.injEq] at hc
        subst hc
        rfl
      · intro j c d _ hd
        simp at hd
    | cons next rest2 =>
      simp only [mockActiveGetRawHistoryApiCallsLoop]
      obtain ⟨hlen, hall, hresp, hhead, hchain⟩ :=
        ih (i + 1) (runID ++ "-next-page-token" ++ runeString i)
      refine ⟨by simp [hlen], ?_, ?_, ?_, ?_⟩
      · intro c hc
        rcases List.mem_cons.mp hc with hc | hc
        · subst hc
          simp [mockActiveGetRawHistoryResponse, ExpectedCall.Times]
        · exact hall c hc
      · intro j c hj
        cases j with
        | zero =>
          simp only [List.getElem?_cons_zero, Option.some.injEq] at hj
          subst hj
          exact ⟨batch, rfl, rfl, by simp [mockActiveGetRawHistoryResponse, ExpectedCall.Times]⟩
        | succ j =>
          simp only [List.getElem?_cons_succ] at hj
          obtain ⟨b, hb, hbatch, hiff⟩ := hresp j c hj
          refine ⟨b, by simpa using hb, hbatch, ?_⟩
          rw [hiff]
          simp
      · intro c hc
        simp only [List.getElem?_cons_zero, Option.some.injEq] at hc
        subst hc
        rfl
      · intro j c d hc hd
        cases j with
        | zero =>
          simp only [List.getElem?_cons_zero, Option.some.injEq] at hc
          subst hc
          simp only [zero_add, List.getElem?_cons_succ] at hd
          rw [hhead d hd]
          rfl
        | succ j =>
          simp only [List.getElem?_cons_succ] at hc hd
          exact hchain j c d hc hd

/-- C8: for every non-empty list of non-empty event batches, `mockActiveGetRawHistoryApiCalls`
registers exactly one expected `GetWorkflowExecutionRawHistory` call per batch; all calls carry
the same bounds (start = (`EmptyEventID`, `EmptyVersion`), end = ID and version of the last event
of the last batch); the first call carries no page token, each later call carries the token
returned by the previous response, response `i` carries exactly batch `i`, and only the last
response has no next-page token. -/
theorem mockActiveGetRawHistoryApiCalls_script (s : Suite) (workflowID runID : String)
    (eventBatches : List EventBatch) (history : Option VersionHistory)
    (hne : eventBatches ≠ []) (hall : ∀ b ∈ eventBatches, b ≠ []) :
    ∃ calls lastBatch lastEvent,
      mockActiveGetRawHistoryApiCalls s workflowID runID eventBatches history =
        some { s with expected := s.expected ++ calls } ∧
      eventBatches.getLast? = some lastBatch ∧ lastBatch.getLast? = some lastEvent ∧
      calls.length = eventBatches.length ∧
      (∀ c ∈ calls,
        c.method = .getWorkflowExecutionRawHistory ∧ c.times = some 1 ∧ c.numCalls = 0 ∧
        c.returnError = none ∧
        c.request.namespaceId = s.namespaceID ∧ c.request.workflowId = workflowID ∧
        c.request.runId = runID ∧ c.request.maximumPageSize = 100 ∧
        c.request.startEventId = EmptyEventID ∧ c.request.startEventVersion = EmptyVersion ∧
        c.request.endEventId = lastEvent.eventId ∧
        c.request.endEventVersion = lastEvent.version) ∧
      (∀ i c, calls[i]? = some c →
        ∃ b, eventBatches[i]? = some b ∧ c.returnResponse.historyBatches = [serializeEvents b] ∧
          (c.returnResponse.nextPageToken = none ↔ i + 1 = eventBatches.length)) ∧
      (∀ c, calls[0]? = some c → c.request.nextPageToken = none) ∧
      (∀ i c d, calls[i]? = some c → calls[i+1]? = some d →
        d.request.nextPageToken = c.returnResponse.nextPageToken) := by
  obtain ⟨lastBatch, hlastBatch⟩ : ∃ lb, eventBatches.getLast? = some lb := by
    cases h : eventBatches.getLast? with
    | none => exact absurd (List.getLast?_eq_none_iff.mp h) hne
    | some lb => exact ⟨lb, rfl⟩
  have hmem : lastBatch ∈ eventBatches := List.mem_of_getLast?_eq_some hlastBatch
  obtain ⟨lastEvent, hlastEvent⟩ : ∃ ev, lastBatch.getLast? = some ev := by
    cases h : lastBatch.getLast? with
    | none => exact absurd (List.getLast?_eq_none_iff.mp h) (hall lastBatch hmem)
    | some ev => exact ⟨ev, rfl⟩
  cases eventBatches with
  | nil => exact absurd rfl hne
  | cons first rest =>
    cases rest with
    | nil =>
      refine ⟨[(mockActiveGetRawHistoryResponse s workflowID runID EmptyEventID EmptyVersion
          lastEvent.eventId lastEvent.version none
          { nextPageToken := none
            historyBatches := [serializeEvents first]
            versionHistory := history } none).Times 1],
        lastBatch, lastEvent, ?_, hlastBatch, hlastEvent, ?_, ?_, ?_, ?_, ?_⟩
      · simp only [mockActiveGetRawHistoryApiCalls, mockActiveGetRawHistoryApiCallsRegistered,
          hlastBatch, hlastEvent, Option.map_some']
      · rfl
      · intro c hc
        simp only [List.mem_singleton] at hc
        subst hc
        simp [mockActiveGetRawHistoryResponse, ExpectedCall.Times]
      · intro i c hi
        cases i with
        | zero =>
          simp only [List.getElem?_cons_zero, Option.some.injEq] at hi
          subst hi
          exact ⟨first, rfl, rfl, by simp [mockActiveGetRawHistoryResponse, ExpectedCall.Times]⟩
        | succ i => simp at hi
      · intro c hc
        simp only [List.getElem?_cons_zero, Option.some.injEq] at hc
        subst hc
        rfl
      · intro i c d _ hd
        simp at hd
    | cons second rest2 =>
      obtain ⟨hlen, hfix, hresp, hhead, hchain⟩ :=
        mockLoop_spec s workflowID runID lastEvent history (second :: rest2) 1
          (runID ++ "-next-page-token" ++ "0")
      refine ⟨(mockActiveGetRawHistoryResponse s workflowID runID EmptyEventID EmptyVersion
          lastEvent.eventId lastEvent.version none
          { nextPageToken := some (runID ++ "-next-page-token" ++ "0")
            historyBatches := [serializeEvents first]
            versionHistory := history } none).Times 1 ::
          mockActiveGetRawHistoryApiCallsLoop s workflowID runID lastEvent history 1
            (runID ++ "-next-page-token" ++ "0") (second :: rest2),
        lastBatch, lastEvent, ?_, hlastBatch, hlastEvent, ?_, ?_, ?_, ?_, ?_⟩
      · simp only [mockActiveGetRawHistoryApiCalls, mockActiveGetRawHistoryApiCallsRegistered,
          hlastBatch, hlastEvent, Option.map_some']
      · simp [hlen]
      · intro c hc
        rcases List.mem_cons.mp hc with hc | hc
        · subst hc
          simp [mockActiveGetRawHistoryResponse, ExpectedCall.Times]
        · exact hfix c hc
      · intro i c hi
        cases i with
        | zero =>
          simp only [List.getElem?_cons_zero, Option.some.injEq] at hi
          subst hi
          exact ⟨first, rfl, rfl, by simp [mockActiveGetRawHistoryResponse, ExpectedCall.Times]⟩
        | succ i =>
          simp only [List.getElem?_cons_succ] at hi
          obtain ⟨b, hb, hbatch, hiff⟩ := hresp i c hi
          refine ⟨b, by simpa using hb, hbatch, ?_⟩
          rw [hiff]
          simp
      · intro c hc
        simp only [List.getElem?_cons_zero, Option.some.injEq] at hc
        subst hc
        rfl
      · intro i c d hc hd
        cases i with
        | zero =>
          simp only [List.getElem?_cons_zero, Option.some.injEq] at hc
          subst hc
          simp only [zero_add, List.getElem?_cons_succ] at hd
          rw [hhead d hd]
          rfl
        | succ i =>
          simp only [List.getElem?_cons_succ] at hc hd
          exact hchain i c d hc hd

/-- Witness of C8: the script for the first seven source batches. -/
theorem mockActiveGetRawHistoryApiCalls_script_witness :
    ∃ calls, mockActiveGetRawHistoryApiCalls freshSuite "workflow-id" "run-id"
        (sliceBatches (migrationBackForthBatches sampleEventType) 0 7) (some migrationBackForthHistory) =
        some { freshSuite with expected := freshSuite.expected ++ calls } ∧
      calls.length = 7 :=
  have h := mockActiveGetRawHistoryApiCalls_script freshSuite "workflow-id" "run-id"
    (sliceBatches (migrationBackForthBatches sampleEventType) 0 7) (some migrationBackForthHistory)
    (by decide) (by decide)
  h.elim fun calls hc => hc.elim fun _ hb => hb.elim fun _ hl =>
    ⟨calls, hl.1, hl.2.2.2.1⟩

/-! ## Theorems: version history model -/

/-- A successful `AppendItem` adds the item at the end and keeps the sequence monotonic. -/
theorem appendItem_ok (history next : VersionHistory) (item : VersionHistoryItem)
    (hmono : Monotonic history.items) (h : AppendItem history item = .ok next) :
    next.items = history.items ++ [item] ∧ next.branchToken = history.branchToken ∧
      Monotonic next.items := by
  unfold AppendItem at h
  cases hlast : history.items.getLast? with
  | none =>
    rw [hlast] at h
    have hnil : history.items = [] := List.getLast?_eq_none_iff.mp hlast
    simp only [Except.ok.injEq] at h
    subst h
    simp [hnil, Monotonic]
  | some last =>
    rw [hlast] at h
    dsimp only at h
    split at h
    · simp at h
    · next hnot =>
      simp only [Except.ok.injEq] at h
      subst h
      refine ⟨rfl, rfl, ?_⟩
      unfold Monotonic
      rw [List.chain'_append]
      refine ⟨hmono, List.chain'_singleton _, ?_⟩
      intro x hx y hy
      simp only [List.head?_cons, Option.mem_def, Option.some.injEq] at hy
      rw [Option.mem_def, hlast, Option.some.injEq] at hx
      subst hx hy
      push_neg at hnot
      exact ⟨hnot.1, hnot.2⟩

/-- Successful appends in sequence add the items in order and keep the sequence monotonic. -/
theorem appendItems_ok (items : List VersionHistoryItem) :
    ∀ (history next : VersionHistory), Monotonic history.items →
      AppendItems history items = .ok next →
      next.items = history.items ++ items ∧ Monotonic next.items := by
  induction items with
  | nil =>
    intro history next hmono h
    simp only [AppendItems, Except.ok.injEq] at h
    subst h
    simpa using hmono
  | cons item rest ih =>
    intro history next hmono h
    simp only [AppendItems] at h
    cases hstep : AppendItem history item with
    | error e => rw [hstep] at h; simp at h
    | ok mid =>
      rw [hstep] at h
      obtain ⟨hitems, _, hmid⟩ := appendItem_ok history mid item hmono hstep
      obtain ⟨hnext, hmononext⟩ := ih mid next hmid h
      exact ⟨by rw [hnext, hitems]; simp, hmononext⟩

/-- C4: `AppendItem` rejects every violation of monotonicity: on a non-empty history it fails
with `InvalidSequence` when the item's eventID is at most the last eventID or its version is
below the last version; a successful append keeps a monotonic history monotonic; hence every
history built from the empty one by successful appends has strictly increasing eventIDs and
non-decreasing versions. -/
theorem appendItem_rejects_violations :
    (∀ (history : VersionHistory) (item last : VersionHistoryItem),
      history.items.getLast? = some last →
      (item.eventId ≤ last.eventId ∨ item.version < last.version) →
      AppendItem history item = .error .invalidSequence) ∧
    (∀ (history next : VersionHistory) (item : VersionHistoryItem),
      Monotonic history.items → AppendItem history item = .ok next →
      next.items = history.items ++ [item] ∧ Monotonic next.items) ∧
    (∀ (token : Nat) (items : List VersionHistoryItem) (history : VersionHistory),
      AppendItems { branchToken := token, items := [] } items = .ok history →
      history.items = items ∧ Monotonic history.items) := by
  refine ⟨?_, ?_, ?_⟩
  · intro history item last hlast hviol
    unfold AppendItem
    rw [hlast]
    simp [hviol]
  · intro history next item hmono h
    obtain ⟨h1, _, h2⟩ := appendItem_ok history next item hmono h
    exact ⟨h1, h2⟩
  · intro token items history h
    have := appendItems_ok items { branchToken := token, items := [] } history
      (by simp [Monotonic]) h
    simpa using this

/-! ## Theorems: remote history fetcher -/

/-- The offset token decodes to its offset. -/
theorem offsetToken_length (n : Nat) : (offsetToken n).length = n := by
  simp [offsetToken, String.length]

/-- The offset token of a positive offset is not the empty token. -/
theorem offsetToken_ne_empty (n : Nat) (hn : 0 < n) : offsetToken n ≠ "" := by
  intro h
  have := congrArg String.length h
  rw [offsetToken_length] at this
  simp at this
  omega

/-- Following the tokens of a `PeerHistory` from an offset yields the rest of the range. -/
theorem fetchPages_peerHistory (peer : PeerHistory) (hpage : 0 < peer.perPage)
    (request : RawHistoryRequest) (fuel : Nat) :
    ∀ (offset : Nat) (token : Option String),
      (match token with | none => 0 | some t => t.length) = offset →
      (batchesInRange peer.batches request.startEventId request.endEventId).length - offset
        < fuel →
      fetchPages PeerHistory.call fuel peer { request with nextPageToken := token } =
        (.ok ((batchesInRange peer.batches request.startEventId request.endEventId).drop offset),
          peer) := by
  induction fuel with
  | zero => intro offset token _ h; omega
  | succ fuel ih =>
    intro offset token htoken hfuel
    have hmap : ∀ l : List EventBatch,
        List.map (fun blob : DataBlob => blob.events) (List.map serializeEvents l) = l := by
      intro l
      simp [serializeEvents, Function.comp_def]
    by_cases hlt : offset + peer.perPage <
        (batchesInRange peer.batches request.startEventId request.endEventId).length
    · simp only [fetchPages, PeerHistory.call, htoken, hlt, if_true,
        offsetToken_ne_empty _ (by omega : 0 < offset + peer.perPage), if_false]
      rw [ih (offset + peer.perPage) (some (offsetToken (offset + peer.perPage)))
        (by simp [offsetToken_length]) (by omega)]
      simp only [hmap]
      rw [← List.drop_drop, List.take_append_drop]
    · simp only [fetchPages, PeerHistory.call, htoken, hlt, if_false, hmap]
      rw [List.take_of_length_le]
      simp only [List.length_drop]
      omega

/-- C7: gap detection.  Against a peer that serves its stored history page by page, a fetch
bounded to end at (endEventID, endVersion) fails with `HistoryGap` when the cumulative batches do
not terminate exactly at that bound, and otherwise succeeds yielding exactly the stored batches
after the start bound up to and including the end bound; and whatever the peer, a successful
fetch terminates exactly at the end bound, and a pagination whose cumulative batches do not
terminate at the end bound makes the fetch fail with `HistoryGap`. -/
theorem fetchRangeInclusive_gap_check (peer : PeerHistory) (key : RunKey)
    (startEventId startVersion endEventId endVersion : Int) (fuel : Nat)
    (hpage : 0 < peer.perPage)
    (hfuel : (batchesInRange peer.batches startEventId endEventId).length < fuel) :
    FetchRangeInclusive PeerHistory.call fuel peer key startEventId startVersion endEventId
        endVersion =
      (if terminatesAt (batchesInRange peer.batches startEventId endEventId) endEventId endVersion
        then .ok (batchesInRange peer.batches startEventId endEventId)
        else .error .historyGap, peer) ∧
    (∀ (σ : Type) (call : σ → RawHistoryRequest → Except NdcError RawHistoryResponse × σ)
        (fuel2 : Nat) (peer2 : σ) (batches : List EventBatch),
      (FetchRangeInclusive call fuel2 peer2 key startEventId startVersion endEventId
        endVersion).1 = .ok batches →
      terminatesAt batches endEventId endVersion = true) ∧
    (∀ (σ : Type) (call : σ → RawHistoryRequest → Except NdcError RawHistoryResponse × σ)
        (fuel2 : Nat) (peer2 peer3 : σ) (batches : List EventBatch),
      fetchPages call fuel2 peer2
        (rangeRequest key startEventId startVersion endEventId endVersion none) =
        (.ok batches, peer3) →
      terminatesAt batches endEventId endVersion = false →
      FetchRangeInclusive call fuel2 peer2 key startEventId startVersion endEventId endVersion =
        (.error .historyGap, peer3)) := by
  refine ⟨?_, ?_, ?_⟩
  · unfold FetchRangeInclusive
    have h := fetchPages_peerHistory peer hpage
      (rangeRequest key startEventId startVersion endEventId endVersion none) fuel 0 none rfl
      (by simpa using hfuel)
    simp only [List.drop_zero] at h
    have h2 : fetchPages PeerHistory.call fuel peer
        (rangeRequest key startEventId startVersion endEventId endVersion none) =
        (.ok (batchesInRange peer.batches startEventId endEventId), peer) := h
    rw [h2]
    dsimp only
    split <;> rfl
  · intro σ call fuel2 peer2 batches h
    unfold FetchRangeInclusive at h
    split at h
    · simp at h
    · split at h
      · next hterm =>
        simp only [Except.ok.injEq] at h
        subst h
        exact hterm
      · simp at h
  · intro σ call fuel2 peer2 peer3 batches hpages hgap
    unfold FetchRangeInclusive
    rw [hpages]
    simp [hgap]

/-- Witness of C7: a fetch bounded to end at (12,11) against a peer whose history stops at
event 10 fails with `HistoryGap`. -/
theorem fetchRangeInclusive_gap_check_witness :
    0 < truncatedPeer.perPage ∧
    FetchRangeInclusive PeerHistory.call 10 truncatedPeer forkExampleKey 0 0 12 11 =
      (.error .historyGap, truncatedPeer) :=
  ⟨by decide,
    (fetchRangeInclusive_gap_check truncatedPeer forkExampleKey 0 0 12 11 10 (by decide)
      (by decide)).1⟩

/-! ## Theorems: lineages built from events -/

/-- In a monotonic sequence every item is below every later item. -/
theorem monotonic_pairwise (items : List VersionHistoryItem) (h : Monotonic items) :
    items.Pairwise fun a b => a.eventId < b.eventId ∧ a.version ≤ b.version := by
  haveI : IsTrans VersionHistoryItem fun a b => a.eventId < b.eventId ∧ a.version ≤ b.version :=
    ⟨fun a b c hab hbc => ⟨lt_trans hab.1 hbc.1, le_trans hab.2 hbc.2⟩⟩
  exact List.chain'_iff_pairwise.mp h

/-- A list with a last element is its front followed by that element. -/
theorem eq_dropLast_append_of_getLast? {α : Type} (l : List α) (x : α)
    (h : l.getLast? = some x) : l = l.dropLast ++ [x] := by
  have hne : l ≠ [] := by
    intro hnil
    rw [hnil] at h
    simp at h
  have hx : l.getLast hne = x := by
    rw [List.getLast?_eq_getLast l hne] at h
    exact Option.some.inj h
  rw [← hx]
  exact (List.dropLast_append_getLast hne).symm

/-- In a monotonic sequence, the version at the last event ID is the last version. -/
theorem versionAt_last (items : List VersionHistoryItem) (last : VersionHistoryItem)
    (hmono : Monotonic items) (hlast : items.getLast? = some last) :
    versionAt items last.eventId = some last.version := by
  have hsplit := eq_dropLast_append_of_getLast? items last hlast
  have hpair := monotonic_pairwise items hmono
  rw [hsplit] at hpair
  rw [List.pairwise_append] at hpair
  obtain ⟨_, _, hcross⟩ := hpair
  unfold versionAt
  rw [hsplit, List.find?_append]
  have hnone : List.find? (fun item => decide (last.eventId ≤ item.eventId)) items.dropLast
      = none := by
    rw [List.find?_eq_none]
    intro x hx
    have := (hcross x hx last (by simp)).1
    simp only [decide_eq_true_eq, not_le]
    exact this
  rw [hnone]
  simp

/-- In a monotonic sequence no item lies beyond the last one. -/
theorem eventId_le_last (items : List VersionHistoryItem) (item last : VersionHistoryItem)
    (hmono : Monotonic items) (hmem : item ∈ items) (hlast : items.getLast? = some last) :
    item.eventId ≤ last.eventId := by
  have hsplit := eq_dropLast_append_of_getLast? items last hlast
  have hpair := monotonic_pairwise items hmono
  rw [hsplit] at hpair hmem
  rw [List.pairwise_append] at hpair
  obtain ⟨_, _, hcross⟩ := hpair
  rcases List.mem_append.mp hmem with h | h
  · exact le_of_lt (hcross item h last (by simp)).1
  · simp only [List.mem_singleton] at h
    rw [h]

/-- Recording an event keeps a monotonic lineage monotonic, keeps the branch token, and makes
the event the last checkpoint. -/
theorem recordEvent_ok (history next : VersionHistory) (event : HistoryEvent)
    (hmono : Monotonic history.items) (h : recordEvent history event = .ok next) :
    Monotonic next.items ∧ next.branchToken = history.branchToken ∧
      next.items.getLast? = some { eventId := event.eventId, version := event.version } := by
  unfold recordEvent at h
  cases hlast : history.items.getLast? with
  | none =>
    rw [hlast] at h
    obtain ⟨hitems, htoken, hm⟩ := appendItem_ok history next _ hmono h
    exact ⟨hm, htoken, by rw [hitems]; simp⟩
  | some last =>
    rw [hlast] at h
    dsimp only at h
    split at h
    · next hcont =>
      simp only [Except.ok.injEq] at h
      subst h
      refine ⟨?_, rfl, by simp⟩
      have hsplit := eq_dropLast_append_of_getLast? history.items last hlast
      have hm : Monotonic (history.items.dropLast ++ [last]) := by rw [← hsplit]; exact hmono
      unfold Monotonic at hm ⊢
      rw [List.chain'_append] at hm ⊢
      refine ⟨hm.1, List.chain'_singleton _, ?_⟩
      intro x hx y hy
      simp only [List.head?_cons, Option.mem_def, Option.some.injEq] at hy
      subst hy
      have := hm.2.2 x hx last (by simp)
      exact ⟨lt_trans this.1 hcont.2, by rw [hcont.1]; exact this.2⟩
    · obtain ⟨hitems, htoken, hm⟩ := appendItem_ok history next _ hmono h
      exact ⟨hm, htoken, by rw [hitems]; simp⟩

/-- Recording a sequence of events keeps a monotonic lineage monotonic and makes the last event
the last checkpoint. -/
theorem recordEvents_ok (events : List HistoryEvent) :
    ∀ (history next : VersionHistory), Monotonic history.items →
      recordEvents history events = .ok next →
      Monotonic next.items ∧ next.branchToken = history.branchToken ∧
        ∀ last, events.getLast? = some last →
          next.items.getLast? = some { eventId := last.eventId, version := last.version } := by
  induction events with
  | nil =>
    intro history next hmono h
    simp only [recordEvents, Except.ok.injEq] at h
    subst h
    exact ⟨hmono, rfl, by simp⟩
  | cons event rest ih =>
    intro history next hmono h
    simp only [recordEvents] at h
    cases hstep : recordEvent history event with
    | error e => rw [hstep] at h; simp at h
    | ok mid =>
      rw [hstep] at h
      obtain ⟨hmid, htoken, hlastmid⟩ := recordEvent_ok history mid event hmono hstep
      obtain ⟨hnext, htoken2, hlast⟩ := ih mid next hmid h
      refine ⟨hnext, by rw [htoken2, htoken], ?_⟩
      intro last hl
      cases rest with
      | nil =>
        simp only [List.getLast?_singleton, Option.some.injEq] at hl
        subst hl
        simp only [recordEvents, Except.ok.injEq] at h
        subst h
        exact hlastmid
      | cons e2 rest2 =>
        apply hlast
        simpa [List.getLast?_cons_cons] using hl

/-- Reading back the record just written. -/
theorem lookup_storePut (store : Store) (key : RunKey) (record : WorkflowRecord) :
    (storePut store key record).lookup key = some record := by
  induction store with
  | nil => simp [storePut, List.lookup]
  | cons entry rest ih =>
    obtain ⟨key1, record1⟩ := entry
    unfold storePut
    by_cases hk : key1 = key
    · simp [hk, List.lookup]
    · have hne : (key == key1) = false := by
        simp only [beq_eq_false_iff_ne, ne_eq]
        exact fun h => hk h.symm
      simp [hk, List.lookup, hne, ih]

/-- The incoming sequence of a task ends with the final event of its batch. -/
theorem incomingLineage_getLast? (lineage : List VersionHistoryItem) (last : HistoryEvent) :
    (incomingLineage lineage last).getLast? =
      some { eventId := last.eventId, version := last.version } := by
  simp [incomingLineage]

/-! ## Theorems: the fetcher against the scripted peer -/

/-- Recorded calls that do not accept a call are skipped by the controller. -/
theorem findMatch_skip (method : RpcMethod) (request : RawHistoryRequest)
    (skipped rest : List ExpectedCall)
    (h : ∀ c ∈ skipped, ¬ (c.method = method ∧ c.request = request ∧ c.exhausted = false)) :
    findMatch method request (skipped ++ rest) =
      (findMatch method request rest).map fun found => (found.1, skipped ++ found.2) := by
  induction skipped with
  | nil =>
    simp only [List.nil_append]
    cases findMatch method request rest with
    | none => rfl
    | some found => rfl
  | cons c tail ih =>
    have hc := h c (List.mem_cons_self _ _)
    have htail := ih fun d hd => h d (List.mem_cons_of_mem _ hd)
    have hstep : findMatch method request (c :: (tail ++ rest)) =
        match findMatch method request (tail ++ rest) with
        | some (found, rest1) => some (found, c :: rest1)
        | none => none := by
      rw [findMatch, if_neg hc]
    rw [List.cons_append, hstep, htail]
    cases findMatch method request rest with
    | none => rfl
    | some found => rfl

/-- The first recorded call that accepts a call answers it. -/
theorem findMatch_hit (c : ExpectedCall) (rest : List ExpectedCall)
    (hexhausted : c.exhausted = false) :
    findMatch c.method c.request (c :: rest) = some (c, c.called :: rest) := by
  simp [findMatch, hexhausted]

/-- The tokens of the script are never the empty token. -/
theorem scriptToken_ne_empty (runID suffix : String) :
    runID ++ "-next-page-token" ++ suffix ≠ "" := by
  intro h
  have hlen := congrArg String.length h
  simp only [String.length_append] at hlen
  have h16 : "-next-page-token".length = 16 := by decide
  have h0 : "".length = 0 := by decide
  omega

/-- The last event of a list of batches whose last batch is not empty. -/
theorem flatten_getLast? (batches : List EventBatch) (lastBatch : EventBatch)
    (lastEvent : HistoryEvent) (hb : batches.getLast? = some lastBatch)
    (he : lastBatch.getLast? = some lastEvent) :
    batches.flatten.getLast? = some lastEvent := by
  have hsplit := eq_dropLast_append_of_getLast? batches lastBatch hb
  have hne : lastBatch ≠ [] := by
    intro hnil
    rw [hnil] at he
    simp at he
  rw [hsplit, List.flatten_append]
  simp only [List.flatten_cons, List.flatten_nil, List.append_nil]
  rw [List.getLast?_append_of_ne_nil _ hne]
  exact he

/-- The mock admin client answers from the first recorded call that accepts the request. -/
theorem mockAdminClientCall_answer (namespaceID : String) (before after : List ExpectedCall)
    (c : ExpectedCall) (request : RawHistoryRequest)
    (hmethod : c.method = .getWorkflowExecutionRawHistory) (hrequest : c.request = request)
    (hexhausted : c.exhausted = false) (herror : c.returnError = none)
    (hbefore : ∀ d ∈ before, d.inertFor request.runId) :
    mockAdminClientCall .getWorkflowExecutionRawHistory
        { namespaceID := namespaceID, expected := before ++ c :: after } request =
      (.ok c.returnResponse,
        { namespaceID := namespaceID, expected := before ++ c.called :: after }) := by
  have hskip : ∀ d ∈ before, ¬ (d.method = .getWorkflowExecutionRawHistory ∧
      d.request = request ∧ d.exhausted = false) := by
    intro d hd hmatch
    rcases hbefore d hd with h | h | h
    · rw [hmatch.2.2] at h
      exact Bool.false_ne_true h
    · exact h hmatch.1
    · exact h (by rw [hmatch.2.1])
  have hhit := findMatch_hit c after hexhausted
  rw [hmethod, hrequest] at hhit
  unfold mockAdminClientCall
  simp only [findMatch_skip _ _ before (c :: after) hskip, hhit, Option.map_some', herror]

/-- A call of the script that has answered is inert. -/
theorem called_inertFor (c : ExpectedCall) (runID : String) (htimes : c.times = some 1)
    (hnum : c.numCalls = 0) : c.called.inertFor runID := by
  left
  simp [ExpectedCall.called, ExpectedCall.exhausted, htimes, hnum]

/-- One page of the fetcher when the response announces a further page. -/
theorem fetchPages_more {σ : Type}
    (call : σ → RawHistoryRequest → Except NdcError RawHistoryResponse × σ) (fuel : Nat)
    (peer peer1 peer2 : σ) (request : RawHistoryRequest) (response : RawHistoryResponse)
    (token : String) (rest : List EventBatch)
    (hcall : call peer request = (.ok response, peer1))
    (htoken : response.nextPageToken = some token) (hne : token ≠ "")
    (hrest : fetchPages call fuel peer1 { request with nextPageToken := some token } =
      (.ok rest, peer2)) :
    fetchPages call (fuel + 1) peer request =
      (.ok ((response.historyBatches.map fun blob => blob.events) ++ rest), peer2) := by
  simp only [fetchPages, hcall, htoken, hne, if_false, hrest]

/-- One page of the fetcher when the response announces no further page. -/
theorem fetchPages_last {σ : Type}
    (call : σ → RawHistoryRequest → Except NdcError RawHistoryResponse × σ) (fuel : Nat)
    (peer peer1 : σ) (request : RawHistoryRequest) (response : RawHistoryResponse)
    (hcall : call peer request = (.ok response, peer1))
    (htoken : response.nextPageToken = none) :
    fetchPages call (fuel + 1) peer request =
      (.ok (response.historyBatches.map fun blob => blob.events), peer1) := by
  simp only [fetchPages, hcall, htoken]

/-- Following the tokens of the script from a later page yields the remaining batches and
consumes the remaining recorded calls. -/
theorem fetchPages_scriptLoop (s : Suite) (workflowID runID : String) (lastEvent : HistoryEvent)
    (history : Option VersionHistory) (rest : List EventBatch) :
    ∀ (i : Nat) (token : String) (fuel : Nat) (before after : List ExpectedCall),
      rest ≠ [] → rest.length ≤ fuel → (∀ d ∈ before, d.inertFor runID) →
      fetchPages (mockAdminClientCall .getWorkflowExecutionRawHistory) fuel
          { namespaceID := s.namespaceID
            expected := before ++
              (mockActiveGetRawHistoryApiCallsLoop s workflowID runID lastEvent history i token rest
              ++ after) }
          (rangeRequest ⟨s.namespaceID, workflowID, runID⟩ EmptyEventID EmptyVersion
            lastEvent.eventId lastEvent.version
            (some token)) =
        (.ok rest,
          { namespaceID := s.namespaceID
            expected := before ++
              ((mockActiveGetRawHistoryApiCallsLoop s workflowID runID lastEvent history i token
                rest).map ExpectedCall.called ++ after) }) := by
  induction rest with
  | nil => intro i token fuel before after hne; exact absurd rfl hne
  | cons batch tail ih =>
    intro i token fuel before after _ hfuel hbefore
    cases fuel with
    | zero => simp at hfuel
    | succ fuel =>
      cases tail with
      | nil =>
        exact fetchPages_last _ fuel _ _ _ _
          (mockAdminClientCall_answer s.namespaceID before after
            ((mockActiveGetRawHistoryResponse s workflowID runID EmptyEventID EmptyVersion
              lastEvent.eventId lastEvent.version (some token)
              { nextPageToken := none
                historyBatches := [serializeEvents batch]
                versionHistory := history } none).Times 1)
            (rangeRequest ⟨s.namespaceID, workflowID, runID⟩ EmptyEventID EmptyVersion
            lastEvent.eventId lastEvent.version
              (some token)) rfl rfl rfl rfl hbefore) rfl
      | cons next rest2 =>
        have hih := ih (i + 1) (runID ++ "-next-page-token" ++ runeString i) fuel
          (before ++ [((mockActiveGetRawHistoryResponse s workflowID runID EmptyEventID
            EmptyVersion lastEvent.eventId lastEvent.version (some token)
            { nextPageToken := some (runID ++ "-next-page-token" ++ runeString i)
              historyBatches := [serializeEvents batch]
              versionHistory := history } none).Times 1).called]) after
          (by simp) (by simpa using hfuel)
          (by
            intro d hd
            rcases List.mem_append.mp hd with hd | hd
            · exact hbefore d hd
            · simp only [List.mem_singleton] at hd
              subst hd
              exact called_inertFor _ _ rfl rfl)
        rw [List.append_assoc, List.append_assoc] at hih
        exact fetchPages_more _ fuel _ _ _ _ _ _ _
          (mockAdminClientCall_answer s.namespaceID before
            (mockActiveGetRawHistoryApiCallsLoop s workflowID runID lastEvent history (i + 1)
              (runID ++ "-next-page-token" ++ runeString i) (next :: rest2) ++ after)
            ((mockActiveGetRawHistoryResponse s workflowID runID EmptyEventID EmptyVersion
              lastEvent.eventId lastEvent.version (some token)
              { nextPageToken := some (runID ++ "-next-page-token" ++ runeString i)
                historyBatches := [serializeEvents batch]
                versionHistory := history } none).Times 1)
            (rangeRequest ⟨s.namespaceID, workflowID, runID⟩ EmptyEventID EmptyVersion
            lastEvent.eventId lastEvent.version
              (some token)) rfl rfl rfl rfl hbefore) rfl (scriptToken_ne_empty _ _) hih

/-- Fetching against the script: with the bounds of the script and enough page budget, the
fetcher of the passive cluster reads exactly the scripted batches, passes the gap check, and
consumes every recorded call of the script once. -/
theorem fetchRangeInclusive_script (s : Suite) (workflowID runID : String)
    (eventBatches : List EventBatch) (history : Option VersionHistory)
    (calls : List ExpectedCall) (lastBatch : EventBatch) (lastEvent : HistoryEvent)
    (before after : List ExpectedCall) (fuel : Nat)
    (hreg : mockActiveGetRawHistoryApiCallsRegistered s workflowID runID eventBatches history =
      some calls)
    (hb : eventBatches.getLast? = some lastBatch) (he : lastBatch.getLast? = some lastEvent)
    (hfuel : eventBatches.length ≤ fuel) (hbefore : ∀ d ∈ before, d.inertFor runID) :
    FetchRangeInclusive (mockAdminClientCall .getWorkflowExecutionRawHistory) fuel
        { namespaceID := s.namespaceID, expected := before ++ (calls ++ after) }
        ⟨s.namespaceID, workflowID, runID⟩ EmptyEventID EmptyVersion lastEvent.eventId
        lastEvent.version =
      (.ok eventBatches,
        { namespaceID := s.namespaceID
          expected := before ++ (calls.map ExpectedCall.called ++ after) }) := by
  have hterm : terminatesAt eventBatches lastEvent.eventId lastEvent.version = true := by
    unfold terminatesAt
    rw [flatten_getLast? eventBatches lastBatch lastEvent hb he]
    simp
  have hpages : fetchPages (mockAdminClientCall .getWorkflowExecutionRawHistory) fuel
      { namespaceID := s.namespaceID, expected := before ++ (calls ++ after) }
      (rangeRequest ⟨s.namespaceID, workflowID, runID⟩ EmptyEventID EmptyVersion
        lastEvent.eventId lastEvent.version none) =
      (.ok eventBatches,
        { namespaceID := s.namespaceID
          expected := before ++ (calls.map ExpectedCall.called ++ after) }) := by
    unfold mockActiveGetRawHistoryApiCallsRegistered at hreg
    rw [hb] at hreg
    simp only [he] at hreg
    cases eventBatches with
    | nil => simp at hreg
    | cons first rest =>
      cases fuel with
      | zero => simp at hfuel
      | succ fuel =>
        cases rest with
        | nil =>
          simp only [Option.some.injEq] at hreg
          subst hreg
          exact fetchPages_last _ fuel _ _ _ _
            (mockAdminClientCall_answer s.namespaceID before after
              ((mockActiveGetRawHistoryResponse s workflowID runID EmptyEventID EmptyVersion
                lastEvent.eventId lastEvent.version none
                { nextPageToken := none
                  historyBatches := [serializeEvents first]
                  versionHistory := history } none).Times 1)
              (rangeRequest ⟨s.namespaceID, workflowID, runID⟩ EmptyEventID EmptyVersion
                lastEvent.eventId lastEvent.version none) rfl rfl rfl rfl hbefore) rfl
        | cons second rest2 =>
          simp only [Option.some.injEq] at hreg
          subst hreg
          have hloop := fetchPages_scriptLoop s workflowID runID lastEvent history
            (second :: rest2) 1 (runID ++ "-next-page-token" ++ "0") fuel
            (before ++ [((mockActiveGetRawHistoryResponse s workflowID runID EmptyEventID
              EmptyVersion lastEvent.eventId lastEvent.version none
              { nextPageToken := some (runID ++ "-next-page-token" ++ "0")
                historyBatches := [serializeEvents first]
                versionHistory := history } none).Times 1).called]) after
            (by simp) (by simpa using hfuel)
            (by
              intro d hd
              rcases List.mem_append.mp hd with hd | hd
              · exact hbefore d hd
              · simp only [List.mem_singleton] at hd
                subst hd
                exact called_inertFor _ _ rfl rfl)
          rw [List.append_assoc, List.append_assoc] at hloop
          exact fetchPages_more _ fuel _ _ _ _ _ _ _
            (mockAdminClientCall_answer s.namespaceID before
              (mockActiveGetRawHistoryApiCallsLoop s workflowID runID lastEvent history 1
                (runID ++ "-next-page-token" ++ "0") (second :: rest2) ++ after)
              ((mockActiveGetRawHistoryResponse s workflowID runID EmptyEventID EmptyVersion
                lastEvent.eventId lastEvent.version none
                { nextPageToken := some (runID ++ "-next-page-token" ++ "0")
                  historyBatches := [serializeEvents first]
                  versionHistory := history } none).Times 1)
              (rangeRequest ⟨s.namespaceID, workflowID, runID⟩ EmptyEventID EmptyVersion
                lastEvent.eventId lastEvent.version none) rfl rfl rfl rfl hbefore) rfl
            (scriptToken_ne_empty _ _) hloop
  unfold FetchRangeInclusive
  rw [hpages]
  simp only [hterm, if_true]

/-! ## Theorems: the apply protocol -/

/-- A lineage built from events that end with a batch covers the final event of the batch. -/
theorem recordEvents_covers (start history : VersionHistory) (events batch : List HistoryEvent)
    (last : HistoryEvent) (hmono : Monotonic start.items) (hlast : batch.getLast? = some last)
    (h : recordEvents start (events ++ batch) = .ok history) :
    history.items.getLast? = some { eventId := last.eventId, version := last.version } ∧
      versionAt history.items last.eventId = some last.version ∧ Monotonic history.items := by
  have hne : batch ≠ [] := by
    intro hnil
    rw [hnil] at hlast
    simp at hlast
  have hl : (events ++ batch).getLast? = some last := by
    rw [List.getLast?_append_of_ne_nil _ hne]
    exact hlast
  obtain ⟨hm, _, hfinal⟩ := recordEvents_ok (events ++ batch) start history hmono h
  have hitem := hfinal last hl
  exact ⟨hitem, versionAt_last history.items _ hm hitem, hm⟩

/-- A store that has just received a record whose current history covers the batch end. -/
theorem holdsBatchEnd_storePut (store : Store) (key : RunKey) (record : WorkflowRecord)
    (current : VersionHistory) (lastItem : VersionHistoryItem) (last : HistoryEvent)
    (hcur : record.currentHistory = some current)
    (hlast : current.items.getLast? = some lastItem)
    (hle : last.eventId ≤ lastItem.eventId)
    (hver : versionAt current.items last.eventId = some last.version) :
    HoldsBatchEnd (storePut store key record) key last :=
  ⟨record, current, lastItem, lookup_storePut store key record, hcur, hlast, hle, hver⟩

/-- The empty lineage is monotonic. -/
theorem monotonic_nil : Monotonic ([] : List VersionHistoryItem) := by
  simp [Monotonic]

/-- When the version at an event ID is defined, a monotonic lineage reaches that event ID. -/
theorem le_last_of_versionAt (items : List VersionHistoryItem) (eventId version : Int)
    (hmono : Monotonic items) (h : versionAt items eventId = some version) :
    ∃ lastItem, items.getLast? = some lastItem ∧ eventId ≤ lastItem.eventId := by
  unfold versionAt at h
  cases hfind : items.find? (fun item => decide (eventId ≤ item.eventId)) with
  | none => rw [hfind] at h; simp at h
  | some item =>
    have hmem : item ∈ items := List.mem_of_find?_eq_some hfind
    have hle : eventId ≤ item.eventId := by
      have := List.find?_some hfind
      simpa using this
    cases hlast : items.getLast? with
    | none =>
      rw [List.getLast?_eq_none_iff.mp hlast] at hmem
      simp at hmem
    | some lastItem =>
      exact ⟨lastItem, rfl, le_trans hle (eventId_le_last items item lastItem hmono hmem hlast)⟩

/-- After a successful `applyNewHistory`, the store covers the final event of the batch. -/
theorem applyNewHistory_holds {σ : Type} (cfg : ClusterConfig)
    (call : σ → RawHistoryRequest → Except NdcError RawHistoryResponse × σ) (fuel : Nat)
    (store : Store) (peer : σ) (key : RunKey) (lineage : List VersionHistoryItem)
    (batch : EventBatch) (first last : HistoryEvent) (applied : Applied)
    (hlast : batch.getLast? = some last)
    (h : (applyNewHistory cfg call fuel store peer key lineage batch first last).outcome
      = .ok applied) :
    HoldsBatchEnd applied.store key last := by
  unfold applyNewHistory at h
  split at h
  · split at h
    · simp at h
    · dsimp only at h
      split at h
      · simp at h
      · split at h
        · simp at h
        · next history hrec =>
          split at h
          · next hver =>
            simp only [Except.ok.injEq] at h
            subst h
            have hm := (recordEvents_ok _ _ history monotonic_nil hrec).1
            obtain ⟨lastItem, hl, hle⟩ := le_last_of_versionAt _ _ _ hm hver
            exact holdsBatchEnd_storePut _ _ _ history lastItem last rfl hl hle hver
          · simp at h
  · split at h
    · split at h
      · simp at h
      · next history hrec =>
        simp only [Except.ok.injEq] at h
        subst h
        obtain ⟨hl, hver, _⟩ := recordEvents_covers _ history [] batch last monotonic_nil hlast
          (by simpa using hrec)
        exact holdsBatchEnd_storePut _ _ _ history _ last rfl hl (le_refl _) hver
    · split at h
      · simp at h
      · dsimp only at h
        split at h
        · simp at h
        · split at h
          · simp at h
          · next history hrec =>
            simp only [Except.ok.injEq] at h
            subst h
            obtain ⟨hl, hver, _⟩ := recordEvents_covers _ history _ batch last monotonic_nil
              hlast hrec
            exact holdsBatchEnd_storePut _ _ _ history _ last rfl hl (le_refl _) hver

/-- After a successful `applyContinuation`, the store covers the final event of the batch. -/
theorem applyContinuation_holds {σ : Type} (store : Store) (peer : σ) (key : RunKey)
    (record : WorkflowRecord) (current : VersionHistory) (incoming : List VersionHistoryItem)
    (batch : EventBatch) (first last : HistoryEvent) (applied : Applied)
    (hmono : Monotonic current.items) (hcur : record.currentHistory = some current)
    (hlast : batch.getLast? = some last)
    (h : (applyContinuation store peer key record current incoming batch first).outcome
      = .ok applied) :
    HoldsBatchEnd applied.store key last := by
  unfold applyContinuation at h
  split at h
  · split at h
    · simp at h
    · next history hrec =>
      simp only [Except.ok.injEq] at h
      subst h
      obtain ⟨hl, hver, _⟩ := recordEvents_covers current history [] batch last hmono hlast
        (by simpa using hrec)
      refine holdsBatchEnd_storePut _ _ _ history _ last ?_ hl (le_refl _) hver
      unfold WorkflowRecord.currentHistory at hcur ⊢
      have hidx : record.versionHistories.currentVersionHistoryIndex
          < record.versionHistories.histories.length := by
        by_contra hge
        rw [List.getElem?_eq_none (by omega)] at hcur
        simp at hcur
      simp [hidx]
  · simp at h

/-- After a successful `applyFork`, the store covers the final event of the batch. -/
theorem applyFork_holds {σ : Type}
    (call : σ → RawHistoryRequest → Except NdcError RawHistoryResponse × σ) (fuel : Nat)
    (store : Store) (peer : σ) (key : RunKey) (record : WorkflowRecord)
    (current : VersionHistory) (incoming : List VersionHistoryItem) (batch : EventBatch)
    (first last : HistoryEvent) (lca : VersionHistoryItem) (applied : Applied)
    (hlast : batch.getLast? = some last)
    (h : (applyFork call fuel store peer key record current incoming batch first lca).outcome
      = .ok applied) :
    HoldsBatchEnd applied.store key last := by
  have hcommit : ∀ (fetched : List EventBatch) (history : VersionHistory),
      recordEvents { branchToken := freshToken record.versionHistories.histories, items := [] }
        ((batchesThrough (record.branchBatches current.branchToken) lca.eventId) ++ fetched ++
          [batch]).flatten = .ok history →
      HoldsBatchEnd (storePut store key
        { versionHistories :=
            { currentVersionHistoryIndex := record.versionHistories.histories.length
              histories := record.versionHistories.histories ++ [history] }
          eventStore := record.eventStore ++
            [(freshToken record.versionHistories.histories,
              (batchesThrough (record.branchBatches current.branchToken) lca.eventId) ++ fetched ++
              [batch])]
          mutableState := rebuild
            ((batchesThrough (record.branchBatches current.branchToken) lca.eventId) ++ fetched ++
              [batch]) }) key last := by
    intro fetched history hrec
    rw [List.flatten_append] at hrec
    simp only [List.flatten_cons, List.flatten_nil, List.append_nil] at hrec
    obtain ⟨hl, hver, _⟩ := recordEvents_covers _ history _ batch last monotonic_nil hlast hrec
    refine holdsBatchEnd_storePut _ _ _ history _ last ?_ hl (le_refl _) hver
    simp [WorkflowRecord.currentHistory]
  unfold applyFork at h
  dsimp only at h
  split at h
  · split at h
    · simp at h
    · split at h
      · simp at h
      · split at h
        · simp at h
        · next history hrec =>
          simp only [Except.ok.injEq] at h
          subst h
          exact hcommit _ history hrec
  · split at h
    · simp at h
    · next history hrec =>
      simp only [Except.ok.injEq] at h
      subst h
      exact hcommit _ history hrec

/-- What the classification `Duplicate` says about the two lineages. -/
theorem compareForFork_duplicate (local_ incoming : List VersionHistoryItem)
    (h : CompareForFork local_ incoming = .ok .duplicate) :
    ∃ lastItem final, local_.getLast? = some lastItem ∧ incoming.getLast? = some final ∧
      final.eventId ≤ lastItem.eventId ∧ versionAt local_ final.eventId = some final.version := by
  unfold CompareForFork at h
  split at h
  · simp at h
  · simp at h
  · next lastItem final hl hf =>
    split at h
    · next hcond => exact ⟨lastItem, final, hl, hf, hcond.1, hcond.2⟩
    · split at h
      · split at h <;> simp at h
      · simp at h

/-- A final incoming item that lies on the local lineage is classified as `Duplicate`. -/
theorem compareForFork_of_covered (local_ incoming : List VersionHistoryItem)
    (lastItem final : VersionHistoryItem) (hl : local_.getLast? = some lastItem)
    (hf : incoming.getLast? = some final) (hle : final.eventId ≤ lastItem.eventId)
    (hver : versionAt local_ final.eventId = some final.version) :
    CompareForFork local_ incoming = .ok .duplicate := by
  unfold CompareForFork
  rw [hl, hf]
  simp [hle, hver]

/-- A key found by `lookup` belongs to an entry of the list. -/
theorem mem_of_lookup {α β : Type} [DecidableEq α] (l : List (α × β)) (k : α) (v : β)
    (h : l.lookup k = some v) : (k, v) ∈ l := by
  induction l with
  | nil => simp [List.lookup] at h
  | cons entry rest ih =>
    obtain ⟨k1, v1⟩ := entry
    by_cases hk : k = k1
    · subst hk
      simp [List.lookup] at h
      subst h
      simp
    · have hne : (k == k1) = false := by simpa using hk
      simp only [List.lookup, hne] at h
      exact List.mem_cons_of_mem _ (ih h)

/-- After a successful application under the lease, the task has a final event and the store
covers it. -/
theorem applyLeased_holds {σ : Type} (cfg : ClusterConfig)
    (call : σ → RawHistoryRequest → Except NdcError RawHistoryResponse × σ) (fuel : Nat)
    (store : Store) (peer : σ) (task : ReplicationTask) (applied : Applied)
    (hvalid : StoreValid store)
    (h : (applyLeased cfg call fuel store peer task).outcome = .ok applied) :
    ∃ first last, task.events.events.head? = some first ∧
      task.events.events.getLast? = some last ∧
      HoldsBatchEnd applied.store
        { namespaceID := task.namespaceId, workflowID := task.workflowId, runID := task.runId }
        last := by
  unfold applyLeased at h
  dsimp only at h
  split at h
  · next first last hfirst hlast =>
    refine ⟨first, last, hfirst, hlast, ?_⟩
    split at h
    · exact applyNewHistory_holds cfg call fuel store peer _ _ _ first last applied hlast h
    · next record hlookup =>
      split at h
      · simp at h
      · next current hcur =>
        split at h
        · simp at h
        · next hclass =>
          simp only [Except.ok.injEq] at h
          subst h
          obtain ⟨lastItem, final, hl, hf, hle, hver⟩ := compareForFork_duplicate _ _ hclass
          rw [incomingLineage_getLast?, Option.some.injEq] at hf
          subst hf
          exact ⟨record, current, lastItem, hlookup, hcur, hl, hle, hver⟩
        · exact applyNewHistory_holds cfg call fuel store peer _ _ _ first last applied hlast h
        · have hmem := mem_of_lookup store _ record hlookup
          have hcurmem : current ∈ record.versionHistories.histories := by
            unfold WorkflowRecord.currentHistory at hcur
            exact List.mem_iff_getElem?.mpr ⟨_, hcur⟩
          exact applyContinuation_holds store peer _ record current _ _ first last applied
            (hvalid _ hmem current hcurmem) hcur hlast h
        · exact applyFork_holds call fuel store peer _ record current _ _ first last _ applied
            hlast h
  · simp at h

/-- C6: idempotence of the apply protocol.  When a task has been applied successfully to a valid
store, applying the same task again (same RunKey, same EventBatch) classifies as `Duplicate`,
fetches nothing from the peer and leaves the persisted store, hence the persisted
VersionHistories, identical to what they were after the first application. -/
theorem applyReplicationTask_idempotent {σ : Type} (cfg : ClusterConfig)
    (call : σ → RawHistoryRequest → Except NdcError RawHistoryResponse × σ) (fuel : Nat)
    (store : Store) (peer : σ) (task : ReplicationTask) (applied : Applied)
    (hvalid : StoreValid store)
    (hfirst : (ApplyReplicationTask cfg call fuel store peer task).outcome = .ok applied) :
    ∀ (fuel2 : Nat) (peer2 : σ),
      (ApplyReplicationTask cfg call fuel2 applied.store peer2 task).outcome =
        .ok { store := applied.store, classification := .duplicate } ∧
      (ApplyReplicationTask cfg call fuel2 applied.store peer2 task).peer = peer2 := by
  intro fuel2 peer2
  have h1 : (applyLeased cfg call fuel store peer task).outcome = .ok applied := hfirst
  obtain ⟨first, last, hhead, hlast, record, current, lastItem, hlookup, hcur, hl, hle, hver⟩ :=
    applyLeased_holds cfg call fuel store peer task applied hvalid h1
  have hclass : CompareForFork current.items
      (incomingLineage task.versionHistoryItems last) = .ok .duplicate :=
    compareForFork_of_covered _ _ lastItem _ hl (incomingLineage_getLast? _ _) hle hver
  unfold ApplyReplicationTask applyLeased
  simp only [hhead, hlast, hlookup, hcur, hclass]
  trivial

/-- Witness of C6: the task of the fork reconciliation example, applied a second time. -/
theorem applyReplicationTask_idempotent_witness :
    StoreValid forkExampleStore ∧
    ∃ applied, forkExample.outcome = .ok applied ∧
      (ApplyReplicationTask forkExampleConfig PeerHistory.call 10 applied.store forkExamplePeer
        forkExampleTask).outcome =
        .ok { store := applied.store, classification := .duplicate } :=
  have hvalid : StoreValid forkExampleStore := by
    simp [StoreValid, forkExampleStore, Monotonic]
  ⟨hvalid, _, rfl,
    (applyReplicationTask_idempotent forkExampleConfig PeerHistory.call 10 forkExampleStore
      forkExamplePeer forkExampleTask _ hvalid rfl 10 forkExamplePeer).1⟩

/-! ## Theorems: symbolic execution of the no-history cases -/

/-- The migration-back import of a locally authored batch, once the fetch has succeeded. -/
theorem applyNewHistory_import {σ : Type} (cfg : ClusterConfig)
    (call : σ → RawHistoryRequest → Except NdcError RawHistoryResponse × σ) (fuel : Nat)
    (store : Store) (peer peer1 : σ) (key : RunKey) (lineage : List VersionHistoryItem)
    (batch : EventBatch) (first last : HistoryEvent) (endItem : VersionHistoryItem)
    (batches : List EventBatch) (history : VersionHistory)
    (hown : cfg.ownsVersion last.version = true)
    (hend : lineage.find? (fun item => decide (last.eventId ≤ item.eventId)) = some endItem)
    (hfetch : FetchRangeInclusive call fuel peer key EmptyEventID EmptyVersion endItem.eventId
      endItem.version = (.ok batches, peer1))
    (hrecord : recordEvents { branchToken := 0, items := [] } batches.flatten = .ok history)
    (hcovers : versionAt history.items last.eventId = some last.version) :
    applyNewHistory cfg call fuel store peer key lineage batch first last =
      { peer := peer1
        ops := [.fetchRange key EmptyEventID EmptyVersion endItem.eventId endItem.version,
          .backfillWorkflow key batches, .updateWorkflow key true]
        outcome := .ok
          { store := storePut store key
              { versionHistories := { currentVersionHistoryIndex := 0, histories := [history] }
                eventStore := [(0, batches)]
                mutableState := rebuild batches }
            classification := .newHistory } } := by
  unfold applyNewHistory
  simp only [hown, if_true, hend, hfetch, hrecord, hcovers]

/-- The backfill before a remote batch that is not the first of its run, once the fetch has
succeeded. -/
theorem applyNewHistory_backfill {σ : Type} (cfg : ClusterConfig)
    (call : σ → RawHistoryRequest → Except NdcError RawHistoryResponse × σ) (fuel : Nat)
    (store : Store) (peer peer1 : σ) (key : RunKey) (lineage : List VersionHistoryItem)
    (batch : EventBatch) (first last : HistoryEvent) (endVersion : Int)
    (batches : List EventBatch) (history : VersionHistory)
    (hown : cfg.ownsVersion last.version = false) (hfirst : first.eventId ≠ 1)
    (hend : versionAt lineage (first.eventId - 1) = some endVersion)
    (hfetch : FetchRangeInclusive call fuel peer key EmptyEventID EmptyVersion
      (first.eventId - 1) endVersion = (.ok batches, peer1))
    (hrecord : recordEvents { branchToken := 0, items := [] } (batches.flatten ++ batch)
      = .ok history) :
    applyNewHistory cfg call fuel store peer key lineage batch first last =
      { peer := peer1
        ops := [.fetchRange key EmptyEventID EmptyVersion (first.eventId - 1) endVersion,
          .backfillWorkflow key batches, .updateWorkflow key false]
        outcome := .ok
          { store := storePut store key
              { versionHistories := { currentVersionHistoryIndex := 0, histories := [history] }
                eventStore := [(0, batches ++ [batch])]
                mutableState := rebuild (batches ++ [batch]) }
            classification := .newHistory } } := by
  unfold applyNewHistory
  simp only [hown, Bool.false_eq_true, if_false, hfirst, hend, hfetch, hrecord]

/-- Applying a task to a store without a record of the run. -/
theorem applyReplicationTask_absent {σ : Type} (cfg : ClusterConfig)
    (call : σ → RawHistoryRequest → Except NdcError RawHistoryResponse × σ) (fuel : Nat)
    (store : Store) (peer : σ) (task : ReplicationTask) (first last : HistoryEvent)
    (hhead : task.events.events.head? = some first)
    (hlast : task.events.events.getLast? = some last)
    (habsent : store.lookup
      ({ namespaceID := task.namespaceId, workflowID := task.workflowId,
         runID := task.runId } : RunKey) = none) :
    ApplyReplicationTask cfg call fuel store peer task =
      { peer := (applyNewHistory cfg call fuel store peer
          { namespaceID := task.namespaceId, workflowID := task.workflowId, runID := task.runId }
          task.versionHistoryItems task.events.events first last).peer
        ops := [Op.acquireLease
            { namespaceID := task.namespaceId, workflowID := task.workflowId,
              runID := task.runId } .high,
          Op.checkWorkflowExists
            { namespaceID := task.namespaceId, workflowID := task.workflowId,
              runID := task.runId } false] ++
          (applyNewHistory cfg call fuel store peer
            { namespaceID := task.namespaceId, workflowID := task.workflowId,
              runID := task.runId }
            task.versionHistoryItems task.events.events first last).ops ++
          [Op.releaseLease
            { namespaceID := task.namespaceId, workflowID := task.workflowId,
              runID := task.runId }
            (outcomeError (applyNewHistory cfg call fuel store peer
              { namespaceID := task.namespaceId, workflowID := task.workflowId,
                runID := task.runId }
              task.versionHistoryItems task.events.events first last).outcome)]
        outcome := (applyNewHistory cfg call fuel store peer
          { namespaceID := task.namespaceId, workflowID := task.workflowId, runID := task.runId }
          task.versionHistoryItems task.events.events first last).outcome } := by
  unfold ApplyReplicationTask applyLeased
  simp only [hhead, hlast, habsent, List.cons_append, List.nil_append, List.singleton_append]

/-! ## Theorems: fork reconciliation -/

/-- The events kept by `batchesThrough` are the events of the branch up to the event ID. -/
theorem batchesThrough_flatten (batches : List EventBatch) (eventId : Int) :
    (batchesThrough batches eventId).flatten =
      batches.flatten.filter fun event => decide (event.eventId ≤ eventId) := by
  induction batches with
  | nil => rfl
  | cons stored rest ih =>
    unfold batchesThrough at ih ⊢
    simp only [List.map_cons, List.flatten_cons, List.filter_append]
    rw [← ih]
    by_cases hempty : (stored.filter fun event => decide (event.eventId ≤ eventId)) = []
    · simp [List.filter_cons, hempty]
    · have hne : (stored.filter fun event => decide (event.eventId ≤ eventId)).isEmpty = false := by
        cases hf : stored.filter fun event => decide (event.eventId ≤ eventId) with
        | nil => exact absurd hf hempty
        | cons _ _ => rfl
      simp [List.filter_cons, hne]

/-- The lineage recorded for an event depends on its event ID and version only. -/
theorem recordEvent_congr (history : VersionHistory) (a b : HistoryEvent)
    (hid : a.eventId = b.eventId) (hversion : a.version = b.version) :
    recordEvent history a = recordEvent history b := by
  unfold recordEvent
  rw [hid, hversion]

/-- The lineage recorded for a sequence of events depends on their event IDs and versions
only. -/
theorem recordEvents_congr (events others : List HistoryEvent) :
    ∀ history : VersionHistory,
      events.map (fun event => (event.eventId, event.version)) =
        others.map (fun event => (event.eventId, event.version)) →
      recordEvents history events = recordEvents history others := by
  induction events generalizing others with
  | nil =>
    intro history h
    cases others with
    | nil => rfl
    | cons _ _ => simp at h
  | cons a rest ih =>
    intro history h
    cases others with
    | nil => simp at h
    | cons b rest2 =>
      simp only [List.map_cons, List.cons.injEq, Prod.mk.injEq] at h
      unfold recordEvents
      rw [recordEvent_congr history a b h.1.1 h.1.2]
      cases recordEvent history b with
      | error e => rfl
      | ok next => exact ih rest2 next h.2

/-! ## Theorems: timers of a rebuilt mutable state -/

/-- The balance of a sequence of events is the balance of its first event plus the balance of
the rest. -/
theorem timerBalance_cons (event : HistoryEvent) (rest : List HistoryEvent) :
    timerBalance (event :: rest) = timerBalance [event] + timerBalance rest := by
  unfold timerBalance
  simp only [List.countP_cons, List.countP_nil, Nat.zero_add]
  push_cast
  ring

/-- Replaying one event changes the number of timers by the balance of the event, when the
event does not close a timer that is not there. -/
theorem replayEvent_timerInfos (state : MutableState) (event : HistoryEvent)
    (h : 0 ≤ (state.timerInfos : Int) + timerBalance [event]) :
    ((replayEvent state event).timerInfos : Int) = state.timerInfos + timerBalance [event] := by
  unfold replayEvent
  unfold timerBalance at h ⊢
  cases htype : event.eventType <;>
    simp only [htype, List.countP_cons, List.countP_nil, reduceCtorEq, decide_False,
      decide_True, Bool.or_false, Bool.or_true, Bool.false_eq_true, if_false, if_true,
      Bool.or_self] at h ⊢ <;>
    simp at h ⊢ <;>
    omega

/-- Replaying a well-formed sequence of events changes the number of timers by its balance. -/
theorem foldl_replayEvent_timerInfos (events : List HistoryEvent) :
    ∀ state : MutableState,
      (∀ n : Nat, 0 ≤ (state.timerInfos : Int) + timerBalance (events.take n)) →
      (((events.foldl replayEvent state).timerInfos : Nat) : Int) =
        state.timerInfos + timerBalance events := by
  induction events with
  | nil =>
    intro state _
    simp [timerBalance]
  | cons event rest ih =>
    intro state h
    have hfirst : 0 ≤ (state.timerInfos : Int) + timerBalance [event] := by
      have h1 := h 1
      simpa using h1
    have hstep := replayEvent_timerInfos state event hfirst
    have hrest : ∀ n : Nat,
        0 ≤ ((replayEvent state event).timerInfos : Int) + timerBalance (rest.take n) := by
      intro n
      have hn := h (n + 1)
      rw [List.take_succ_cons, timerBalance_cons] at hn
      rw [hstep]
      omega
    rw [List.foldl_cons, ih _ hrest, hstep, timerBalance_cons event rest]
    ring

/-- The timers of a mutable state rebuilt from genesis: the balance of the replayed events, when
they are well formed. -/
theorem rebuild_timerInfos (batches : List EventBatch)
    (hwell : TimersWellFormed batches.flatten) :
    ((rebuild batches).timerInfos : Int) = timerBalance batches.flatten := by
  unfold rebuild
  rw [foldl_replayEvent_timerInfos batches.flatten MutableState.initial]
  · simp [MutableState.initial]
  · intro n
    simpa [MutableState.initial] using hwell n

/-- The balance of a sequence of events followed by further events is the sum of the balances. -/
theorem timerBalance_append (events others : List HistoryEvent) :
    timerBalance (events ++ others) = timerBalance events + timerBalance others := by
  unfold timerBalance
  simp only [List.countP_append]
  push_cast
  ring

/-- A timer-started event after a well-formed sequence of events without pending timer gives a
well-formed sequence with one pending timer. -/
theorem timerStarted_after_closed (events : List HistoryEvent) (last : HistoryEvent)
    (hwell : TimersWellFormed events) (hclosed : timerBalance events = 0)
    (hlast : last.eventType = .timerStarted) :
    TimersWellFormed (events ++ [last]) ∧ timerBalance (events ++ [last]) = 1 := by
  have hone : timerBalance [last] = 1 := by
    simp [timerBalance, hlast]
  have hall : timerBalance (events ++ [last]) = 1 := by
    rw [timerBalance_append, hclosed, hone]
    rfl
  refine ⟨fun n => ?_, hall⟩
  rcases Nat.le_total n events.length with hn | hn
  · rw [List.take_append_of_le_length hn]
    exact hwell n
  · rcases Nat.eq_or_lt_of_le hn with heq | hlt
    · rw [← heq, List.take_append_of_le_length (le_refl _)]
      exact hwell _
    · rw [List.take_of_length_le (by simp; omega), hall]
      decide

/-! ## Theorems: the lineage of the test data -/

/-- The lineage recorded for the first seven batches of `workflow_1`, whatever the event
types. -/
theorem recordEvents_migrationBackForth (eventType : Int → EventType) :
    recordEvents { branchToken := 0, items := [] }
      (sliceBatches (migrationBackForthBatches eventType) 0 7).flatten =
      .ok { branchToken := 0, items := [⟨5, 1⟩, ⟨10, 2⟩] } := by
  have hcongr := recordEvents_congr
    (sliceBatches (migrationBackForthBatches eventType) 0 7).flatten
    (sliceBatches (migrationBackForthBatches fun _ => .other) 0 7).flatten
    { branchToken := 0, items := [] } rfl
  rw [hcongr]
  decide

/-- The lineage recorded for the eight batches of `workflow_1`, whatever the event types. -/
theorem recordEvents_migrationBackForth_all (eventType : Int → EventType) :
    recordEvents { branchToken := 0, items := [] }
      ((sliceBatches (migrationBackForthBatches eventType) 0 7).flatten ++
        [⟨11, 11, eventType 11⟩, ⟨12, 11, eventType 12⟩]) =
      .ok { branchToken := 0, items := [⟨5, 1⟩, ⟨10, 2⟩, ⟨12, 11⟩] } := by
  have hcongr := recordEvents_congr
    ((sliceBatches (migrationBackForthBatches eventType) 0 7).flatten ++
        [⟨11, 11, eventType 11⟩, ⟨12, 11, eventType 12⟩])
    ((sliceBatches (migrationBackForthBatches fun _ => .other) 0 7).flatten ++
        [⟨11, 11, .other⟩, ⟨12, 11, .other⟩])
    { branchToken := 0, items := [] } rfl
  rw [hcongr]
  decide

/-! ## Theorems: scenarios -/

/-- C10: long-running migration back, task with local events.  The data file of the test gives
the event types; event 10 "is a timer started event" and the timers started by events 1-9 have
all fired or been canceled within events 1-9.  For a run without local state, whatever the IDs
of namespace, workflow and run, applying the task whose batch is events 9-10 (version 2) imports
events 1 through 10 inclusive from the scripted peer, in seven pages that use up the script: the
current version history is exactly [(5,1),(10,2)], the stored history is exactly the first seven
source batches in order, and the mutable state, rebuilt by replaying events 1-10, holds exactly
one timer. -/
theorem longRunningMigrationBack_localEvents (eventType : Int → EventType)
    (namespaceID workflowID runID : String)
    (hlast : eventType 10 = .timerStarted)
    (hwell : TimersWellFormed
      (sliceBatches (migrationBackForthBatches eventType) 0 7).flatten.dropLast)
    (hclosed : timerBalance
      (sliceBatches (migrationBackForthBatches eventType) 0 7).flatten.dropLast = 0) :
    ∃ r record current,
      longRunningMigrationBackReplicationTaskContainsLocalEventsTestBase
        { namespaceID := namespaceID, expected := [] } eventType workflowID runID 6 0 7 = some r ∧
      committedRecord r ⟨namespaceID, workflowID, runID⟩ = some record ∧
      record.currentHistory = some current ∧
      current.items = [⟨5, 1⟩, ⟨10, 2⟩] ∧
      record.branchBatches current.branchToken =
        sliceBatches (migrationBackForthBatches eventType) 0 7 ∧
      record.mutableState.timerInfos = 1 ∧
      r.ops =
        [ .acquireLease ⟨namespaceID, workflowID, runID⟩ .high,
          .checkWorkflowExists ⟨namespaceID, workflowID, runID⟩ false,
          .fetchRange ⟨namespaceID, workflowID, runID⟩ 0 0 10 2,
          .backfillWorkflow ⟨namespaceID, workflowID, runID⟩
            (sliceBatches (migrationBackForthBatches eventType) 0 7),
          .updateWorkflow ⟨namespaceID, workflowID, runID⟩ true,
          .releaseLease ⟨namespaceID, workflowID, runID⟩ none ] ∧
      (sliceBatches (migrationBackForthBatches eventType) 0 7).flatten.map
          (fun event => event.eventId) =
        [1, 2, 3, 4, 5, 6, 7, 8, 9, 10] ∧
      r.peer.expected.map (fun c => (c.method, c.numCalls)) =
        [ (.getWorkflowExecutionRawHistory, 1), (.getWorkflowExecutionRawHistory, 1),
          (.getWorkflowExecutionRawHistory, 1), (.getWorkflowExecutionRawHistory, 1),
          (.getWorkflowExecutionRawHistory, 1), (.getWorkflowExecutionRawHistory, 1),
          (.getWorkflowExecutionRawHistory, 1) ] ∧
      r.peer.expected.all (fun c => c.satisfied) = true := by
  have hfetch := fetchRangeInclusive_script { namespaceID := namespaceID, expected := [] }
    workflowID runID (sliceBatches (migrationBackForthBatches eventType) 0 7)
    (some migrationBackForthHistory)
    ((mockActiveGetRawHistoryApiCallsRegistered { namespaceID := namespaceID, expected := [] }
      workflowID runID (sliceBatches (migrationBackForthBatches eventType) 0 7)
      (some migrationBackForthHistory)).getD [])
    [⟨9, 2, eventType 9⟩, ⟨10, 2, eventType 10⟩] ⟨10, 2, eventType 10⟩ [] [] passiveFetchBudget
    rfl rfl rfl (Nat.le_of_ble_eq_true rfl) (by simp)
  have himport := applyNewHistory_import passiveClusterConfig
    (mockAdminClientCall .getWorkflowExecutionRawHistory) passiveFetchBudget [] _ _
    ⟨namespaceID, workflowID, runID⟩ migrationBackForthHistory.items
    [⟨9, 2, eventType 9⟩, ⟨10, 2, eventType 10⟩] ⟨9, 2, eventType 9⟩ ⟨10, 2, eventType 10⟩ ⟨10, 2⟩
    (sliceBatches (migrationBackForthBatches eventType) 0 7) { branchToken := 0, items := [⟨5, 1⟩, ⟨10, 2⟩] }
    rfl rfl hfetch
    (recordEvents_migrationBackForth eventType) rfl
  have hresult := applyReplicationTask_absent passiveClusterConfig
    (mockAdminClientCall .getWorkflowExecutionRawHistory) passiveFetchBudget []
    ({ namespaceID := namespaceID
       expected := [] ++
        ((mockActiveGetRawHistoryApiCallsRegistered { namespaceID := namespaceID, expected := [] }
          workflowID runID (sliceBatches (migrationBackForthBatches eventType) 0 7)
          (some migrationBackForthHistory)).getD [] ++ []) } : Suite)
    (createHistoryEventReplicationTaskFromHistoryEventBatch namespaceID workflowID runID
      [⟨9, 2, eventType 9⟩, ⟨10, 2, eventType 10⟩] none migrationBackForthHistory.items)
    ⟨9, 2, eventType 9⟩ ⟨10, 2, eventType 10⟩ rfl rfl rfl
  simp only [createHistoryEventReplicationTaskFromHistoryEventBatch, serializeEvents] at hresult
  rw [himport] at hresult
  have htimers : (rebuild (sliceBatches (migrationBackForthBatches eventType) 0 7)).timerInfos
      = 1 := by
    have hsplit : (sliceBatches (migrationBackForthBatches eventType) 0 7).flatten =
        (sliceBatches (migrationBackForthBatches eventType) 0 7).flatten.dropLast ++
          [⟨10, 2, eventType 10⟩] := rfl
    have hall := timerStarted_after_closed _ ⟨10, 2, eventType 10⟩ hwell hclosed hlast
    rw [← hsplit] at hall
    have h := rebuild_timerInfos _ hall.1
    rw [hall.2] at h
    exact_mod_cast h
  refine ⟨_,
    { versionHistories :=
        { currentVersionHistoryIndex := 0
          histories := [{ branchToken := 0, items := [⟨5, 1⟩, ⟨10, 2⟩] }] }
      eventStore := [(0, sliceBatches (migrationBackForthBatches eventType) 0 7)]
      mutableState := rebuild (sliceBatches (migrationBackForthBatches eventType) 0 7) },
    { branchToken := 0, items := [⟨5, 1⟩, ⟨10, 2⟩] },
    Eq.trans rfl (congrArg some hresult), ?_, rfl, rfl, rfl, htimers, rfl, rfl,
    rfl, rfl⟩
  simp [committedRecord, storePut, List.lookup]

/-- C9: long-running migration back, task with remote events.  For a run without local state and
sender lineage [(5,1),(10,2),(12,11)], whatever the event types of the data file and the IDs of
namespace, workflow and run, applying the task whose batch is events 11-12 (version 11) first
backfills events 1 through 10, fetched from the scripted peer in seven pages, and then commits:
the current version history is exactly [(5,1),(10,2),(12,11)] and the stored history is exactly
the eight source batches in order. -/
theorem longRunningMigrationBack_remoteEvents (eventType : Int → EventType)
    (namespaceID workflowId runId : String) :
    ∃ r record current,
      longRunningMigrationBackRemoteEvents { namespaceID := namespaceID, expected := [] }
        eventType workflowId runId = some r ∧
      committedRecord r ⟨namespaceID, workflowId, runId⟩ = some record ∧
      record.currentHistory = some current ∧
      current.items = [⟨5, 1⟩, ⟨10, 2⟩, ⟨12, 11⟩] ∧
      record.branchBatches current.branchToken = migrationBackForthBatches eventType ∧
      r.ops =
        [ .acquireLease ⟨namespaceID, workflowId, runId⟩ .high,
          .checkWorkflowExists ⟨namespaceID, workflowId, runId⟩ false,
          .fetchRange ⟨namespaceID, workflowId, runId⟩ 0 0 10 2,
          .backfillWorkflow ⟨namespaceID, workflowId, runId⟩
            (sliceBatches (migrationBackForthBatches eventType) 0 7),
          .updateWorkflow ⟨namespaceID, workflowId, runId⟩ false,
          .releaseLease ⟨namespaceID, workflowId, runId⟩ none ] ∧
      (sliceBatches (migrationBackForthBatches eventType) 0 7).flatten.map
          (fun event => event.eventId) =
        [1, 2, 3, 4, 5, 6, 7, 8, 9, 10] ∧
      r.peer.expected.map (fun c => (c.method, c.numCalls)) =
        [ (.getWorkflowExecutionRawHistory, 1), (.getWorkflowExecutionRawHistory, 1),
          (.getWorkflowExecutionRawHistory, 1), (.getWorkflowExecutionRawHistory, 1),
          (.getWorkflowExecutionRawHistory, 1), (.getWorkflowExecutionRawHistory, 1),
          (.getWorkflowExecutionRawHistory, 1), (.getWorkflowExecutionRawHistoryV2, 0) ] ∧
      r.peer.expected.all (fun c => c.satisfied) = true := by
  have hfetch := fetchRangeInclusive_script { namespaceID := namespaceID, expected := [] }
    workflowId runId (sliceBatches (migrationBackForthBatches eventType) 0 7)
    (some migrationBackForthHistory)
    ((mockActiveGetRawHistoryApiCallsRegistered { namespaceID := namespaceID, expected := [] }
      workflowId runId (sliceBatches (migrationBackForthBatches eventType) 0 7)
      (some migrationBackForthHistory)).getD [])
    [⟨9, 2, eventType 9⟩, ⟨10, 2, eventType 10⟩] ⟨10, 2, eventType 10⟩ []
    [remoteEventsRawHistoryV2Expectation { namespaceID := namespaceID, expected := [] }
      workflowId runId (migrationBackForthBatches eventType) migrationBackForthHistory]
    passiveFetchBudget rfl rfl rfl (Nat.le_of_ble_eq_true rfl) (by simp)
  have hbackfill := applyNewHistory_backfill passiveClusterConfig
    (mockAdminClientCall .getWorkflowExecutionRawHistory) passiveFetchBudget [] _ _
    ⟨namespaceID, workflowId, runId⟩ migrationBackForthHistory.items
    [⟨11, 11, eventType 11⟩, ⟨12, 11, eventType 12⟩] ⟨11, 11, eventType 11⟩ ⟨12, 11, eventType 12⟩ 2
    (sliceBatches (migrationBackForthBatches eventType) 0 7)
    { branchToken := 0, items := [⟨5, 1⟩, ⟨10, 2⟩, ⟨12, 11⟩] }
    rfl (by simp) rfl hfetch
    (recordEvents_migrationBackForth_all eventType)
  have hresult := applyReplicationTask_absent passiveClusterConfig
    (mockAdminClientCall .getWorkflowExecutionRawHistory) passiveFetchBudget []
    ({ namespaceID := namespaceID
       expected := [] ++
        ((mockActiveGetRawHistoryApiCallsRegistered { namespaceID := namespaceID, expected := [] }
          workflowId runId (sliceBatches (migrationBackForthBatches eventType) 0 7)
          (some migrationBackForthHistory)).getD [] ++
          [remoteEventsRawHistoryV2Expectation { namespaceID := namespaceID, expected := [] }
            workflowId runId (migrationBackForthBatches eventType) migrationBackForthHistory]) } : Suite)
    (createHistoryEventReplicationTaskFromHistoryEventBatch namespaceID workflowId runId
      [⟨11, 11, eventType 11⟩, ⟨12, 11, eventType 12⟩] none migrationBackForthHistory.items)
    ⟨11, 11, eventType 11⟩ ⟨12, 11, eventType 12⟩ rfl rfl rfl
  simp only [createHistoryEventReplicationTaskFromHistoryEventBatch, serializeEvents] at hresult
  rw [hbackfill] at hresult
  refine ⟨_,
    { versionHistories :=
        { currentVersionHistoryIndex := 0
          histories := [{ branchToken := 0, items := [⟨5, 1⟩, ⟨10, 2⟩, ⟨12, 11⟩] }] }
      eventStore := [(0, sliceBatches (migrationBackForthBatches eventType) 0 7 ++
        [[⟨11, 11, eventType 11⟩, ⟨12, 11, eventType 12⟩]])]
      mutableState := rebuild (sliceBatches (migrationBackForthBatches eventType) 0 7 ++
        [[⟨11, 11, eventType 11⟩, ⟨12, 11, eventType 12⟩]]) },
    { branchToken := 0, items := [⟨5, 1⟩, ⟨10, 2⟩, ⟨12, 11⟩] },
    Eq.trans rfl (congrArg some hresult), ?_, rfl, rfl, rfl, rfl, rfl, rfl, rfl⟩
  simp [committedRecord, storePut, List.lookup]


/-- Witness for C10 with the event types of `sampleEventType` (a timer started by event 5 fires
with event 6, event 10 starts a timer) and the identifiers of the test: events 1-9 are well
formed and leave no timer pending, and the imported run has the current history [(5,1),(10,2)],
the first seven batches and exactly one timer. -/
theorem longRunningMigrationBack_localEvents_witness :
    sampleEventType 10 = .timerStarted ∧
    TimersWellFormed
      (sliceBatches (migrationBackForthBatches sampleEventType) 0 7).flatten.dropLast ∧
    timerBalance
      (sliceBatches (migrationBackForthBatches sampleEventType) 0 7).flatten.dropLast = 0 ∧
    ∃ r record current,
      longRunningMigrationBackReplicationTaskContainsLocalEventsTestBase freshSuite
        sampleEventType "ndc-test-migration-back-local-6" "run-id" 6 0 7 = some r ∧
      committedRecord r ⟨"namespace-id", "ndc-test-migration-back-local-6", "run-id"⟩ =
        some record ∧
      record.currentHistory = some current ∧
      current.items = [⟨5, 1⟩, ⟨10, 2⟩] ∧
      record.branchBatches current.branchToken =
        sliceBatches (migrationBackForthBatches sampleEventType) 0 7 ∧
      record.mutableState.timerInfos = 1 := by
  have hwell : TimersWellFormed
      (sliceBatches (migrationBackForthBatches sampleEventType) 0 7).flatten.dropLast := by
    intro n
    rcases Nat.lt_or_ge n 10 with hn | hn
    · interval_cases n <;> decide
    · rw [List.take_of_length_le (le_trans (by decide) hn)]
      decide
  have hclosed : timerBalance
      (sliceBatches (migrationBackForthBatches sampleEventType) 0 7).flatten.dropLast = 0 := by
    decide
  obtain ⟨r, record, current, h1, h2, h3, h4, h5, h6, _⟩ :=
    longRunningMigrationBack_localEvents sampleEventType "namespace-id"
      "ndc-test-migration-back-local-6" "run-id" (by decide) hwell hclosed
  exact ⟨by decide, hwell, hclosed, r, record, current, h1, h2, h3, h4, h5, h6⟩

/-- The classification of the fork reconciliation example, for every pair of versions. -/
theorem compareForFork_fork (v1 v2 : Int) (hv : v1 < v2) :
    CompareForFork [⟨5, v1⟩, ⟨7, v1⟩] [⟨5, v1⟩, ⟨10, v2⟩] = .ok (.fork ⟨5, v1⟩) ∧
    FindLCA [⟨5, v1⟩, ⟨7, v1⟩] [⟨5, v1⟩, ⟨10, v2⟩] = .ok ⟨5, v1⟩ := by
  have hne : v1 ≠ v2 := ne_of_lt hv
  have hlca : FindLCA [⟨5, v1⟩, ⟨7, v1⟩] [⟨5, v1⟩, ⟨10, v2⟩] = .ok ⟨5, v1⟩ := by
    have h1 : ((⟨7, v1⟩ : VersionHistoryItem) == ⟨5, v1⟩) = false := by
      rw [beq_eq_false_iff_ne]
      intro h
      exact absurd (VersionHistoryItem.mk.inj h).1 (by decide)
    have h2 : ((⟨7, v1⟩ : VersionHistoryItem) == ⟨10, v2⟩) = false := by
      rw [beq_eq_false_iff_ne]
      intro h
      exact absurd (VersionHistoryItem.mk.inj h).1 (by decide)
    simp [FindLCA, List.filter, List.contains, List.elem, h1, h2]
  have hdiv : Diverges [⟨5, v1⟩, ⟨7, v1⟩] [⟨5, v1⟩, ⟨10, v2⟩] = true := by
    simp [Diverges, sharedEventIds, versionAt, List.range, List.range.loop, List.find?, hne]
  refine ⟨?_, hlca⟩
  simp [CompareForFork, hdiv, hlca, versionAt, List.find?]

/-- The lineage recorded for events 1-5 at one version followed by events 6-10 at a later
version. -/
theorem recordEvents_fork (token : Nat) (v1 v2 : Int) (hv : v1 < v2)
    (events : List HistoryEvent)
    (hkeys : events.map (fun event => (event.eventId, event.version)) =
      [(1, v1), (2, v1), (3, v1), (4, v1), (5, v1), (6, v2), (7, v2), (8, v2), (9, v2),
        (10, v2)]) :
    recordEvents { branchToken := token, items := [] } events =
      .ok { branchToken := token, items := [⟨5, v1⟩, ⟨10, v2⟩] } := by
  have hne : v2 ≠ v1 := ne_of_gt hv
  rw [recordEvents_congr events
    ([(1, v1), (2, v1), (3, v1), (4, v1), (5, v1), (6, v2), (7, v2), (8, v2), (9, v2),
      (10, v2)].map fun k => ({ eventId := k.1, version := k.2, eventType := .other } :
        HistoryEvent)) _ (by rw [hkeys]; rfl)]
  simp [recordEvents, recordEvent, AppendItem, hne, not_lt.mpr (le_of_lt hv)]

/-- C5: fork reconciliation.  For every pair of versions v1 < v2 and every local record whose
current branch is [(5,v1),(7,v1)] (the history [(5,v1)] advanced by `AppendItem` with (7,v1)),
holding events 1-7 at version v1 in any batching: for an incoming task with lineage
[(5,v1),(10,v2)] whose batch ends at event 10, `CompareForFork` classifies the task as `Fork`
with lowest common ancestor (5,v1), the last item present in both sequences with matching
version; the missing range after (5,v1) is fetched from the peer and backfilled, the state is
rebuilt from genesis, and the committed current history equals [(5,v1),(10,v2)], on a new
branch holding local events 1-5 followed by events 6-10, next to the kept old branch. -/
theorem fork_reconciliation {σ : Type} (cfg : ClusterConfig)
    (call : σ → RawHistoryRequest → Except NdcError RawHistoryResponse × σ) (fuel : Nat)
    (store : Store) (peer peer1 : σ) (task : ReplicationTask) (record : WorkflowRecord)
    (current : VersionHistory) (v1 v2 : Int) (first last : HistoryEvent)
    (fetched : List EventBatch)
    (hv : v1 < v2)
    (hlookup : store.lookup
      ({ namespaceID := task.namespaceId, workflowID := task.workflowId,
         runID := task.runId } : RunKey) = some record)
    (hcurrent : record.currentHistory = some current)
    (hlocal : current.items = [⟨5, v1⟩, ⟨7, v1⟩])
    (hstored : (record.branchBatches current.branchToken).flatten.map
        (fun event => (event.eventId, event.version)) =
      [(1, v1), (2, v1), (3, v1), (4, v1), (5, v1), (6, v1), (7, v1)])
    (hlineage : task.versionHistoryItems = [⟨5, v1⟩, ⟨10, v2⟩])
    (hhead : task.events.events.head? = some first)
    (hlast : task.events.events.getLast? = some last)
    (hend : last.eventId = 10 ∧ last.version = v2)
    (hgap : 6 < first.eventId ∧ first.eventId ≤ 10)
    (hfetch : FetchRangeInclusive call fuel peer
      { namespaceID := task.namespaceId, workflowID := task.workflowId, runID := task.runId }
      5 v1 (first.eventId - 1) v2 = (.ok fetched, peer1))
    (hnew : (fetched.flatten ++ task.events.events).map
        (fun event => (event.eventId, event.version)) =
      [(6, v2), (7, v2), (8, v2), (9, v2), (10, v2)]) :
    CompareForFork [⟨5, v1⟩, ⟨7, v1⟩] [⟨5, v1⟩, ⟨10, v2⟩] = .ok (.fork ⟨5, v1⟩) ∧
    FindLCA [⟨5, v1⟩, ⟨7, v1⟩] [⟨5, v1⟩, ⟨10, v2⟩] = .ok ⟨5, v1⟩ ∧
    AppendItem { branchToken := current.branchToken, items := [⟨5, v1⟩] } ⟨7, v1⟩ = .ok current ∧
    ∃ applied committed newBatches,
      (ApplyReplicationTask cfg call fuel store peer task).outcome = .ok applied ∧
      applied.classification = .fork ⟨5, v1⟩ ∧
      applied.store.lookup
        ({ namespaceID := task.namespaceId, workflowID := task.workflowId,
           runID := task.runId } : RunKey) = some committed ∧
      committed.currentHistory =
        some { branchToken := freshToken record.versionHistories.histories
               items := [⟨5, v1⟩, ⟨10, v2⟩] } ∧
      committed.versionHistories.histories =
        record.versionHistories.histories ++
          [{ branchToken := freshToken record.versionHistories.histories
             items := [⟨5, v1⟩, ⟨10, v2⟩] }] ∧
      committed.eventStore =
        record.eventStore ++ [(freshToken record.versionHistories.histories, newBatches)] ∧
      newBatches =
        batchesThrough (record.branchBatches current.branchToken) 5 ++ fetched ++
          [task.events.events] ∧
      newBatches.flatten.map (fun event => (event.eventId, event.version)) =
        [(1, v1), (2, v1), (3, v1), (4, v1), (5, v1), (6, v2), (7, v2), (8, v2), (9, v2),
          (10, v2)] ∧
      committed.mutableState = rebuild newBatches ∧
      (ApplyReplicationTask cfg call fuel store peer task).ops =
        [ .acquireLease ⟨task.namespaceId, task.workflowId, task.runId⟩ .high,
          .checkWorkflowExists ⟨task.namespaceId, task.workflowId, task.runId⟩ true,
          .loadWorkflow ⟨task.namespaceId, task.workflowId, task.runId⟩,
          .fetchRange ⟨task.namespaceId, task.workflowId, task.runId⟩ 5 v1
            (first.eventId - 1) v2,
          .backfillWorkflow ⟨task.namespaceId, task.workflowId, task.runId⟩ fetched,
          .updateWorkflow ⟨task.namespaceId, task.workflowId, task.runId⟩ true,
          .releaseLease ⟨task.namespaceId, task.workflowId, task.runId⟩ none ] ∧
      (ApplyReplicationTask cfg call fuel store peer task).peer = peer1 := by
  obtain ⟨hclass, hlca⟩ := compareForFork_fork v1 v2 hv
  have hincoming : incomingLineage task.versionHistoryItems last = [⟨5, v1⟩, ⟨10, v2⟩] := by
    rw [hlineage]
    simp [incomingLineage, hend.1, hend.2]
  have hversion : versionAt [⟨5, v1⟩, ⟨10, v2⟩] (first.eventId - 1) = some v2 := by
    have h5 : ¬ first.eventId - 1 ≤ 5 := by omega
    have h10 : first.eventId - 1 ≤ 10 := by omega
    simp [versionAt, List.find?, h5, h10]
  have hshared : (batchesThrough (record.branchBatches current.branchToken) 5).flatten.map
      (fun event => (event.eventId, event.version)) =
      [(1, v1), (2, v1), (3, v1), (4, v1), (5, v1)] := by
    rw [batchesThrough_flatten]
    have hcomm : ∀ events : List HistoryEvent,
        (events.filter fun event => decide (event.eventId ≤ 5)).map
          (fun event => (event.eventId, event.version)) =
        (events.map fun event => (event.eventId, event.version)).filter
          fun k => decide (k.1 ≤ 5) := by
      intro events
      induction events with
      | nil => rfl
      | cons e rest ih =>
        by_cases he : e.eventId ≤ 5
        · simp [List.filter_cons, he, ih]
        · simp [List.filter_cons, he, ih]
    rw [hcomm, hstored]
    simp [List.filter]
  have hkeys : (batchesThrough (record.branchBatches current.branchToken) 5 ++ fetched ++
      [task.events.events]).flatten.map (fun event => (event.eventId, event.version)) =
      [(1, v1), (2, v1), (3, v1), (4, v1), (5, v1), (6, v2), (7, v2), (8, v2), (9, v2),
        (10, v2)] := by
    have hsplit : (batchesThrough (record.branchBatches current.branchToken) 5 ++ fetched ++
        [task.events.events]).flatten =
        (batchesThrough (record.branchBatches current.branchToken) 5).flatten ++
          (fetched.flatten ++ task.events.events) := by
      simp [List.flatten_append]
    rw [hsplit, List.map_append, hshared, hnew]
    rfl
  have hrecord := recordEvents_fork (freshToken record.versionHistories.histories) v1 v2 hv _ hkeys
  have hgap1 : (5 : Int) + 1 < first.eventId := by omega
  have happly : applyFork call fuel store peer
      { namespaceID := task.namespaceId, workflowID := task.workflowId, runID := task.runId }
      record current [⟨5, v1⟩, ⟨10, v2⟩] task.events.events first ⟨5, v1⟩ =
      { peer := peer1
        ops := [.fetchRange ⟨task.namespaceId, task.workflowId, task.runId⟩ 5 v1
            (first.eventId - 1) v2,
          .backfillWorkflow ⟨task.namespaceId, task.workflowId, task.runId⟩ fetched,
          .updateWorkflow ⟨task.namespaceId, task.workflowId, task.runId⟩ true]
        outcome := .ok
          { store := storePut store
              { namespaceID := task.namespaceId, workflowID := task.workflowId,
                runID := task.runId }
              { versionHistories :=
                  { currentVersionHistoryIndex := record.versionHistories.histories.length
                    histories := record.versionHistories.histories ++
                      [{ branchToken := freshToken record.versionHistories.histories
                         items := [⟨5, v1⟩, ⟨10, v2⟩] }] }
                eventStore := record.eventStore ++
                  [(freshToken record.versionHistories.histories,
                    batchesThrough (record.branchBatches current.branchToken) 5 ++ fetched ++
                      [task.events.events])]
                mutableState := rebuild
                  (batchesThrough (record.branchBatches current.branchToken) 5 ++ fetched ++
                    [task.events.events]) }
            classification := .fork ⟨5, v1⟩ } } := by
    unfold applyFork
    simp only [hgap1, if_true, hversion, hfetch, hrecord, List.singleton_append,
      List.cons_append, List.nil_append]
  have hresult : ApplyReplicationTask cfg call fuel store peer task =
      { peer := peer1
        ops := [ .acquireLease ⟨task.namespaceId, task.workflowId, task.runId⟩ .high,
          .checkWorkflowExists ⟨task.namespaceId, task.workflowId, task.runId⟩ true,
          .loadWorkflow ⟨task.namespaceId, task.workflowId, task.runId⟩,
          .fetchRange ⟨task.namespaceId, task.workflowId, task.runId⟩ 5 v1
            (first.eventId - 1) v2,
          .backfillWorkflow ⟨task.namespaceId, task.workflowId, task.runId⟩ fetched,
          .updateWorkflow ⟨task.namespaceId, task.workflowId, task.runId⟩ true,
          .releaseLease ⟨task.namespaceId, task.workflowId, task.runId⟩ none ]
        outcome := .ok
          { store := storePut store
              { namespaceID := task.namespaceId, workflowID := task.workflowId,
                runID := task.runId }
              { versionHistories :=
                  { currentVersionHistoryIndex := record.versionHistories.histories.length
                    histories := record.versionHistories.histories ++
                      [{ branchToken := freshToken record.versionHistories.histories
                         items := [⟨5, v1⟩, ⟨10, v2⟩] }] }
                eventStore := record.eventStore ++
                  [(freshToken record.versionHistories.histories,
                    batchesThrough (record.branchBatches current.branchToken) 5 ++ fetched ++
                      [task.events.events])]
                mutableState := rebuild
                  (batchesThrough (record.branchBatches current.branchToken) 5 ++ fetched ++
                    [task.events.events]) }
            classification := .fork ⟨5, v1⟩ } } := by
    unfold ApplyReplicationTask applyLeased
    simp only [hhead, hlast, hlookup, hcurrent, hincoming, hlocal, hclass, happly,
      List.cons_append, List.nil_append, List.singleton_append, outcomeError]
  have happend : AppendItem { branchToken := current.branchToken, items := [⟨5, v1⟩] } ⟨7, v1⟩ =
      .ok current := by
    have hcur : current = { branchToken := current.branchToken, items := [⟨5, v1⟩, ⟨7, v1⟩] } := by
      cases current
      simp only [VersionHistory.mk.injEq, true_and]
      exact hlocal
    rw [hcur]
    simp [AppendItem]
  rw [hresult]
  refine ⟨hclass, hlca, happend, _, _, _, rfl, rfl, lookup_storePut _ _ _, ?_, rfl, rfl, rfl,
    hkeys, rfl, rfl, rfl⟩
  simp [WorkflowRecord.currentHistory]

/-- Witness for C5 at v1 = 1 and v2 = 2, with the task holding events 9-10 and a peer serving one
batch per page: for the local batches [1-5],[6-7] and for the local batches [1-3],[4-7], whose
second batch reaches beyond the common ancestor, the committed current history is
[(5,1),(10,2)] and the new branch holds events 1-10 without loss. -/
theorem fork_reconciliation_witness :
    (∃ applied committed,
      forkExample.outcome = .ok applied ∧
      applied.classification = .fork ⟨5, 1⟩ ∧
      applied.store.lookup forkExampleKey = some committed ∧
      committed.currentHistory = some { branchToken := 1, items := [⟨5, 1⟩, ⟨10, 2⟩] } ∧
      committed.eventStore.lookup 1 =
        some [ [⟨1, 1, .workflowExecutionStarted⟩, ⟨2, 1, .other⟩, ⟨3, 1, .other⟩,
                ⟨4, 1, .other⟩, ⟨5, 1, .other⟩],
               [⟨6, 2, .other⟩, ⟨7, 2, .other⟩, ⟨8, 2, .other⟩],
               [⟨9, 2, .other⟩, ⟨10, 2, .other⟩] ]) ∧
    (∃ applied committed,
      (ApplyReplicationTask forkExampleConfig PeerHistory.call 10 forkExampleStoreStraddling
        forkExamplePeer forkExampleTask).outcome = .ok applied ∧
      applied.classification = .fork ⟨5, 1⟩ ∧
      applied.store.lookup forkExampleKey = some committed ∧
      committed.currentHistory = some { branchToken := 1, items := [⟨5, 1⟩, ⟨10, 2⟩] } ∧
      committed.eventStore.lookup 1 =
        some [ [⟨1, 1, .workflowExecutionStarted⟩, ⟨2, 1, .other⟩, ⟨3, 1, .other⟩],
               [⟨4, 1, .other⟩, ⟨5, 1, .other⟩],
               [⟨6, 2, .other⟩, ⟨7, 2, .other⟩, ⟨8, 2, .other⟩],
               [⟨9, 2, .other⟩, ⟨10, 2, .other⟩] ]) := by
  constructor
  · obtain ⟨_, _, _, applied, committed, newBatches, h1, h2, h3, h4, _, h6, h7, _⟩ :=
      fork_reconciliation forkExampleConfig PeerHistory.call 10 forkExampleStore
        forkExamplePeer forkExamplePeer forkExampleTask
        { versionHistories :=
            { currentVersionHistoryIndex := 0
              histories := [{ branchToken := 0, items := [⟨5, 1⟩, ⟨7, 1⟩] }] }
          eventStore :=
            [ (0, [ [⟨1, 1, .workflowExecutionStarted⟩, ⟨2, 1, .other⟩, ⟨3, 1, .other⟩,
                     ⟨4, 1, .other⟩, ⟨5, 1, .other⟩],
                    [⟨6, 1, .other⟩, ⟨7, 1, .other⟩] ]) ]
          mutableState := { executionState := .running, timerInfos := 0, nextEventId := 8 } }
        { branchToken := 0, items := [⟨5, 1⟩, ⟨7, 1⟩] } 1 2 ⟨9, 2, .other⟩ ⟨10, 2, .other⟩
        [[⟨6, 2, .other⟩, ⟨7, 2, .other⟩, ⟨8, 2, .other⟩]]
        (by decide) rfl rfl rfl (by decide) rfl rfl rfl (by decide) (by decide) (by decide)
        (by decide)
    refine ⟨applied, committed, h1, h2, h3, h4, ?_⟩
    rw [h6, h7]
    rfl
  · obtain ⟨_, _, _, applied, committed, newBatches, h1, h2, h3, h4, _, h6, h7, _⟩ :=
      fork_reconciliation forkExampleConfig PeerHistory.call 10 forkExampleStoreStraddling
        forkExamplePeer forkExamplePeer forkExampleTask
        { versionHistories :=
            { currentVersionHistoryIndex := 0
              histories := [{ branchToken := 0, items := [⟨5, 1⟩, ⟨7, 1⟩] }] }
          eventStore :=
            [ (0, [ [⟨1, 1, .workflowExecutionStarted⟩, ⟨2, 1, .other⟩, ⟨3, 1, .other⟩],
                    [⟨4, 1, .other⟩, ⟨5, 1, .other⟩, ⟨6, 1, .other⟩, ⟨7, 1, .other⟩] ]) ]
          mutableState := { executionState := .running, timerInfos := 0, nextEventId := 8 } }
        { branchToken := 0, items := [⟨5, 1⟩, ⟨7, 1⟩] } 1 2 ⟨9, 2, .other⟩ ⟨10, 2, .other⟩
        [[⟨6, 2, .other⟩, ⟨7, 2, .other⟩, ⟨8, 2, .other⟩]]
        (by decide) rfl rfl rfl (by decide) rfl rfl rfl (by decide) (by decide) (by decide)
        (by decide)
    refine ⟨applied, committed, h1, h2, h3, h4, ?_⟩
    rw [h6, h7]
    rfl

/-! ## Theorems: the search attribute manager -/

/-- A call that needs no refresh leaves the manager as it is and answers from its cache. -/
theorem getSearchAttributes_fresh (m : managerImpl) (indexName : String)
    (forceRefreshCache : Bool)
    (hfresh : needRefreshCache (m.forceRefresh 0) m.cache forceRefreshCache m.now = false) :
    GetSearchAttributes m indexName forceRefreshCache =
      (m, searchAttributesOf m.cache indexName, none) := by
  unfold GetSearchAttributes
  simp only [hfresh, Bool.false_eq_true, if_false]

/-- A nil map has no key. -/
theorem goMapGet_nil {V : Type} (k : String) : goMapGet (none : GoMap V) k = none := rfl

/-- Reading a non-nil map. -/
theorem goMapGet_entries {V : Type} (entries : String → Option V) (k : String) :
    goMapGet (some entries) k = entries k := rfl

/-- The entries of the map returned for a non-empty index name: the entry of the empty-string
index when it has the key, else the entry of the index itself. -/
theorem searchAttributesOf_get (saCache : cache) (indexName : String) (hname : indexName ≠ "")
    (k : String) :
    goMapGet (searchAttributesOf saCache indexName).customSearchAttributes k =
      match goMapGet (cachedCustom saCache "") k with
      | some v => some v
      | none => goMapGet (cachedCustom saCache indexName) k := by
  unfold searchAttributesOf cachedCustom
  simp only [hname, ne_eq, not_false_eq_true, if_true, mapsClone]
  cases goMapGet saCache.searchAttributes indexName with
  | none =>
    cases goMapGet saCache.searchAttributes "" with
    | none => simp only [goMapGet_nil]
    | some e =>
      simp only [goMapGet_nil]
      cases goMapGet e.customSearchAttributes k <;> rfl
  | some i =>
    cases goMapGet saCache.searchAttributes "" with
    | none => simp only [goMapGet_nil]
    | some e =>
      cases hcustom : i.customSearchAttributes with
      | none =>
        simp only [goMapGet_nil]
        cases goMapGet e.customSearchAttributes k with
        | none => simp only [hcustom, goMapGet_nil]
        | some v => rfl
      | some dst =>
        simp only [goMapGet_entries, mapsCopy, hcustom]
        cases goMapGet e.customSearchAttributes k <;> rfl

/-- C13: for every non-empty index name and every cache that needs no refresh,
`GetSearchAttributes` returns without error and without touching the cache; the key set of the
returned custom search attributes is the union of the keys cached for the index name and the
keys cached for the empty-string index, and a key present only under the index name keeps the
type cached under the index name. -/
theorem getSearchAttributes_merges_empty_index (m : managerImpl) (indexName : String)
    (forceRefreshCache : Bool) (hname : indexName ≠ "")
    (hfresh : needRefreshCache (m.forceRefresh 0) m.cache forceRefreshCache m.now = false) :
    (GetSearchAttributes m indexName forceRefreshCache).2.2 = none ∧
    (GetSearchAttributes m indexName forceRefreshCache).1 = m ∧
    (∀ k, (goMapGet
        (GetSearchAttributes m indexName forceRefreshCache).2.1.customSearchAttributes k).isSome
        = true ↔
      (goMapGet (cachedCustom m.cache indexName) k).isSome = true ∨
      (goMapGet (cachedCustom m.cache "") k).isSome = true) ∧
    (∀ k v, goMapGet (cachedCustom m.cache indexName) k = some v →
      goMapGet (cachedCustom m.cache "") k = none →
      goMapGet
        (GetSearchAttributes m indexName forceRefreshCache).2.1.customSearchAttributes k
        = some v) := by
  rw [getSearchAttributes_fresh m indexName forceRefreshCache hfresh]
  refine ⟨rfl, rfl, ?_, ?_⟩
  · intro k
    show (goMapGet (searchAttributesOf m.cache indexName).customSearchAttributes k).isSome
      = true ↔ _
    rw [searchAttributesOf_get m.cache indexName hname k]
    cases goMapGet (cachedCustom m.cache "") k with
    | none => simp
    | some v => simp
  · intro k v hidx hempty
    show goMapGet (searchAttributesOf m.cache indexName).customSearchAttributes k = some v
    rw [searchAttributesOf_get m.cache indexName hname k, hempty]
    exact hidx

/-- Witness of C13: the index "visibility" of `sampleCache` answers with its own key and the key
of the empty-string index. -/
theorem getSearchAttributes_merges_empty_index_witness :
    needRefreshCache ((sampleManager (.error (.other "unused"))).forceRefresh 0) sampleCache
      false 500 = false ∧
    goMapGet (GetSearchAttributes (sampleManager (.error (.other "unused"))) "visibility"
      false).2.1.customSearchAttributes "CustomKeyword" = some 2 ∧
    ((goMapGet (GetSearchAttributes (sampleManager (.error (.other "unused"))) "visibility"
      false).2.1.customSearchAttributes "LegacyText").isSome = true ↔
      (goMapGet (cachedCustom sampleCache "visibility") "LegacyText").isSome = true ∨
      (goMapGet (cachedCustom sampleCache "") "LegacyText").isSome = true) :=
  have h := getSearchAttributes_merges_empty_index (sampleManager (.error (.other "unused")))
    "visibility" false (by decide) (by decide)
  ⟨by decide, h.2.2.2 "CustomKeyword" 2 (by decide) (by decide), h.2.2.1 "LegacyText"⟩

/-- C14: `GetSearchAttributes` accepts the empty string as index name: for a cache that needs no
refresh it returns without error, and without touching the cache, exactly the custom search
attributes cached under the empty-string index (the nil map when that index has no entry); no
other index contributes. -/
theorem getSearchAttributes_empty_index (m : managerImpl) (forceRefreshCache : Bool)
    (hfresh : needRefreshCache (m.forceRefresh 0) m.cache forceRefreshCache m.now = false) :
    (GetSearchAttributes m "" forceRefreshCache).2.2 = none ∧
    (GetSearchAttributes m "" forceRefreshCache).1 = m ∧
    (GetSearchAttributes m "" forceRefreshCache).2.1.customSearchAttributes =
      cachedCustom m.cache "" ∧
    (goMapGet m.cache.searchAttributes "" = none →
      (GetSearchAttributes m "" forceRefreshCache).2.1.customSearchAttributes = none) := by
  rw [getSearchAttributes_fresh m "" forceRefreshCache hfresh]
  have hresult : (searchAttributesOf m.cache "").customSearchAttributes =
      cachedCustom m.cache "" := by
    unfold searchAttributesOf cachedCustom
    simp only [ne_eq, not_true_eq_false, if_false, mapsClone]
    cases goMapGet m.cache.searchAttributes "" <;> rfl
  refine ⟨rfl, rfl, hresult, ?_⟩
  intro hnone
  show (searchAttributesOf m.cache "").customSearchAttributes = none
  rw [hresult]
  unfold cachedCustom
  rw [hnone]

/-- Witness of C14: the empty index name on `sampleCache` answers with the key of the
empty-string index only. -/
theorem getSearchAttributes_empty_index_witness :
    goMapGet (GetSearchAttributes (sampleManager (.error (.other "unused"))) ""
      false).2.1.customSearchAttributes "LegacyText" = some 1 ∧
    goMapGet (GetSearchAttributes (sampleManager (.error (.other "unused"))) ""
      false).2.1.customSearchAttributes "CustomKeyword" = none :=
  have h := getSearchAttributes_empty_index (sampleManager (.error (.other "unused"))) false
    (by decide)
  ⟨by rw [h.2.2.1]; decide, by rw [h.2.2.1]; decide⟩

/-- C15: `refreshCache` ignores a `NotFound` error from `GetCurrentClusterMetadata`: it returns
no error, keeps the cached search attributes and dbVersion unchanged, and stores the cache with
`expireOn` = now + 60 seconds. -/
theorem refreshCache_notFound (m : managerImpl) (saCache : cache) (now : Time)
    (message : String) (hread : m.getCurrentClusterMetadata = .error (.notFound message)) :
    (refreshCache m saCache now).2.2 = none ∧
    (refreshCache m saCache now).2.1.searchAttributes = saCache.searchAttributes ∧
    (refreshCache m saCache now).2.1.dbVersion = saCache.dbVersion ∧
    (refreshCache m saCache now).2.1.expireOn = now + 60 * 1000000000 ∧
    (refreshCache m saCache now).1.cache = (refreshCache m saCache now).2.1 := by
  unfold refreshCache
  rw [hread]
  exact ⟨rfl, rfl, rfl, rfl, rfl⟩

/-- Witness of C15 on `sampleManager`. -/
theorem refreshCache_notFound_witness :
    (refreshCache (sampleManager (.error (.notFound "no cluster metadata"))) sampleCache
      500).2.1.expireOn = 60000000500 ∧
    (refreshCache (sampleManager (.error (.notFound "no cluster metadata"))) sampleCache
      500).2.1.dbVersion = 7 :=
  have h := refreshCache_notFound (sampleManager (.error (.notFound "no cluster metadata")))
    sampleCache 500 "no cluster metadata" rfl
  ⟨h.2.2.2.1, h.2.2.1⟩

/-- C16: when persistence is `Unavailable`, `refreshCache` ignores the error and keeps using the
existing cache for `cacheRefreshIfUnavailableInterval`: it returns no error, leaves the cached
search attributes and dbVersion unchanged, and stores the cache with `expireOn` = now + 20
seconds. -/
theorem refreshCache_unavailable (m : managerImpl) (saCache : cache) (now : Time)
    (message : String) (hread : m.getCurrentClusterMetadata = .error (.unavailable message)) :
    (refreshCache m saCache now).2.2 = none ∧
    (refreshCache m saCache now).2.1.searchAttributes = saCache.searchAttributes ∧
    (refreshCache m saCache now).2.1.dbVersion = saCache.dbVersion ∧
    (refreshCache m saCache now).2.1.expireOn = now + 20 * 1000000000 ∧
    (refreshCache m saCache now).2.1.expireOn = now + cacheRefreshIfUnavailableInterval ∧
    (refreshCache m saCache now).1.cache = (refreshCache m saCache now).2.1 := by
  unfold refreshCache
  rw [hread]
  exact ⟨rfl, rfl, rfl, rfl, rfl, rfl⟩

/-- Witness of C16 on `sampleManager`. -/
theorem refreshCache_unavailable_witness :
    (refreshCache (sampleManager (.error (.unavailable "persistence down"))) sampleCache
      500).2.1.expireOn = 20000000500 ∧
    (refreshCache (sampleManager (.error (.unavailable "persistence down"))) sampleCache
      500).2.1.dbVersion = 7 :=
  have h := refreshCache_unavailable (sampleManager (.error (.unavailable "persistence down")))
    sampleCache 500 "persistence down" rfl
  ⟨h.2.2.2.1, h.2.2.1⟩

/-- C17: when the cluster metadata version read by `refreshCache` is at most the cached
dbVersion, the database is treated as unchanged: the cached search attributes and dbVersion are
kept, no error is returned, and only `expireOn` changes, to now + 60 seconds, in the returned
and in the stored cache. -/
theorem refreshCache_unchanged_version (m : managerImpl) (saCache : cache) (now : Time)
    (response : GetClusterMetadataResponse)
    (hread : m.getCurrentClusterMetadata = .ok response)
    (hversion : response.version ≤ saCache.dbVersion) :
    (refreshCache m saCache now).2.2 = none ∧
    (refreshCache m saCache now).2.1 =
      { saCache with expireOn := now + 60 * 1000000000 } ∧
    (refreshCache m saCache now).2.1.searchAttributes = saCache.searchAttributes ∧
    (refreshCache m saCache now).2.1.dbVersion = saCache.dbVersion ∧
    (refreshCache m saCache now).1.cache = (refreshCache m saCache now).2.1 := by
  unfold refreshCache
  rw [hread]
  dsimp only
  rw [if_pos hversion]
  exact ⟨rfl, rfl, rfl, rfl, rfl⟩

/-- Witness of C17 on `sampleManager`: the metadata is at the cached version 7. -/
theorem refreshCache_unchanged_version_witness :
    sampleMetadataResponse.version ≤ sampleCache.dbVersion ∧
    (refreshCache (sampleManager (.ok sampleMetadataResponse)) sampleCache 500).2.1.expireOn
      = 60000000500 ∧
    (refreshCache (sampleManager (.ok sampleMetadataResponse)) sampleCache 500).2.1.dbVersion
      = 7 :=
  have h := refreshCache_unchanged_version (sampleManager (.ok sampleMetadataResponse))
    sampleCache 500 sampleMetadataResponse rfl (by decide)
  ⟨by decide, by rw [h.2.1]; decide, h.2.2.2.1⟩

/-- C18, counterexample: when `GetCurrentClusterMetadata` fails, `SaveSearchAttributes` returns
that error with the cache of the manager still at dbVersion 7, not the empty cache. -/
theorem saveSearchAttributes_keeps_cache_on_read_error :
    (SaveSearchAttributes (sampleManager (.error (.unavailable "persistence down")))
      "visibility" none).2.1 = some (.unavailable "persistence down") ∧
    (SaveSearchAttributes (sampleManager (.error (.unavailable "persistence down")))
      "visibility" none).1.cache.dbVersion = 7 ∧
    (SaveSearchAttributes (sampleManager (.error (.unavailable "persistence down")))
      "visibility" none).1.cache.dbVersion ≠ emptyCache.dbVersion ∧
    (SaveSearchAttributes (sampleManager (.error (.unavailable "persistence down")))
      "visibility" none).1.cache.expireOn ≠ emptyCache.expireOn := by
  decide

/-- C18, amended: after a call to `SaveSearchAttributes` in which `GetCurrentClusterMetadata`
succeeds, whether `SaveClusterMetadata` returns nil or an error (the error is returned), the
cache of the manager is the empty cache (no search attributes, dbVersion 0, zero expiry); when
`GetCurrentClusterMetadata` fails, its error is returned, nothing is saved and the cache is left
as it was. -/
theorem saveSearchAttributes_flushes_cache (m : managerImpl) (indexName : String)
    (newCustomSearchAttributes : GoMap IndexedValueType) :
    (SaveSearchAttributes m indexName newCustomSearchAttributes).1.cache =
      (match m.getCurrentClusterMetadata with
        | .ok _ => emptyCache
        | .error _ => m.cache) ∧
    (SaveSearchAttributes m indexName newCustomSearchAttributes).2.1 =
      (match m.getCurrentClusterMetadata with
        | .ok _ =>
          match (SaveSearchAttributes m indexName newCustomSearchAttributes).2.2 with
          | [] => none
          | request :: _ => m.saveClusterMetadata request
        | .error err => some err) ∧
    (SaveSearchAttributes m indexName newCustomSearchAttributes).2.2.length =
      (match m.getCurrentClusterMetadata with
        | .ok _ => 1
        | .error _ => 0) ∧
    emptyCache.searchAttributes = none ∧ emptyCache.dbVersion = 0 ∧
    emptyCache.expireOn = zeroTime := by
  unfold SaveSearchAttributes
  cases m.getCurrentClusterMetadata with
  | error err => exact ⟨rfl, rfl, rfl, rfl, rfl, rfl⟩
  | ok response => exact ⟨rfl, rfl, rfl, rfl, rfl, rfl⟩

/-- C19: `SaveSearchAttributes` saves the search attributes to cluster metadata: when the read
succeeds, exactly one request is passed to `SaveClusterMetadata`; it maps the index name to
exactly the new custom search attributes, keeps the entry of every other index name as it was
read (none when the metadata read has no index map at all), and carries the version returned by
the preceding `GetCurrentClusterMetadata`; the index name may be the empty string. -/
theorem saveSearchAttributes_request (m : managerImpl) (indexName : String)
    (newCustomSearchAttributes : GoMap IndexedValueType) (response : GetClusterMetadataResponse)
    (hread : m.getCurrentClusterMetadata = .ok response) :
    ∃ request, (SaveSearchAttributes m indexName newCustomSearchAttributes).2.2 = [request] ∧
      request.version = response.version ∧
      goMapGet request.clusterMetadata.indexSearchAttributes indexName =
        some (some { customSearchAttributes := newCustomSearchAttributes }) ∧
      (∀ k, k ≠ indexName →
        goMapGet request.clusterMetadata.indexSearchAttributes k =
          goMapGet response.clusterMetadata.indexSearchAttributes k) ∧
      (response.clusterMetadata.indexSearchAttributes = none → ∀ k, k ≠ indexName →
        goMapGet request.clusterMetadata.indexSearchAttributes k = none) := by
  unfold SaveSearchAttributes
  rw [hread]
  refine ⟨_, rfl, rfl, ?_, ?_, ?_⟩
  · simp [goMapGet]
  · intro k hk
    cases hmap : response.clusterMetadata.indexSearchAttributes with
    | none => simp [goMapGet, hk, hmap]
    | some entries => simp [goMapGet, hk, hmap]
  · intro hnil k hk
    simp [goMapGet, hk, hnil]

/-- Witness of C19 on `sampleManager`, with the empty string as index name. -/
theorem saveSearchAttributes_request_witness :
    ∃ request, (SaveSearchAttributes (sampleManager (.ok sampleMetadataResponse)) ""
        none).2.2 = [request] ∧
      request.version = 7 ∧
      goMapGet request.clusterMetadata.indexSearchAttributes "visibility" = some none :=
  have h := saveSearchAttributes_request (sampleManager (.ok sampleMetadataResponse)) "" none
    sampleMetadataResponse rfl
  h.elim fun request hr =>
    ⟨request, hr.1, hr.2.1, by rw [hr.2.2.2.1 "visibility" (by decide)]; rfl⟩

/-! ## Theorems: the Cassandra schema tool -/

/-- C20: the quiet flag means "Don't set exit status to 1 on error": `cliHandler` calls the
handler exactly once, calls `osExit(1)` if and only if the handler returns an error and the quiet
flag is not set, and never calls `osExit` with another code. -/
theorem cliHandler_exit_status (CLIOptQuiet : String) (c : CliContext)
    (handler : CliContext → Option GoError) :
    (cliHandler CLIOptQuiet c handler).count CliEffect.handler = 1 ∧
    (CliEffect.osExit 1 ∈ cliHandler CLIOptQuiet c handler ↔
      (handler c).isSome = true ∧ c.globalBool CLIOptQuiet = false) ∧
    (∀ code, CliEffect.osExit code ∈ cliHandler CLIOptQuiet c handler → code = 1) ∧
    (cliHandler CLIOptQuiet c handler).head? = some CliEffect.handler := by
  unfold cliHandler
  cases hq : c.globalBool CLIOptQuiet <;> cases he : (handler c).isSome <;>
    simp [hq, he, List.count_cons]

/-! ## Theorems: the multi-run scenario -/

/-- Every call recorded by the script is expected once and has not been called. -/
theorem registered_fresh (s : Suite) (workflowID runID : String)
    (eventBatches : List EventBatch) (history : Option VersionHistory)
    (calls : List ExpectedCall)
    (hreg : mockActiveGetRawHistoryApiCallsRegistered s workflowID runID eventBatches history =
      some calls) :
    ∀ c ∈ calls, c.times = some 1 ∧ c.numCalls = 0 := by
  unfold mockActiveGetRawHistoryApiCallsRegistered at hreg
  cases hb : eventBatches.getLast? with
  | none => rw [hb] at hreg; simp at hreg
  | some lastBatch =>
    rw [hb] at hreg
    cases he : lastBatch.getLast? with
    | none => simp only [he] at hreg; simp at hreg
    | some lastEvent =>
      simp only [he] at hreg
      cases eventBatches with
      | nil => simp at hreg
      | cons first rest =>
        cases rest with
        | nil =>
          simp only [Option.some.injEq] at hreg
          subst hreg
          intro c hc
          simp only [List.mem_singleton] at hc
          subst hc
          exact ⟨rfl, rfl⟩
        | cons second rest2 =>
          simp only [Option.some.injEq] at hreg
          subst hreg
          intro c hc
          rcases List.mem_cons.mp hc with hc | hc
          · subst hc
            exact ⟨rfl, rfl⟩
          · have h := (mockLoop_spec s workflowID runID lastEvent history (second :: rest2) 1
              (runID ++ "-next-page-token" ++ "0")).2.1 c hc
            exact ⟨h.2.1, h.2.2.1⟩

/-- Once the script of a run has been used up, its calls cannot answer for any run. -/
theorem registered_called_inert (s : Suite) (workflowID runID other : String)
    (eventBatches : List EventBatch) (history : Option VersionHistory)
    (calls : List ExpectedCall)
    (hreg : mockActiveGetRawHistoryApiCallsRegistered s workflowID runID eventBatches history =
      some calls) :
    ∀ d ∈ calls.map ExpectedCall.called, d.inertFor other := by
  intro d hd
  obtain ⟨c, hc, hcd⟩ := List.mem_map.mp hd
  obtain ⟨htimes, hnum⟩ := registered_fresh s workflowID runID eventBatches history calls hreg c hc
  rw [← hcd]
  exact called_inertFor c other htimes hnum

/-- C11: multi-run migration back.  For two runs of one workflow ID with different run IDs, each
with events 1-5 at version 2 (owned by the passive cluster), supplying the first batch of run 1
and then the first batch of run 2 leaves both runs present in the passive cluster in the
completed execution state, each after its own backfill fetch of events 1-5 from the scripted
peer, whose six recorded calls are each used once. -/
theorem multiRunMigrationBack_completed (namespaceID workflowId runId1 runId2 : String)
    (hruns : runId1 ≠ runId2) :
    ∃ r1 r2 record1 record2,
      multiRunMigrationBack { namespaceID := namespaceID, expected := [] } workflowId runId1
        runId2 = some (r1, r2) ∧
      committedRecord r2 ⟨namespaceID, workflowId, runId1⟩ = some record1 ∧
      committedRecord r2 ⟨namespaceID, workflowId, runId2⟩ = some record2 ∧
      record1.mutableState.executionState = .completed ∧
      record2.mutableState.executionState = .completed ∧
      r1.ops =
        [ .acquireLease ⟨namespaceID, workflowId, runId1⟩ .high,
          .checkWorkflowExists ⟨namespaceID, workflowId, runId1⟩ false,
          .fetchRange ⟨namespaceID, workflowId, runId1⟩ 0 0 5 2,
          .backfillWorkflow ⟨namespaceID, workflowId, runId1⟩ (getEventSlices 2 0),
          .updateWorkflow ⟨namespaceID, workflowId, runId1⟩ true,
          .releaseLease ⟨namespaceID, workflowId, runId1⟩ none ] ∧
      r2.ops =
        [ .acquireLease ⟨namespaceID, workflowId, runId2⟩ .high,
          .checkWorkflowExists ⟨namespaceID, workflowId, runId2⟩ false,
          .fetchRange ⟨namespaceID, workflowId, runId2⟩ 0 0 5 2,
          .backfillWorkflow ⟨namespaceID, workflowId, runId2⟩ (getEventSlices 2 10),
          .updateWorkflow ⟨namespaceID, workflowId, runId2⟩ true,
          .releaseLease ⟨namespaceID, workflowId, runId2⟩ none ] ∧
      r2.peer.expected.map (fun c => (c.method, c.numCalls)) =
        [ (.getWorkflowExecutionRawHistory, 1), (.getWorkflowExecutionRawHistory, 1),
          (.getWorkflowExecutionRawHistory, 1), (.getWorkflowExecutionRawHistory, 1),
          (.getWorkflowExecutionRawHistory, 1), (.getWorkflowExecutionRawHistory, 1) ] ∧
      r2.peer.expected.all (fun c => c.satisfied) = true := by
  -- first application: the script of run 1 is used, the script of run 2 is left
  have hfetch1 := fetchRangeInclusive_script { namespaceID := namespaceID, expected := [] }
    workflowId runId1 (getEventSlices 2 0) (some multiRunHistory)
    (multiRunScript namespaceID workflowId runId1)
    [⟨4, 2, .workflowTaskCompleted⟩, ⟨5, 2, .workflowExecutionCompleted⟩]
    ⟨5, 2, .workflowExecutionCompleted⟩ [] (multiRunScript namespaceID workflowId runId2)
    passiveFetchBudget rfl rfl rfl (by decide) (by simp)
  have himport1 := applyNewHistory_import passiveClusterConfig
    (mockAdminClientCall .getWorkflowExecutionRawHistory) passiveFetchBudget [] _ _
    ⟨namespaceID, workflowId, runId1⟩ multiRunHistory.items
    [⟨1, 2, .workflowExecutionStarted⟩, ⟨2, 2, .workflowTaskScheduled⟩]
    ⟨1, 2, .workflowExecutionStarted⟩ ⟨2, 2, .workflowTaskScheduled⟩ ⟨5, 2⟩
    (getEventSlices 2 0) multiRunHistory rfl rfl hfetch1 (by decide) (by decide)
  have hresult1 := applyReplicationTask_absent passiveClusterConfig
    (mockAdminClientCall .getWorkflowExecutionRawHistory) passiveFetchBudget []
    ({ namespaceID := namespaceID
       expected := [] ++ (multiRunScript namespaceID workflowId runId1 ++
        multiRunScript namespaceID workflowId runId2) } : Suite)
    (createHistoryEventReplicationTaskFromHistoryEventBatch namespaceID workflowId runId1
      [⟨1, 2, .workflowExecutionStarted⟩, ⟨2, 2, .workflowTaskScheduled⟩] none
      multiRunHistory.items)
    ⟨1, 2, .workflowExecutionStarted⟩ ⟨2, 2, .workflowTaskScheduled⟩ rfl rfl rfl
  simp only [createHistoryEventReplicationTaskFromHistoryEventBatch, serializeEvents]
    at hresult1
  rw [himport1] at hresult1
  -- second application: the used script of run 1 is inert for run 2
  have hfetch2 := fetchRangeInclusive_script { namespaceID := namespaceID, expected := [] }
    workflowId runId2 (getEventSlices 2 0) (some multiRunHistory)
    (multiRunScript namespaceID workflowId runId2)
    [⟨4, 2, .workflowTaskCompleted⟩, ⟨5, 2, .workflowExecutionCompleted⟩]
    ⟨5, 2, .workflowExecutionCompleted⟩
    ((multiRunScript namespaceID workflowId runId1).map ExpectedCall.called) []
    passiveFetchBudget rfl rfl rfl (by decide)
    (registered_called_inert { namespaceID := namespaceID, expected := [] } workflowId runId1
      runId2 (getEventSlices 2 0) (some multiRunHistory) _ rfl)
  have hkeys : (⟨namespaceID, workflowId, runId1⟩ : RunKey) ≠ ⟨namespaceID, workflowId, runId2⟩ := by
    intro h
    exact hruns (RunKey.mk.inj h).2.2
  have himport2 := applyNewHistory_import passiveClusterConfig
    (mockAdminClientCall .getWorkflowExecutionRawHistory) passiveFetchBudget
    (storePut [] ⟨namespaceID, workflowId, runId1⟩ multiRunRecord) _ _
    ⟨namespaceID, workflowId, runId2⟩ multiRunHistory.items
    [⟨1, 2, .workflowExecutionStarted⟩, ⟨2, 2, .workflowTaskScheduled⟩]
    ⟨1, 2, .workflowExecutionStarted⟩ ⟨2, 2, .workflowTaskScheduled⟩ ⟨5, 2⟩
    (getEventSlices 2 0) multiRunHistory rfl rfl hfetch2 (by decide) (by decide)
  have hresult2 := applyReplicationTask_absent passiveClusterConfig
    (mockAdminClientCall .getWorkflowExecutionRawHistory) passiveFetchBudget
    (storePut [] ⟨namespaceID, workflowId, runId1⟩ multiRunRecord)
    ({ namespaceID := namespaceID
       expected := (multiRunScript namespaceID workflowId runId1).map ExpectedCall.called ++
        (multiRunScript namespaceID workflowId runId2 ++ []) } : Suite)
    (createHistoryEventReplicationTaskFromHistoryEventBatch namespaceID workflowId runId2
      [⟨1, 2, .workflowExecutionStarted⟩, ⟨2, 2, .workflowTaskScheduled⟩] none
      multiRunHistory.items)
    ⟨1, 2, .workflowExecutionStarted⟩ ⟨2, 2, .workflowTaskScheduled⟩ rfl rfl
    (by
      simp only [createHistoryEventReplicationTaskFromHistoryEventBatch, storePut, List.lookup]
      have hne : ((⟨namespaceID, workflowId, runId2⟩ : RunKey) ==
          ⟨namespaceID, workflowId, runId1⟩) = false := by
        simp only [beq_eq_false_iff_ne, ne_eq]
        exact fun h => hkeys h.symm
      simp only [hne])
  simp only [createHistoryEventReplicationTaskFromHistoryEventBatch, serializeEvents]
    at hresult2
  rw [himport2] at hresult2
  -- the two applications in sequence
  have hscenario : multiRunMigrationBack { namespaceID := namespaceID, expected := [] }
      workflowId runId1 runId2 =
      (fun r1 : ApplyResult Suite => some (r1, supplyTask r1.peer (storeAfter [] r1)
        (createHistoryEventReplicationTaskFromHistoryEventBatch namespaceID workflowId runId2
          [⟨1, 2, .workflowExecutionStarted⟩, ⟨2, 2, .workflowTaskScheduled⟩] none
          multiRunHistory.items)))
        (supplyTask
          { namespaceID := namespaceID
            expected := [] ++ (multiRunScript namespaceID workflowId runId1 ++
              multiRunScript namespaceID workflowId runId2) } []
          (createHistoryEventReplicationTaskFromHistoryEventBatch namespaceID workflowId runId1
            [⟨1, 2, .workflowExecutionStarted⟩, ⟨2, 2, .workflowTaskScheduled⟩] none
            multiRunHistory.items)) := rfl
  have hne12 : ((⟨namespaceID, workflowId, runId1⟩ : RunKey) ==
      ⟨namespaceID, workflowId, runId2⟩) = false := by
    simp only [beq_eq_false_iff_ne, ne_eq]
    exact hkeys
  refine ⟨_, _, multiRunRecord, multiRunRecord,
    (hscenario.trans (congrArg
      (fun r1 : ApplyResult Suite => some (r1, supplyTask r1.peer (storeAfter [] r1)
        (createHistoryEventReplicationTaskFromHistoryEventBatch namespaceID workflowId runId2
          [⟨1, 2, .workflowExecutionStarted⟩, ⟨2, 2, .workflowTaskScheduled⟩] none
          multiRunHistory.items))) hresult1)).trans
      (congrArg (fun r => some (_, r)) hresult2),
    ?_, ?_, by decide, by decide, rfl, rfl, rfl, rfl⟩
  · simp [committedRecord, storePut, List.lookup, hkeys]
  · have hne21 : ((⟨namespaceID, workflowId, runId2⟩ : RunKey) ==
        ⟨namespaceID, workflowId, runId1⟩) = false := by
      simp only [beq_eq_false_iff_ne, ne_eq]
      exact fun h => hkeys h.symm
    simp [committedRecord, storePut, List.lookup, hkeys, hne12, hne21, Ne.symm hkeys]
    rfl

/-- Witness for C11 at the identifiers of the test: with the distinct run IDs "run-1" and
"run-2" both runs are stored in the completed state, and every scripted call of the peer has
been made. -/
theorem multiRunMigrationBack_completed_witness :
    "run-1" ≠ "run-2" ∧
    ∃ r1 r2 record1 record2,
      multiRunMigrationBack { namespaceID := "namespace-id", expected := [] }
        "ndc-test-migration-back-0" "run-1" "run-2" = some (r1, r2) ∧
      committedRecord r2 ⟨"namespace-id", "ndc-test-migration-back-0", "run-1"⟩ = some record1 ∧
      committedRecord r2 ⟨"namespace-id", "ndc-test-migration-back-0", "run-2"⟩ = some record2 ∧
      record1.mutableState.executionState = .completed ∧
      record2.mutableState.executionState = .completed ∧
      r2.peer.expected.all (fun c => c.satisfied) = true :=
  ⟨by decide,
    match multiRunMigrationBack_completed "namespace-id" "ndc-test-migration-back-0" "run-1"
      "run-2" (by decide) with
    | ⟨r1, r2, record1, record2, h1, h2, h3, h4, h5, _, _, _, h9⟩ =>
      ⟨r1, r2, record1, record2, h1, h2, h3, h4, h5, h9⟩⟩

/-! ## Theorems: the command `drop-keyspace` -/

/-- The effects of `cliHandler` contain the run of the handler. -/
theorem handler_mem_cliHandler (CLIOptQuiet : String) (c : CliContext)
    (handler : CliContext → Option GoError) :
    CliEffect.handler ∈ cliHandler CLIOptQuiet c handler := by
  unfold cliHandler
  dsimp only
  split <;> simp

/-- The action of `drop-keyspace` when the force flag is set: `cliHandler` alone. -/
theorem dropKeyspaceAction_forced (CLIOptQuiet CLIOptForce CLIOptKeyspace : String)
    (c : CliContext) (scanned : Option String) (dropKeyspace : CliContext → Option GoError)
    (hforce : c.bool CLIOptForce = true) :
    dropKeyspaceAction CLIOptQuiet CLIOptForce CLIOptKeyspace c scanned dropKeyspace =
      (cliHandler CLIOptQuiet c dropKeyspace).map .cli := by
  simp [dropKeyspaceAction, hforce]

/-- The action of `drop-keyspace` when the force flag is not set: the prompt, the read of the
answer, and `cliHandler` when the answer is "y" or "Y". -/
theorem dropKeyspaceAction_prompted (CLIOptQuiet CLIOptForce CLIOptKeyspace : String)
    (c : CliContext) (scanned : Option String) (dropKeyspace : CliContext → Option GoError)
    (hforce : c.bool CLIOptForce = false) :
    dropKeyspaceAction CLIOptQuiet CLIOptForce CLIOptKeyspace c scanned dropKeyspace =
      [.printf "Are you sure you want to drop keyspace %q (y/N)? " [c.string CLIOptKeyspace],
        .scanln] ++
      (if scanned = some "y" ∨ scanned = some "Y" then
        (cliHandler CLIOptQuiet c dropKeyspace).map .cli
      else []) := by
  cases scanned with
  | none => simp [dropKeyspaceAction, hforce]
  | some y =>
    by_cases hy : y = "y" ∨ y = "Y"
    · simp [dropKeyspaceAction, hforce, hy]
    · simp [dropKeyspaceAction, hforce, hy]

/-- C21: the command `drop-keyspace` runs the handler `dropKeyspace` if and only if the force
flag is set or the confirmation answer read from input is exactly "y" or "Y", and then runs it
once, through `cliHandler`.  With the force flag set nothing is printed and no confirmation is
read.  Without the force flag, any other answer (also no answer at all, on empty input) leaves
the keyspace untouched: the action only prompts and reads, neither running a handler nor
calling `osExit`. -/
theorem dropKeyspaceAction_confirmation (CLIOptQuiet CLIOptForce CLIOptKeyspace : String)
    (c : CliContext) (scanned : Option String) (dropKeyspace : CliContext → Option GoError) :
    (ActionEffect.cli .handler ∈
        dropKeyspaceAction CLIOptQuiet CLIOptForce CLIOptKeyspace c scanned dropKeyspace ↔
      c.bool CLIOptForce = true ∨ scanned = some "y" ∨ scanned = some "Y") ∧
    (dropKeyspaceAction CLIOptQuiet CLIOptForce CLIOptKeyspace c scanned dropKeyspace).count
        (.cli .handler) ≤ 1 ∧
    (c.bool CLIOptForce = true →
      ActionEffect.scanln ∉
        dropKeyspaceAction CLIOptQuiet CLIOptForce CLIOptKeyspace c scanned dropKeyspace ∧
      dropKeyspaceAction CLIOptQuiet CLIOptForce CLIOptKeyspace c scanned dropKeyspace =
        (cliHandler CLIOptQuiet c dropKeyspace).map .cli) ∧
    (c.bool CLIOptForce = false → scanned ≠ some "y" → scanned ≠ some "Y" →
      dropKeyspaceAction CLIOptQuiet CLIOptForce CLIOptKeyspace c scanned dropKeyspace =
        [.printf "Are you sure you want to drop keyspace %q (y/N)? " [c.string CLIOptKeyspace],
          .scanln]) ∧
    (c.bool CLIOptForce = false → (scanned = some "y" ∨ scanned = some "Y") →
      dropKeyspaceAction CLIOptQuiet CLIOptForce CLIOptKeyspace c scanned dropKeyspace =
        [.printf "Are you sure you want to drop keyspace %q (y/N)? " [c.string CLIOptKeyspace],
          .scanln] ++ (cliHandler CLIOptQuiet c dropKeyspace).map .cli) := by
  have hmem := handler_mem_cliHandler CLIOptQuiet c dropKeyspace
  have hcount : ((cliHandler CLIOptQuiet c dropKeyspace).map ActionEffect.cli).count
      (.cli .handler) ≤ 1 := by
    unfold cliHandler
    dsimp only
    split <;> simp [List.count_cons]
  cases hforce : c.bool CLIOptForce with
  | true =>
    have hrun := dropKeyspaceAction_forced CLIOptQuiet CLIOptForce CLIOptKeyspace c scanned
      dropKeyspace hforce
    rw [hrun]
    refine ⟨?_, hcount, fun _ => ⟨?_, rfl⟩, fun h => absurd h (by decide),
      fun h => absurd h (by decide)⟩
    · simp [hmem]
    · simp
  | false =>
    have hrun := dropKeyspaceAction_prompted CLIOptQuiet CLIOptForce CLIOptKeyspace c scanned
      dropKeyspace hforce
    rw [hrun]
    by_cases hy : scanned = some "y" ∨ scanned = some "Y"
    · rw [if_pos hy]
      refine ⟨?_, ?_, fun h => absurd h (by decide), fun _ h1 h2 => ?_, fun _ _ => rfl⟩
      · simp [hmem, hy]
      · simpa [List.count_cons] using hcount
      · exact absurd hy (by simp [h1, h2])
    · rw [if_neg hy]
      refine ⟨?_, ?_, fun h => absurd h (by decide), fun _ _ _ => rfl, fun _ h => absurd h hy⟩
      · simp [hy]
      · simp [List.count_cons]

/-- Witness for C21: with the force flag set and a failing handler the action runs the handler
without reading a confirmation; without the flag, the answer "yes" and empty input only prompt
and read, and the answer "Y" runs the handler. -/
theorem dropKeyspaceAction_confirmation_witness :
    (ActionEffect.scanln ∉ dropKeyspaceAction "quiet" "force" "keyspace"
        (sampleContext true false) none (fun _ => some { msg := "no such keyspace" }) ∧
      dropKeyspaceAction "quiet" "force" "keyspace" (sampleContext true false) none
          (fun _ => some { msg := "no such keyspace" }) =
        (cliHandler "quiet" (sampleContext true false)
          (fun _ => some { msg := "no such keyspace" })).map .cli) ∧
    dropKeyspaceAction "quiet" "force" "keyspace" (sampleContext false false) (some "yes")
        (fun _ => none) =
      [.printf "Are you sure you want to drop keyspace %q (y/N)? " ["temporal"], .scanln] ∧
    dropKeyspaceAction "quiet" "force" "keyspace" (sampleContext false false) none
        (fun _ => none) =
      [.printf "Are you sure you want to drop keyspace %q (y/N)? " ["temporal"], .scanln] ∧
    dropKeyspaceAction "quiet" "force" "keyspace" (sampleContext false false) (some "Y")
        (fun _ => none) =
      [.printf "Are you sure you want to drop keyspace %q (y/N)? " ["temporal"], .scanln,
        .cli .handler] :=
  ⟨(dropKeyspaceAction_confirmation "quiet" "force" "keyspace" (sampleContext true false) none
      (fun _ => some { msg := "no such keyspace" })).2.2.1 (by decide),
    (dropKeyspaceAction_confirmation "quiet" "force" "keyspace" (sampleContext false false)
      (some "yes") (fun _ => none)).2.2.2.1 (by decide) (by decide) (by decide),
    (dropKeyspaceAction_confirmation "quiet" "force" "keyspace" (sampleContext false false)
      none (fun _ => none)).2.2.2.1 (by decide) (by decide) (by decide),
    (dropKeyspaceAction_confirmation "quiet" "force" "keyspace" (sampleContext false false)
      (some "Y") (fun _ => none)).2.2.2.2 (by decide) (by decide)⟩

/-! ## Theorems: the error paths of `GenerateTask` -/

/-- `GenerateTask` once the namespace and the lease have been obtained: the result of the leased
body, and its calls between the two lookups and the release. -/
theorem generateTask_leased (env : Env) (request : GenerateLastHistoryReplicationTasksRequest)
    (entry : NamespaceEntry) (execution : WorkflowExecution) (lease : ChasmLease)
    (hns : env.getNamespace request.namespaceId = .ok entry)
    (hexec : request.execution = some execution)
    (hlease : env.getChasmLease ⟨entry.id, execution.workflowId, execution.runId⟩ .any .high =
      .ok lease) :
    GenerateTask env request =
      ((generateTaskLeased env request entry.id execution lease).1,
        [.getNamespace request.namespaceId,
          .getChasmLease ⟨entry.id, execution.workflowId, execution.runId⟩ .any .high] ++
        (generateTaskLeased env request entry.id execution lease).2 ++
        [.release (retErrorOf (generateTaskLeased env request entry.id execution lease).1)]) := by
  unfold GenerateTask
  simp only [hns, hexec, hlease]

/-- C22: once the namespace and the lease have been obtained, if `GenerateMigrationTasks`
returns an error, `GenerateTask` returns a nil response with that error and never calls
`AddTasks`; if `AddTasks` returns an error, `GenerateTask` returns a nil response with that
error; and whenever a non-nil response is returned, the namespace lookup, the lease,
`GenerateMigrationTasks` and `AddTasks` (called with the generated tasks) all succeeded. -/
theorem generateTask_error_paths (env : Env)
    (request : GenerateLastHistoryReplicationTasksRequest) :
    (∀ entry execution lease err,
      env.getNamespace request.namespaceId = .ok entry →
      request.execution = some execution →
      env.getChasmLease ⟨entry.id, execution.workflowId, execution.runId⟩ .any .high =
        .ok lease →
      lease.generateMigrationTasks request.targetClusters = .error err →
      (GenerateTask env request).1 = .error err ∧
      ∀ addRequest, Call.addTasks addRequest ∉ (GenerateTask env request).2) ∧
    (∀ entry execution lease replicationTasks stateTransitionCount err,
      env.getNamespace request.namespaceId = .ok entry →
      request.execution = some execution →
      env.getChasmLease ⟨entry.id, execution.workflowId, execution.runId⟩ .any .high =
        .ok lease →
      lease.generateMigrationTasks request.targetClusters =
        .ok (replicationTasks, stateTransitionCount) →
      env.addTasks
        { shardID := env.shardID
          namespaceID := entry.id
          workflowID := execution.workflowId
          tasks := [(Category.replication, replicationTasks)] } = some err →
      (GenerateTask env request).1 = .error err) ∧
    (∀ response, (GenerateTask env request).1 = .ok response →
      ∃ entry execution lease replicationTasks stateTransitionCount,
        env.getNamespace request.namespaceId = .ok entry ∧
        request.execution = some execution ∧
        env.getChasmLease ⟨entry.id, execution.workflowId, execution.runId⟩ .any .high =
          .ok lease ∧
        lease.generateMigrationTasks request.targetClusters =
          .ok (replicationTasks, stateTransitionCount) ∧
        env.addTasks
          { shardID := env.shardID
            namespaceID := entry.id
            workflowID := execution.workflowId
            tasks := [(Category.replication, replicationTasks)] } = none ∧
        response.stateTransitionCount = stateTransitionCount) := by
  refine ⟨?_, ?_, ?_⟩
  · intro entry execution lease err hns hexec hlease hgen
    rw [generateTask_leased env request entry execution lease hns hexec hlease]
    unfold generateTaskLeased
    simp only [hgen]
    refine ⟨trivial, fun addRequest h => ?_⟩
    simp at h
  · intro entry execution lease replicationTasks stateTransitionCount err hns hexec hlease hgen
      hadd
    rw [generateTask_leased env request entry execution lease hns hexec hlease]
    unfold generateTaskLeased
    simp only [hgen, hadd]
  · intro response hresp
    cases hns : env.getNamespace request.namespaceId with
    | error err =>
      unfold GenerateTask at hresp
      simp only [hns] at hresp
      cases hresp
    | ok entry =>
      cases hexec : request.execution with
      | none =>
        unfold GenerateTask at hresp
        simp only [hns, hexec] at hresp
        cases hresp
      | some execution =>
        cases hlease : env.getChasmLease ⟨entry.id, execution.workflowId, execution.runId⟩
            .any .high with
        | error err =>
          unfold GenerateTask at hresp
          simp only [hns, hexec, hlease] at hresp
          cases hresp
        | ok lease =>
          rw [generateTask_leased env request entry execution lease hns hexec hlease] at hresp
          unfold generateTaskLeased at hresp
          cases hgen : lease.generateMigrationTasks request.targetClusters with
          | error err =>
            simp only [hgen] at hresp
            cases hresp
          | ok generated =>
            obtain ⟨replicationTasks, stateTransitionCount⟩ := generated
            simp only [hgen] at hresp
            cases hadd : env.addTasks
                { shardID := env.shardID
                  namespaceID := entry.id
                  workflowID := execution.workflowId
                  tasks := [(Category.replication, replicationTasks)] } with
            | some err =>
              simp only [hadd] at hresp
              cases hresp
            | none =>
              simp only [hadd] at hresp
              refine ⟨entry, execution, lease, replicationTasks, stateTransitionCount, rfl, rfl,
                hlease, hgen, hadd, ?_⟩
              cases hresp
              rfl

/-- Witness for C22: with the sample collaborators, a failure of task generation and a
rejection by the shard are each returned as the error, without a call of `AddTasks` in the
first case, and the response of the successful call comes with a successful `AddTasks`. -/
theorem generateTask_error_paths_witness :
    ((GenerateTask sampleEnvFailingGenerate sampleRequest).1 =
        .error { msg := "mutable state is closed" } ∧
      ∀ addRequest,
        Call.addTasks addRequest ∉ (GenerateTask sampleEnvFailingGenerate sampleRequest).2) ∧
    (GenerateTask sampleEnvFailingAdd sampleRequest).1 =
      .error { msg := "shard ownership lost" } ∧
    (GenerateTask sampleEnv sampleRequest).1 =
      .ok { stateTransitionCount := 3, historyLength := 12 } ∧
    ∃ addRequest, sampleEnv.addTasks addRequest = none :=
  ⟨(generateTask_error_paths sampleEnvFailingGenerate sampleRequest).1
      { id := "ns-1" } { workflowId := "wf-1", runId := "run-1" } failingLease
      { msg := "mutable state is closed" } rfl rfl rfl rfl,
    (generateTask_error_paths sampleEnvFailingAdd sampleRequest).2.1
      { id := "ns-1" } { workflowId := "wf-1", runId := "run-1" } sampleLease
      [{ id := 1 }] 3 { msg := "shard ownership lost" } rfl rfl rfl rfl rfl,
    by decide,
    match (generateTask_error_paths sampleEnv sampleRequest).2.2
      { stateTransitionCount := 3, historyLength := 12 } (by decide) with
    | ⟨_, _, _, _, _, _, _, _, _, hadd, _⟩ => ⟨_, hadd⟩⟩

end Temporal
